import Mathlib

/-!
# UnifiedLAB — verification of the core subsystems

A shallow embedding of the UnifiedLAB orchestrator core (event log,
resource ledger, workflow graph, marketplace coordinator) together with
proofs about the properties stated in the specification.

Modelling conventions:
* Machine integers are `Nat` with explicit `% 2^w` where the code can wrap.
* Bytes are `Nat` values `< 256`; byte strings are `List Nat`.
* File I/O, environment probing and the wall clock are abstracted by
  passing their results as parameters.
-/

namespace ULab

/-! ## Event log (src/eventlog.rs)

Frames on disk are `MAGIC(4) | CRC32(4) | LEN(4) | PAYLOAD(LEN)`, all
little-endian.  The payload is the bincode encoding (fixed-width integers,
`u64` length prefixes) of `DiskRecord { ts_ms, kind, payload_json }`.
JSON values are modelled by their serialized bytes; success of the
reader's `serde_json::from_slice` call on those bytes is modelled by the
`jsonOk` validator below. -/

def MAGIC_BYTES : Nat := 0x554C4142

def MAX_RECORD_SIZE : Nat := 128 * 1024 * 1024

/-- `u32::to_le_bytes`. -/
def u32le (n : Nat) : List Nat :=
  [n % 256, n / 256 % 256, n / 65536 % 256, n / 16777216 % 256]

/-- `u64::to_le_bytes` (bincode fixed-width integer encoding). -/
def u64le (n : Nat) : List Nat :=
  [n % 256, n / 256 % 256, n / 65536 % 256, n / 16777216 % 256,
   n / 4294967296 % 256, n / 1099511627776 % 256,
   n / 281474976710656 % 256, n / 72057594037927936 % 256]

/-- `u32::from_le_bytes` applied to the four bytes at position `p`;
`none` when fewer than four bytes remain (a failing `read_exact`). -/
def getU32 (bs : List Nat) (p : Nat) : Option Nat :=
  match bs.drop p with
  | b0 :: b1 :: b2 :: b3 :: _ => some (b0 + 256 * b1 + 65536 * b2 + 16777216 * b3)
  | _ => none

/-- One shift-xor round of the reflected CRC-32 (polynomial `0xEDB88320`). -/
def crcStep (c : Nat) : Nat :=
  if c % 2 = 1 then (c / 2) ^^^ 0xEDB88320 else c / 2

/-- Fold one byte into the CRC-32 state. -/
def crcByte (c b : Nat) : Nat := crcStep^[8] (c ^^^ b)

/-- CRC-32 of a byte string, as computed by `crc32fast::Hasher`. -/
def crc32 (bs : List Nat) : Nat := (bs.foldl crcByte 0xFFFFFFFF) ^^^ 0xFFFFFFFF

/-- The low-level record stored on disk (`DiskRecord` in src/eventlog.rs).
`ts_ms` is the 64-bit timestamp pattern, `kind` the UTF-8 bytes of the kind
string, `payload_json` the serialized JSON payload bytes. -/
structure DiskRecord where
  ts_ms : Nat
  kind : List Nat
  payload_json : List Nat
  deriving DecidableEq

/-- Bincode serialization of a `DiskRecord` (fixed-width ints, `u64` length
prefixes for the string and the byte vector). -/
def encodeDiskRecord (r : DiskRecord) : List Nat :=
  u64le r.ts_ms ++ u64le r.kind.length ++ r.kind ++
    u64le r.payload_json.length ++ r.payload_json

/-- Read a little-endian `u64`, returning it and the remaining bytes. -/
def readU64 (bs : List Nat) : Option (Nat × List Nat) :=
  match bs with
  | b0 :: b1 :: b2 :: b3 :: b4 :: b5 :: b6 :: b7 :: rest =>
      some (b0 + 256 * b1 + 65536 * b2 + 16777216 * b3 + 4294967296 * b4 +
        1099511627776 * b5 + 281474976710656 * b6 + 72057594037927936 * b7, rest)
  | _ => none

/-- Bincode deserialization of a `DiskRecord` (trailing bytes allowed, as by
the legacy `bincode::deserialize` options). -/
def decodeDiskRecord (bs : List Nat) : Option DiskRecord :=
  match readU64 bs with
  | none => none
  | some (ts, r1) =>
    match readU64 r1 with
    | none => none
    | some (klen, r2) =>
      if klen ≤ r2.length then
        match readU64 (r2.drop klen) with
        | none => none
        | some (plen, r4) =>
          if plen ≤ r4.length then some ⟨ts, r2.take klen, r4.take plen⟩ else none
      else none

/-! ### JSON payload validation

`EventLogReader::next` step I inflates `payload_json` with
`serde_json::from_slice::<Value>` and skips the frame when that fails
(src/eventlog.rs:310-319).  `jsonOk` models success of that call as a
byte-level validator for the JSON grammar: whitespace handling, the
`null`/`true`/`false` literals, numbers, strings (escape sequences,
`\uXXXX` with surrogate pairing, UTF-8 continuation bytes, unescaped
control characters rejected), arrays and objects, `serde_json`'s
container recursion limit of 128, and the requirement that only
whitespace follows the top-level value.  Numeric range errors (literals
whose exponent overflows `f64`) are not modelled. -/

/-- Skip JSON whitespace (space, tab, line feed, carriage return). -/
def wsSkip : List Nat → List Nat
  | [] => []
  | b :: rest =>
    if b = 32 ∨ b = 9 ∨ b = 10 ∨ b = 13 then wsSkip rest else b :: rest

/-- Is the byte an ASCII hex digit? -/
def hexDigit (b : Nat) : Bool :=
  decide ((48 ≤ b ∧ b ≤ 57) ∨ (97 ≤ b ∧ b ≤ 102) ∨ (65 ≤ b ∧ b ≤ 70))

/-- Value of an ASCII hex digit. -/
def hexVal (b : Nat) : Nat :=
  if b ≤ 57 then b - 48 else if b ≤ 70 then b - 55 else b - 87

/-- Consume a run of ASCII decimal digits. -/
def digitsGo : List Nat → List Nat
  | [] => []
  | b :: r => if 48 ≤ b ∧ b ≤ 57 then digitsGo r else b :: r

/-- Consume one or more ASCII decimal digits. -/
def parseDigits1 : List Nat → Option (List Nat)
  | [] => none
  | b :: r => if 48 ≤ b ∧ b ≤ 57 then some (digitsGo r) else none

/-- Integer part of a JSON number: `0`, or a nonzero digit followed by
digits. -/
def parseIntPart : List Nat → Option (List Nat)
  | [] => none
  | b :: r =>
    if b = 48 then some r
    else if 49 ≤ b ∧ b ≤ 57 then some (digitsGo r)
    else none

/-- Optional fraction part of a JSON number: `.` followed by digits. -/
def parseFrac (bs : List Nat) : Option (List Nat) :=
  match bs with
  | b :: r => if b = 46 then parseDigits1 r else some bs
  | [] => some bs

/-- Optional exponent part of a JSON number: `e`/`E`, optional sign,
digits. -/
def parseExp (bs : List Nat) : Option (List Nat) :=
  match bs with
  | b :: r =>
    if b = 101 ∨ b = 69 then
      match r with
      | s :: r2 => if s = 43 ∨ s = 45 then parseDigits1 r2 else parseDigits1 (s :: r2)
      | [] => none
    else some bs
  | [] => some bs

/-- JSON number: optional minus, integer part, optional fraction and
exponent. -/
def parseNumber (bs : List Nat) : Option (List Nat) :=
  let bs1 := match bs with
    | b :: r => if b = 45 then r else b :: r
    | [] => []
  match parseIntPart bs1 with
  | none => none
  | some r1 =>
    match parseFrac r1 with
    | none => none
    | some r2 => parseExp r2

/-- Body of a JSON string after the opening quote, fuel-indexed (the fuel
always covers the remaining bytes).  Accepts the standard escapes, `\u`
escapes with surrogate pairing, and well-formed UTF-8 sequences; rejects
unescaped control characters, lone surrogates and invalid UTF-8. -/
def pStr : Nat → List Nat → Option (List Nat)
  | 0, _ => none
  | _, [] => none
  | fuel + 1, b :: rest =>
    if b = 34 then some rest
    else if b = 92 then
      match rest with
      | [] => none
      | e :: r =>
        if e = 34 ∨ e = 92 ∨ e = 47 ∨ e = 98 ∨ e = 102 ∨ e = 110 ∨ e = 114 ∨ e = 116 then
          pStr fuel r
        else if e = 117 then
          match r with
          | h1 :: h2 :: h3 :: h4 :: r2 =>
            if hexDigit h1 ∧ hexDigit h2 ∧ hexDigit h3 ∧ hexDigit h4 then
              let cp := hexVal h1 * 4096 + hexVal h2 * 256 + hexVal h3 * 16 + hexVal h4
              if 55296 ≤ cp ∧ cp ≤ 56319 then
                match r2 with
                | s1 :: s2 :: g1 :: g2 :: g3 :: g4 :: r3 =>
                  if s1 = 92 ∧ s2 = 117 ∧ hexDigit g1 ∧ hexDigit g2 ∧ hexDigit g3 ∧
                      hexDigit g4 then
                    let cp2 := hexVal g1 * 4096 + hexVal g2 * 256 + hexVal g3 * 16 + hexVal g4
                    if 56320 ≤ cp2 ∧ cp2 ≤ 57343 then pStr fuel r3 else none
                  else none
                | _ => none
              else if 56320 ≤ cp ∧ cp ≤ 57343 then none
              else pStr fuel r2
            else none
          | _ => none
        else none
    else if b < 32 then none
    else if b ≤ 127 then pStr fuel rest
    else if 194 ≤ b ∧ b ≤ 223 then
      match rest with
      | c1 :: r2 => if 128 ≤ c1 ∧ c1 ≤ 191 then pStr fuel r2 else none
      | [] => none
    else if b = 224 then
      match rest with
      | c1 :: c2 :: r2 =>
        if 160 ≤ c1 ∧ c1 ≤ 191 ∧ 128 ≤ c2 ∧ c2 ≤ 191 then pStr fuel r2 else none
      | _ => none
    else if (225 ≤ b ∧ b ≤ 236) ∨ b = 238 ∨ b = 239 then
      match rest with
      | c1 :: c2 :: r2 =>
        if 128 ≤ c1 ∧ c1 ≤ 191 ∧ 128 ≤ c2 ∧ c2 ≤ 191 then pStr fuel r2 else none
      | _ => none
    else if b = 237 then
      match rest with
      | c1 :: c2 :: r2 =>
        if 128 ≤ c1 ∧ c1 ≤ 159 ∧ 128 ≤ c2 ∧ c2 ≤ 191 then pStr fuel r2 else none
      | _ => none
    else if b = 240 then
      match rest with
      | c1 :: c2 :: c3 :: r2 =>
        if 144 ≤ c1 ∧ c1 ≤ 191 ∧ 128 ≤ c2 ∧ c2 ≤ 191 ∧ 128 ≤ c3 ∧ c3 ≤ 191 then
          pStr fuel r2
        else none
      | _ => none
    else if 241 ≤ b ∧ b ≤ 243 then
      match rest with
      | c1 :: c2 :: c3 :: r2 =>
        if 128 ≤ c1 ∧ c1 ≤ 191 ∧ 128 ≤ c2 ∧ c2 ≤ 191 ∧ 128 ≤ c3 ∧ c3 ≤ 191 then
          pStr fuel r2
        else none
      | _ => none
    else if b = 244 then
      match rest with
      | c1 :: c2 :: c3 :: r2 =>
        if 128 ≤ c1 ∧ c1 ≤ 143 ∧ 128 ≤ c2 ∧ c2 ≤ 191 ∧ 128 ≤ c3 ∧ c3 ≤ 191 then
          pStr fuel r2
        else none
      | _ => none
    else none

/-- Body of a JSON string after the opening quote. -/
def parseStringBody (bs : List Nat) : Option (List Nat) :=
  pStr (bs.length + 1) bs

/-- What the recursive-descent validator is currently parsing: a value,
the elements of an array after `[`, or the members of an object
after `{`. -/
inductive PMode
  | val
  | elems
  | members

/-- Fuel-indexed recursive-descent JSON validator.  `depth` models
`serde_json`'s remaining container recursion budget: entering an array or
object requires it to be nonzero and decrements it.  Every recursive call
either consumes a byte or alternates `elems`/`members` with `val`, so
fuel `2 * length + 4` always suffices. -/
def pRun : Nat → PMode → Nat → List Nat → Option (List Nat)
  | 0, _, _, _ => none
  | fuel + 1, PMode.val, depth, bs =>
    match wsSkip bs with
    | [] => none
    | b :: rest =>
      if b = 110 then
        match rest with
        | x :: y :: z :: r => if x = 117 ∧ y = 108 ∧ z = 108 then some r else none
        | _ => none
      else if b = 116 then
        match rest with
        | x :: y :: z :: r => if x = 114 ∧ y = 117 ∧ z = 101 then some r else none
        | _ => none
      else if b = 102 then
        match rest with
        | x :: y :: z :: w :: r =>
          if x = 97 ∧ y = 108 ∧ z = 115 ∧ w = 101 then some r else none
        | _ => none
      else if b = 34 then parseStringBody rest
      else if b = 91 then
        if depth = 0 then none
        else
          match wsSkip rest with
          | x :: r => if x = 93 then some r else pRun fuel PMode.elems (depth - 1) (x :: r)
          | [] => none
      else if b = 123 then
        if depth = 0 then none
        else
          match wsSkip rest with
          | x :: r => if x = 125 then some r else pRun fuel PMode.members (depth - 1) (x :: r)
          | [] => none
      else if b = 45 ∨ (48 ≤ b ∧ b ≤ 57) then parseNumber (b :: rest)
      else none
  | fuel + 1, PMode.elems, depth, bs =>
    match pRun fuel PMode.val depth bs with
    | none => none
    | some r =>
      match wsSkip r with
      | x :: r2 =>
        if x = 44 then pRun fuel PMode.elems depth r2
        else if x = 93 then some r2
        else none
      | [] => none
  | fuel + 1, PMode.members, depth, bs =>
    match wsSkip bs with
    | x :: rest =>
      if x = 34 then
        match parseStringBody rest with
        | none => none
        | some r =>
          match wsSkip r with
          | y :: r2 =>
            if y = 58 then
              match pRun fuel PMode.val depth r2 with
              | none => none
              | some r3 =>
                match wsSkip r3 with
                | z :: r4 =>
                  if z = 44 then pRun fuel PMode.members depth r4
                  else if z = 125 then some r4
                  else none
                | [] => none
            else none
          | [] => none
      else none
    | [] => none

/-- Success of `serde_json::from_slice::<Value>` on the byte string: one
JSON value, possibly surrounded by whitespace, and nothing else.  The
initial budget of 127 container levels matches `serde_json`'s recursion
limit (`remaining_depth` starts at 128 and entering the 128th nested
container fails). -/
def jsonOk (bs : List Nat) : Bool :=
  match pRun (2 * bs.length + 4) PMode.val 127 bs with
  | some r => (wsSkip r).isEmpty
  | none => false

/-- The byte frame written by `EventLogWriter::append`:
`[MAGIC][CRC][LEN][DATA]`. -/
def frameBytes (r : DiskRecord) : List Nat :=
  u32le MAGIC_BYTES ++ u32le (crc32 (encodeDiskRecord r)) ++
    u32le (encodeDiskRecord r).length ++ encodeDiskRecord r

/-- The log file produced by a sequence of `append` calls. -/
def encodeLog (rs : List DiskRecord) : List Nat := (rs.map frameBytes).flatten

/-- Records the writer accepts: byte values in range, timestamp fits in 64
bits, the encoded record respects the 128 MB limit, and the payload bytes
are a valid JSON document (the writer produces them with
`serde_json::to_vec` of a `Value`, so this always holds for its output). -/
def WFRecord (r : DiskRecord) : Prop :=
  r.ts_ms < 18446744073709551616 ∧ (∀ b ∈ r.kind, b < 256) ∧
    (∀ b ∈ r.payload_json, b < 256) ∧
    (encodeDiskRecord r).length ≤ MAX_RECORD_SIZE ∧
    jsonOk r.payload_json = true

instance (r : DiskRecord) : Decidable (WFRecord r) := by
  unfold WFRecord; infer_instance

/-- The envelope returned by `EventLogReader::next`. -/
structure EventEnvelope where
  offset : Nat
  next_offset : Nat
  record : DiskRecord
  deriving DecidableEq

/-- Fuel-indexed body of the byte-by-byte rolling-window scan; the fuel
always covers the bytes remaining after `pos`. -/
def scanForMagicFuel (bs : List Nat) : Nat → Nat → Option Nat
  | _, 0 => none
  | pos, fuel + 1 =>
    if pos + 4 ≤ bs.length then
      if getU32 bs pos = some MAGIC_BYTES then some pos
      else scanForMagicFuel bs (pos + 1) fuel
    else none

/-- `EventLogReader::scan_for_magic`: the first position `≥ pos` whose four
bytes decode to the magic value; `none` if the scan hits end of file. -/
def scanForMagic (bs : List Nat) (pos : Nat) : Option Nat :=
  scanForMagicFuel bs pos (bs.length + 1 - pos)

/-- Outcome of one iteration of the `loop` in `EventLogReader::next`. -/
inductive StepResult
  | yield (env : EventEnvelope) (next : Nat)
  | skipTo (next : Nat)
  | eof
  deriving DecidableEq

/-- One iteration of the reader loop at cursor `c`: read and validate magic,
metadata, length, payload, CRC, then decode the bincode container and
inflate the JSON payload; on framing errors scan for the next magic; on
bincode or inner-JSON decode errors skip the frame (cursor jumps to
`start_pos + 12 + len`); on truncation stop. -/
def stepRead (bs : List Nat) (c : Nat) : StepResult :=
  match getU32 bs c with
  | none => .eof
  | some magic =>
    if magic = MAGIC_BYTES then
      match getU32 bs (c + 4), getU32 bs (c + 8) with
      | some crc, some len =>
        if len > MAX_RECORD_SIZE then
          match scanForMagic bs (c + 1) with
          | some p => .skipTo p
          | none => .eof
        else if c + 12 + len ≤ bs.length then
          if crc32 ((bs.drop (c + 12)).take len) = crc then
            match decodeDiskRecord ((bs.drop (c + 12)).take len) with
            | some r =>
              if jsonOk r.payload_json then .yield ⟨c, c + 12 + len, r⟩ (c + 12 + len)
              else .skipTo (c + 12 + len)
            | none => .skipTo (c + 12 + len)
          else
            match scanForMagic bs (c + 1) with
            | some p => .skipTo p
            | none => .eof
        else .eof
      | _, _ => .eof
    else
      match scanForMagic bs (c + 1) with
      | some p => .skipTo p
      | none => .eof

/-- Fuel-indexed iteration of the reader loop; the fuel always covers the
bytes remaining after the cursor. -/
def nextRecordFuel (bs : List Nat) : Nat → Nat → Option (EventEnvelope × Nat)
  | _, 0 => none
  | c, fuel + 1 =>
    match stepRead bs c with
    | .yield e n => some (e, n)
    | .skipTo n => nextRecordFuel bs n fuel
    | .eof => none

/-- `EventLogReader::next`: iterate `stepRead` from cursor `c` until a record
is produced or end of file is reached; returns the envelope and the new
cursor. -/
def nextRecord (bs : List Nat) (c : Nat) : Option (EventEnvelope × Nat) :=
  nextRecordFuel bs c (bs.length + 1 - c)

/-- Fuel-indexed iteration of `nextRecord`. -/
def readAllFuel (bs : List Nat) : Nat → Nat → List EventEnvelope
  | _, 0 => []
  | c, fuel + 1 =>
    match nextRecord bs c with
    | some (e, n) => e :: readAllFuel bs n fuel
    | none => []

/-- Repeatedly call `nextRecord` from cursor `c`, collecting every envelope
the reader yields (a fresh reader from offset 0 uses `c = 0`). -/
def readAll (bs : List Nat) (c : Nat) : List EventEnvelope :=
  readAllFuel bs c (bs.length + 1 - c)

/-- The envelopes the specification expects from reading back a sequence of
appended records, starting at byte offset `base`. -/
def expectedEnvelopes : List DiskRecord → Nat → List EventEnvelope
  | [], _ => []
  | r :: rest, base =>
      ⟨base, base + (frameBytes r).length, r⟩ ::
        expectedEnvelopes rest (base + (frameBytes r).length)

/-! ## Resource ledger (src/resources.rs)

Environment probing in `detect` (batch-system variables, `nvidia-smi`) is
I/O; its results are passed as parameters, and the mask initialization and
all ledger operations mirror the source. -/

inductive ClusterType
  | Local
  | Slurm
  | Pbs
  deriving DecidableEq

/-- An allocation receipt (`Sandbox` in src/resources.rs). -/
structure Sandbox where
  cores : List Nat
  gpus : List Nat
  memory_mb_limit : Option Nat
  deriving DecidableEq

/-- The ledger state: inventory limits plus the two busy bitmasks
(`true` = busy). -/
structure ResourceLedger where
  cluster_type : ClusterType
  total_cores : Nat
  total_gpus : Nat
  core_mask : List Bool
  gpu_mask : List Bool
  deriving DecidableEq

/-- Loop body of `ResourceLedger::find_free_indices`: walk the mask pushing
free indices; break as soon as the number pushed reaches `count`. -/
def findFreeGo (count : Nat) : List Bool → Nat → Nat → List Nat
  | [], _, _ => []
  | b :: rest, i, pushed =>
    if b then findFreeGo count rest (i + 1) pushed
    else if pushed + 1 = count then [i]
    else i :: findFreeGo count rest (i + 1) (pushed + 1)

/-- `ResourceLedger::find_free_indices`. -/
def find_free_indices (mask : List Bool) (count : Nat) : List Nat :=
  findFreeGo count mask 0 0

/-- Mark the given indices busy. -/
def markBusy (mask : List Bool) (idxs : List Nat) : List Bool :=
  idxs.foldl (fun m i => m.set i true) mask

/-- Clear the given indices; `List.set` ignores out-of-range indices, which
matches the defensive `idx < len` guard in `ResourceLedger::free`. -/
def clearBusy (mask : List Bool) (idxs : List Nat) : List Bool :=
  idxs.foldl (fun m i => m.set i false) mask

/-- `ResourceLedger::try_allocate`: check GPU availability, then core
availability, then commit both. -/
def try_allocate (l : ResourceLedger) (req_cores req_gpus : Nat) :
    Option Sandbox × ResourceLedger :=
  if (find_free_indices l.gpu_mask req_gpus).length < req_gpus then (none, l)
  else if (find_free_indices l.core_mask req_cores).length < req_cores then (none, l)
  else
    (some ⟨find_free_indices l.core_mask req_cores,
        find_free_indices l.gpu_mask req_gpus, none⟩,
      { l with
        gpu_mask := markBusy l.gpu_mask (find_free_indices l.gpu_mask req_gpus),
        core_mask := markBusy l.core_mask (find_free_indices l.core_mask req_cores) })

/-- `ResourceLedger::free`. -/
def freeSandbox (l : ResourceLedger) (sb : Sandbox) : ResourceLedger :=
  { l with
    gpu_mask := clearBusy l.gpu_mask sb.gpus,
    core_mask := clearBusy l.core_mask sb.cores }

/-- `ResourceLedger::free_cores`: count of currently free CPU cores. -/
def free_cores (l : ResourceLedger) : Nat :=
  (l.core_mask.filter (fun busy => !busy)).length

/-- `ResourceLedger::free_gpus`. -/
def free_gpus (l : ResourceLedger) : Nat :=
  (l.gpu_mask.filter (fun busy => !busy)).length

/-- `ResourceLedger::detect` (lines 103–144) given the detected cluster type,
core count and GPU count: in `Local` mode with more than 4 cores one core is
reserved for the OS/guardian by permanently marking the last mask bit busy. -/
def detect (ctype : ClusterType) (cores gpus : Nat) : ResourceLedger :=
  let usable := if ctype = ClusterType.Local ∧ cores > 4 then cores - 1 else cores
  let mask0 := List.replicate cores false
  let mask1 := if usable < cores then mask0.set (cores - 1) true else mask0
  { cluster_type := ctype
    total_cores := cores
    total_gpus := gpus
    core_mask := mask1
    gpu_mask := List.replicate gpus false }

/-- The number of cores schedulable after `detect`'s reservation. -/
def usableCores (ctype : ClusterType) (cores : Nat) : Nat :=
  if ctype = ClusterType.Local ∧ cores > 4 then cores - 1 else cores

/-- One step of an allocate/free interleaving: `alloc` calls `try_allocate`
and keeps the returned sandbox live; `release k` frees the `k`-th live
sandbox (frees are applied only to live sandboxes, as in the claim). -/
inductive LedgerOp
  | alloc (req_cores req_gpus : Nat)
  | release (k : Nat)
  deriving DecidableEq

structure LedgerState where
  ledger : ResourceLedger
  live : List Sandbox
  deriving DecidableEq

def ledgerStep (s : LedgerState) (op : LedgerOp) : LedgerState :=
  match op with
  | .alloc rc rg =>
    match try_allocate s.ledger rc rg with
    | (some sb, l') => ⟨l', sb :: s.live⟩
    | (none, l') => ⟨l', s.live⟩
  | .release k =>
    match s.live.get? k with
    | some sb => ⟨freeSandbox s.ledger sb, s.live.eraseIdx k⟩
    | none => s

/-- Run an interleaving of allocations and frees from a fresh ledger. -/
def ledgerRun (ctype : ClusterType) (cores gpus : Nat) (ops : List LedgerOp) :
    LedgerState :=
  ops.foldl ledgerStep ⟨detect ctype cores gpus, []⟩

/-- Mask bit lookup with the out-of-range default. -/
def maskGet (mask : List Bool) (i : Nat) : Bool := mask.getD i false

/-- Count of busy bits. -/
def busyCount (mask : List Bool) : Nat := (mask.filter id).length

/-- Invariant tying a mask to the reserved indices and the index lists of
the live sandboxes drawn from it. -/
def MaskInv (mask : List Bool) (resv : List Nat) (allocs : List (List Nat)) :
    Prop :=
  (resv ++ allocs.flatten).Nodup ∧
  (∀ i ∈ resv ++ allocs.flatten, i < mask.length ∧ maskGet mask i = true) ∧
  busyCount mask = (resv ++ allocs.flatten).length

/-- The indices `detect` permanently reserves. -/
def reservedList (ctype : ClusterType) (cores : Nat) : List Nat :=
  if ctype = ClusterType.Local ∧ cores > 4 then [cores - 1] else []

/-- Full ledger invariant: both masks tie out against the reserved indices
and the live sandboxes, and the masks have the detected lengths. -/
def LedgerInv (ctype : ClusterType) (cores gpus : Nat) (s : LedgerState) : Prop :=
  MaskInv s.ledger.core_mask (reservedList ctype cores) (s.live.map Sandbox.cores) ∧
  MaskInv s.ledger.gpu_mask [] (s.live.map Sandbox.gpus) ∧
  s.ledger.core_mask.length = cores ∧ s.ledger.gpu_mask.length = gpus

/- ### JSON values (`serde_json::Value`)
Machine floating-point (`f64`) and integer (`u64`) numbers are modelled as
rationals: every numeric literal the program manipulates embeds in `ℚ` and
the comparisons the code performs carry over verbatim. -/

mutual
inductive Js where
  | null
  | jbool (b : Bool)
  | num (q : Rat)
  | str (s : String)
  | arr (elts : JsArr)
  | obj (fields : JsObj)
  deriving DecidableEq
inductive JsArr where
  | nil
  | cons (hd : Js) (tl : JsArr)
  deriving DecidableEq
inductive JsObj where
  | nil
  | cons (key : String) (val : Js) (tl : JsObj)
  deriving DecidableEq
end

def JsObj.get? (k : String) : JsObj → Option Js
  | .nil => none
  | .cons key v tl => if key = k then some v else JsObj.get? k tl

/-- `serde_json` object insert: replace the value in place if the key is
present, append otherwise. -/
def JsObj.insert (k : String) (x : Js) : JsObj → JsObj
  | .nil => .cons k x .nil
  | .cons key v tl =>
    if key = k then .cons key x tl else .cons key v (JsObj.insert k x tl)

/-- `Value::get(key)`: field lookup, `None` on non-objects. -/
def Js.get (v : Js) (k : String) : Option Js :=
  match v with
  | .obj o => o.get? k
  | _ => none

/-- `Value::as_u64`: numbers that are nonnegative integers. -/
def Js.asU64 : Js → Option Nat
  | .num q => if q.den = 1 ∧ 0 ≤ q.num then some q.num.toNat else none
  | _ => none

/-- `Value::as_f64`. -/
def Js.asF64 : Js → Option Rat
  | .num q => some q
  | _ => none

/-- `params.as_object_mut()` followed by `insert`: mutate object values,
leave every other value untouched. -/
def Js.objInsert (v : Js) (k : String) (x : Js) : Js :=
  match v with
  | .obj o => .obj (o.insert k x)
  | other => other

def jsArrOfList : List Js → JsArr
  | [] => .nil
  | x :: xs => .cons x (jsArrOfList xs)

def jsObjOfList : List (String × Js) → JsObj
  | [] => .nil
  | (k, v) :: rest => .cons k v (jsObjOfList rest)

/- ### Association-list models of `HashMap`
Lookup finds the first matching key, insert replaces in place or appends,
modify touches the first match only. -/

def alookup {α β : Type} [DecidableEq α] (k : α) : List (α × β) → Option β
  | [] => none
  | (a, b) :: rest => if a = k then some b else alookup k rest

def aset {α β : Type} [DecidableEq α] (k : α) (v : β) :
    List (α × β) → List (α × β)
  | [] => [(k, v)]
  | (a, b) :: rest => if a = k then (k, v) :: rest else (a, b) :: aset k v rest

def amodify {α β : Type} [DecidableEq α] (k : α) (f : β → β) :
    List (α × β) → List (α × β)
  | [] => []
  | (a, b) :: rest =>
    if a = k then (a, f b) :: rest else (a, b) :: amodify k f rest

/-- `HashSet::insert` on a duplicate-free list model. -/
def sinsert (x : Nat) (s : List Nat) : List Nat :=
  if s.contains x then s else x :: s

/- ### Core domain types (`src/core.rs`)
`Uuid` values are modelled as naturals drawn from a fresh-id counter that is
threaded through every function calling `Uuid::new_v4()`; `DateTime<Utc>`
timestamps are modelled as the constant 0 (no claim observes the clock). -/

structure Atom where
  symbol : String
  position : Rat × Rat × Rat
  charge : Option Rat
  magnetic_moment : Option Rat
  tags : List (String × String)
  deriving DecidableEq

structure Lattice where
  vectors : (Rat × Rat × Rat) × (Rat × Rat × Rat) × (Rat × Rat × Rat)
  pbc : Bool × Bool × Bool
  deriving DecidableEq

structure Structure where
  id : Nat
  atoms : List Atom
  lattice : Option Lattice
  source : String
  metadata : List (String × Js)
  deriving DecidableEq

/-- `Structure::new` — `id` is the fresh `Uuid::new_v4()`. -/
def Structure.new (atoms : List Atom) (lattice : Option Lattice)
    (source : String) (id : Nat) : Structure :=
  ⟨id, atoms, lattice, source, []⟩

inductive Engine where
  | janus (arch : String) (device_preference : Option String)
      (model_path : Option String)
  | gulp (binary : String) (potential_library : String)
  | vasp (binary : String) (mpi_ranks : Nat)
  | cp2k (binary : String) (mpi_ranks : Nat)
  | agent (script_path : String) (strategy : String)
  deriving DecidableEq

structure JobConfig where
  engine : Engine
  params : Js
  deriving DecidableEq

structure ResourceReq where
  nodes : Nat
  cores : Nat
  gpus : Nat
  time_limit_min : Nat
  required_tags : List String
  deriving DecidableEq

/-- `ResourceReq::default()`. -/
def ResourceReq.default : ResourceReq := ⟨1, 1, 0, 60, []⟩

inductive JobStatus where
  | Pending
  | Blocked
  | Queued
  | Running
  | Completed
  | Failed
  | Cancelled
  deriving DecidableEq

structure Provenance where
  execution_host : String
  start_time : Nat
  end_time : Nat
  binary_hash : Option String
  exit_code : Int
  sandbox_info : String
  deriving DecidableEq

structure CalculationResult where
  energy : Option Rat
  forces : Option (List (Rat × Rat × Rat))
  stress : Option ((Rat × Rat × Rat) × (Rat × Rat × Rat) × (Rat × Rat × Rat))
  t_total_ms : Rat
  final_structure : Option Structure
  provenance : Provenance
  next_generation : Option (List Js)
  deriving DecidableEq

structure Job where
  id : Nat
  status : JobStatus
  created_at : Nat
  updated_at : Nat
  structure_ : Structure
  config : JobConfig
  resources : ResourceReq
  result : Option CalculationResult
  error_log : Option String
  parent_ids : List Nat
  node_id : Option String
  flow_context : List (String × Js)
  deriving DecidableEq

/-- `Job::new` — `id` is the fresh `Uuid::new_v4()`. -/
def Job.new (structure_ : Structure) (config : JobConfig)
    (resources : ResourceReq) (id : Nat) : Job :=
  ⟨id, .Pending, 0, 0, structure_, config, resources, none, none, [], none, []⟩

/- ### Workflow engine (`src/workflow.rs`) -/

inductive LogicCondition where
  | AlwaysTrue
  | EnergyBelow (threshold : Rat)
  | BandGapAbove (threshold : Rat)
  | ExternalScript (s : String)
  deriving DecidableEq

inductive NodeType where
  | Compute
  | Generator (strategy : String)
  | Switch (condition : LogicCondition)
  | Aggregator
  | Verifier (tolerance : Rat)
  | Sentinel
  deriving DecidableEq

inductive EdgeType where
  | HardDependency
  | SoftDependency
  | DataFlow (param_map : List (String × String))
  deriving DecidableEq

/- The SHA-256 content hash computed by `add_smart_node` is modelled by its
preimage: the job's config and structure (the two serialized inputs) plus the
parent hashes, faithful up to SHA-256 collisions. `add_smart_node` sorts the
parent-hash strings for order independence; no claim exercises
permuted-parent deduplication, so the model keeps the parent hashes in the
order the parents were passed. -/

mutual
inductive CHash where
  | mk (config : JobConfig) (structure_ : Structure) (parents : CHashList)
  deriving DecidableEq
inductive CHashList where
  | nil
  | cons (hd : CHash) (tl : CHashList)
  deriving DecidableEq
end

def chashListOf : List CHash → CHashList
  | [] => .nil
  | x :: xs => .cons x (chashListOf xs)

structure SmartNode where
  job : Job
  node_type : NodeType
  content_hash : CHash
  priority : Nat
  persist : Bool
  is_pruned : Bool
  is_expanded : Bool
  deriving DecidableEq

/-- `petgraph::DiGraph`: nodes indexed by position, edges as
(source, target, weight) triples in insertion order. -/
structure Graph where
  nodes : List SmartNode
  edges : List (Nat × Nat × EdgeType)
  deriving DecidableEq

structure WorkflowEngine where
  graph : Graph
  cache_map : List (CHash × Nat)
  id_map : List (Nat × Nat)
  deriving DecidableEq

def modifyAt {α : Type} (f : α → α) : Nat → List α → List α
  | _, [] => []
  | 0, a :: as => f a :: as
  | n + 1, a :: as => a :: modifyAt f n as

/-- Outgoing neighbor indices of `v` (`neighbors_directed(v, Outgoing)`). -/
def childrenIdx (g : Graph) (v : Nat) : List Nat :=
  (g.edges.filter (fun e => e.1 == v)).map (fun e => e.2.1)

def prioAt (g : Graph) (v : Nat) : Nat :=
  match g.nodes.get? v with
  | some nd => nd.priority
  | none => 0

/-- The `max_child_prio` accumulation of `recalculate_priorities`. -/
def maxChildPrio (g : Graph) (v : Nat) : Nat :=
  ((childrenIdx g v).map (prioAt g)).foldl max 0

/-- One iteration of the `recalculate_priorities` loop. -/
def recalcStep (g : Graph) (v : Nat) : Graph :=
  let m := maxChildPrio g v
  if m > 0 then
    { g with nodes := modifyAt (fun nd => { nd with priority := m + 1 }) v g.nodes }
  else g

def recalcWith (g : Graph) (order : List Nat) : Graph :=
  order.foldl recalcStep g

/-- Kahn helper: is `v` free of incoming edges from `remaining`? -/
def noIncoming (g : Graph) (remaining : List Nat) (v : Nat) : Bool :=
  g.edges.all (fun e => !(e.2.1 == v && remaining.contains e.1))

def kahnGo (g : Graph) : Nat → List Nat → List Nat
  | 0, _ => []
  | fuel + 1, remaining =>
    match remaining.find? (noIncoming g remaining) with
    | some v => v :: kahnGo g fuel (remaining.erase v)
    | none => []

/-- `petgraph::algo::toposort`: a topological order, or `none` on a cycle. -/
def toposortFn (g : Graph) : Option (List Nat) :=
  let r := kahnGo g g.nodes.length (List.range g.nodes.length)
  if r.length = g.nodes.length then some r else none

/-- `WorkflowEngine::recalculate_priorities`: walk the reversed topological
order; every node whose children have a positive maximum priority gets that
maximum plus one (`unwrap_or_default` turns a cyclic graph into the empty
order, a no-op). -/
def recalculate_priorities (g : Graph) : Graph :=
  recalcWith g ((toposortFn g).getD []).reverse

/-- The `prune_subgraph` loop body on one visited node. -/
def markPruned (g : Graph) (v : Nat) : Graph :=
  { g with
    nodes := modifyAt
      (fun nd =>
        if nd.is_pruned then nd
        else
          { nd with
            is_pruned := true,
            job := { nd.job with
                     status := .Failed,
                     error_log := some "Pruned by Logic Condition" } })
      v g.nodes }

/-- petgraph `Bfs`: push each not-yet-discovered successor of `v`. -/
def bfsEnqueue (g : Graph) (v : Nat) (queue disc : List Nat) :
    List Nat × List Nat :=
  (childrenIdx g v).foldl
    (fun qd c => if qd.2.contains c then qd else (qd.1 ++ [c], c :: qd.2))
    (queue, disc)

def pruneGo (start : Nat) : Nat → Graph → List Nat → List Nat → Graph
  | 0, g, _, _ => g
  | fuel + 1, g, queue, disc =>
    match queue with
    | [] => g
    | v :: rest =>
      let g1 := if v = start then g else markPruned g v
      let qd := bfsEnqueue g1 v rest disc
      pruneGo start fuel g1 qd.1 qd.2

/-- `WorkflowEngine::prune_subgraph`: BFS from `start`, skipping `start`
itself. -/
def prune_subgraph (g : Graph) (start : Nat) : Graph :=
  pruneGo start (g.nodes.length + 1) g [start] [start]

def condPasses (cond : LogicCondition) (result_data : Js) : Bool :=
  match cond with
  | .EnergyBelow t =>
    decide ((((result_data.get "energy").bind Js.asF64).getD 0) < t)
  | .BandGapAbove t =>
    decide ((((result_data.get "band_gap").bind Js.asF64).getD 0) > t)
  | .AlwaysTrue => true
  | .ExternalScript _ => true

/-- `WorkflowEngine::resolve_logic_branch` (the graph part). -/
def resolve_logic_branch (g : Graph) (switch_idx : Nat) (result_data : Js) :
    Graph :=
  match g.nodes.get? switch_idx with
  | some nd =>
    match nd.node_type with
    | .Switch cond =>
      if condPasses cond result_data then g else prune_subgraph g switch_idx
    | _ => g
  | none => g

/-- Placeholder node for out-of-range graph indexing (`graph[i]` panics in
Rust; callers only pass valid indices). -/
def dummyNode : SmartNode :=
  ⟨Job.new (Structure.new [] none "" 0) ⟨.agent "" "", .null⟩ ResourceReq.default 0,
    .Compute, .mk ⟨.agent "" "", .null⟩ (Structure.new [] none "" 0) .nil,
    0, false, false, false⟩

/-- `WorkflowEngine::add_smart_node`: content-hash deduplication, then
append the node and one `HardDependency` edge per parent. -/
def add_smart_node (e : WorkflowEngine) (job : Job) (n_type : NodeType)
    (parents : List Nat) (priority : Nat) (persist : Bool) :
    WorkflowEngine × Nat :=
  let hash := CHash.mk job.config job.structure_
    (chashListOf (parents.map
      (fun p => ((e.graph.nodes.get? p).getD dummyNode).content_hash)))
  match alookup hash e.cache_map with
  | some existing_idx => (e, existing_idx)
  | none =>
    let node : SmartNode := ⟨job, n_type, hash, priority, persist, false, false⟩
    let idx := e.graph.nodes.length
    ({ graph := { nodes := e.graph.nodes ++ [node],
                  edges := e.graph.edges ++
                    parents.map (fun p => (p, idx, EdgeType.HardDependency)) },
       cache_map := (hash, idx) :: e.cache_map,
       id_map := (job.id, idx) :: e.id_map }, idx)

/-- Build the `i`-th physics child of `expand_generator`: the candidate and
provenance are injected into the template params, and the resource request is
the hardcoded `ResourceReq { cores: 8, gpus: 1, ..Default::default() }`.
`sid`/`jid` are the fresh uuids of its structure and job. -/
def mkPhysicsChild (physics_template : JobConfig) (gen_id : Nat)
    (generator_idx : Nat) (i : Nat) (cand : Js) (sid jid : Nat) : Job :=
  let cfg : JobConfig :=
    { physics_template with
      params := Js.objInsert
        (Js.objInsert physics_template.params "candidate" cand)
        "generated_by" (Js.str (toString gen_id)) }
  Job.new
    (Structure.new [] none
      ("Sim_" ++ toString generator_idx ++ "_" ++ toString i) sid)
    cfg
    { ResourceReq.default with cores := 8, gpus := 1 }
    jid

/-- The child-spawning loop of `expand_generator`, collecting the indices of
the physics nodes. -/
def spawnChildren (generator_idx gen_id : Nat) (physics_template : JobConfig) :
    List (Nat × Js) → WorkflowEngine → Nat → List Nat →
    WorkflowEngine × Nat × List Nat
  | [], e, fresh, acc => (e, fresh, acc)
  | (i, cand) :: rest, e, fresh, acc =>
    let job := mkPhysicsChild physics_template gen_id generator_idx i cand
      fresh (fresh + 1)
    let r := add_smart_node e job NodeType.Compute [generator_idx] 50 true
    spawnChildren generator_idx gen_id physics_template rest r.1 (fresh + 2)
      (acc ++ [r.2])

/-- Step 2 of `expand_generator`: spawn the next agent generation (if any)
on top of the physics batch. -/
def spawnAgent (e2 : WorkflowEngine) (physics_indices : List Nat)
    (fresh2 : Nat) : Option JobConfig → WorkflowEngine × Nat
  | some agent_cfg =>
    let gen_count := ((agent_cfg.params.get "gen_counter").bind Js.asU64).getD 0
    let agent_job := Job.new
      (Structure.new [] none ("Agent_Gen" ++ toString gen_count) fresh2)
      agent_cfg
      { ResourceReq.default with
        nodes := 1, cores := 1, gpus := 0, required_tags := ["brain"] }
      (fresh2 + 1)
    let strategy :=
      match agent_cfg.engine with
      | .agent _ strat => strat
      | _ => "custom"
    ((add_smart_node e2 agent_job (NodeType.Generator strategy)
        physics_indices 100 true).1, fresh2 + 2)
  | none => (e2, fresh2)

/-- `WorkflowEngine::expand_generator`. -/
def expand_generator (e : WorkflowEngine) (fresh : Nat) (generator_idx : Nat)
    (generated_candidates : List Js) (physics_template : JobConfig)
    (next_agent_config : Option JobConfig) : WorkflowEngine × Nat :=
  match e.graph.nodes.get? generator_idx with
  | none => (e, fresh)
  | some gnode =>
    if gnode.is_expanded then (e, fresh)
    else
      let e1 : WorkflowEngine :=
        { e with graph := { e.graph with
            nodes := modifyAt (fun nd => { nd with is_expanded := true })
              generator_idx e.graph.nodes } }
      let s := spawnChildren generator_idx gnode.job.id physics_template
        generated_candidates.enum e1 fresh []
      let r3 := spawnAgent s.1 s.2.2 s.2.1 next_agent_config
      ({ r3.1 with graph := recalculate_priorities r3.1.graph }, r3.2)

/- ### Serde encodings used by the coordinator
`NodeType`/`LogicCondition` use serde's default externally-tagged encoding;
`Engine` is adjacently tagged (`engine_type`/`spec`); `CalculationResult` is
a plain struct map. `Uuid` and `DateTime` serialize as strings. -/

def logicCondToJs : LogicCondition → Js
  | .AlwaysTrue => .str "AlwaysTrue"
  | .EnergyBelow t => .obj (.cons "EnergyBelow" (.num t) .nil)
  | .BandGapAbove t => .obj (.cons "BandGapAbove" (.num t) .nil)
  | .ExternalScript s => .obj (.cons "ExternalScript" (.str s) .nil)

def nodeTypeToJs : NodeType → Js
  | .Compute => .str "Compute"
  | .Generator strat =>
    .obj (.cons "Generator" (.obj (.cons "strategy" (.str strat) .nil)) .nil)
  | .Switch cond =>
    .obj (.cons "Switch" (.obj (.cons "condition" (logicCondToJs cond) .nil)) .nil)
  | .Aggregator => .str "Aggregator"
  | .Verifier tol =>
    .obj (.cons "Verifier" (.obj (.cons "tolerance" (.num tol) .nil)) .nil)
  | .Sentinel => .str "Sentinel"

def jsToLogicCond : Js → Option LogicCondition
  | .str "AlwaysTrue" => some .AlwaysTrue
  | .obj (.cons "EnergyBelow" (.num t) .nil) => some (.EnergyBelow t)
  | .obj (.cons "BandGapAbove" (.num t) .nil) => some (.BandGapAbove t)
  | .obj (.cons "ExternalScript" (.str s) .nil) => some (.ExternalScript s)
  | _ => none

def jsToNodeType : Js → Option NodeType
  | .str "Compute" => some .Compute
  | .str "Aggregator" => some .Aggregator
  | .str "Sentinel" => some .Sentinel
  | .obj (.cons "Generator" (.obj (.cons "strategy" (.str strat) .nil)) .nil) =>
    some (.Generator strat)
  | .obj (.cons "Switch" (.obj (.cons "condition" c .nil)) .nil) =>
    (jsToLogicCond c).map (.Switch ·)
  | .obj (.cons "Verifier" (.obj (.cons "tolerance" (.num t) .nil)) .nil) =>
    some (.Verifier t)
  | _ => none

/-- A required string field. -/
def jsToStr : Option Js → Option String
  | some (.str s) => some s
  | _ => none

/-- An `Option<String>` field: serde treats a missing field as `None`. -/
def jsToOptStr : Option Js → Option (Option String)
  | none => some none
  | some .null => some none
  | some (.str s) => some (some s)
  | some _ => none

/-- A required `usize` field. -/
def jsToNat : Option Js → Option Nat
  | some v => v.asU64
  | none => none

def jsToEngine (v : Js) : Option Engine :=
  match jsToStr (v.get "engine_type"), v.get "spec" with
  | some "janus", some spec => do
    let arch ← jsToStr (spec.get "arch")
    let dp ← jsToOptStr (spec.get "device_preference")
    let mp ← jsToOptStr (spec.get "model_path")
    pure (.janus arch dp mp)
  | some "gulp", some spec => do
    let b ← jsToStr (spec.get "binary")
    let pl ← jsToStr (spec.get "potential_library")
    pure (.gulp b pl)
  | some "vasp", some spec => do
    let b ← jsToStr (spec.get "binary")
    let mr ← jsToNat (spec.get "mpi_ranks")
    pure (.vasp b mr)
  | some "cp2k", some spec => do
    let b ← jsToStr (spec.get "binary")
    let mr ← jsToNat (spec.get "mpi_ranks")
    pure (.cp2k b mr)
  | some "agent", some spec => do
    let sp ← jsToStr (spec.get "script_path")
    let st ← jsToStr (spec.get "strategy")
    pure (.agent sp st)
  | _, _ => none

/-- `serde_json::from_value::<JobConfig>`. -/
def jsToJobConfig (v : Js) : Option JobConfig :=
  match v.get "engine", v.get "params" with
  | some ev, some pv => (jsToEngine ev).map (fun en => ⟨en, pv⟩)
  | _, _ => none

def optToJs {α : Type} (f : α → Js) : Option α → Js
  | none => .null
  | some a => f a

def ratTripleToJs (t : Rat × Rat × Rat) : Js :=
  .arr (.cons (.num t.1) (.cons (.num t.2.1) (.cons (.num t.2.2) .nil)))

def atomToJs (a : Atom) : Js :=
  .obj (jsObjOfList
    [("symbol", .str a.symbol),
     ("position", ratTripleToJs a.position),
     ("charge", optToJs (fun q => .num q) a.charge),
     ("magnetic_moment", optToJs (fun q => .num q) a.magnetic_moment),
     ("tags", .obj (jsObjOfList (a.tags.map (fun kv => (kv.1, Js.str kv.2)))))])

def latticeToJs (l : Lattice) : Js :=
  .obj (jsObjOfList
    [("vectors", .arr (.cons (ratTripleToJs l.vectors.1)
        (.cons (ratTripleToJs l.vectors.2.1)
          (.cons (ratTripleToJs l.vectors.2.2) .nil)))),
     ("pbc", .arr (.cons (.jbool l.pbc.1)
        (.cons (.jbool l.pbc.2.1) (.cons (.jbool l.pbc.2.2) .nil))))])

def structureToJs (s : Structure) : Js :=
  .obj (jsObjOfList
    [("id", .str (toString s.id)),
     ("atoms", .arr (jsArrOfList (s.atoms.map atomToJs))),
     ("lattice", optToJs latticeToJs s.lattice),
     ("source", .str s.source),
     ("metadata", .obj (jsObjOfList s.metadata))])

def provenanceToJs (p : Provenance) : Js :=
  .obj (jsObjOfList
    [("execution_host", .str p.execution_host),
     ("start_time", .str (toString p.start_time)),
     ("end_time", .str (toString p.end_time)),
     ("binary_hash", optToJs Js.str p.binary_hash),
     ("exit_code", .num (p.exit_code : Rat)),
     ("sandbox_info", .str p.sandbox_info)])

/-- `serde_json::to_value` of a `CalculationResult`. -/
def resultToJs (r : CalculationResult) : Js :=
  .obj (jsObjOfList
    [("energy", optToJs (fun q => .num q) r.energy),
     ("forces", optToJs
        (fun fs => .arr (jsArrOfList (fs.map ratTripleToJs))) r.forces),
     ("stress", optToJs
        (fun st => .arr (.cons (ratTripleToJs st.1)
          (.cons (ratTripleToJs st.2.1) (.cons (ratTripleToJs st.2.2) .nil))))
        r.stress),
     ("t_total_ms", .num r.t_total_ms),
     ("final_structure", optToJs structureToJs r.final_structure),
     ("provenance", provenanceToJs r.provenance),
     ("next_generation", optToJs (fun xs => .arr (jsArrOfList xs))
        r.next_generation)])

/- ### Marketplace coordinator (`src/marketplace.rs`)
The coordinator's `transport` (broadcasts), `store` (checkpoints) and the
wall-clock fields (`last_ckpt`, `_last_seen`) are I/O and are not modelled;
`schedule_work` returns the list of grants it would broadcast. `HashMap`s
are association lists in insertion order. The SHA-256 `fingerprint_job` is
modelled by its preimage, the `JobConfig` itself. -/

structure JobSubmit where
  jobs : List Job
  deps : List (Nat × Nat)
  deriving DecidableEq

structure WorkGrant where
  worker_id : String
  grant_id : String
  jobs : List Job
  deriving DecidableEq

structure WorkRequest where
  worker_id : String
  available_cores : Nat
  available_gpus : Nat
  max_jobs : Nat
  tags : List String
  deriving DecidableEq

structure JobCompleteReport where
  job_id : Nat
  status : JobStatus
  result : Option CalculationResult
  error : Option String
  deriving DecidableEq

structure NodeState where
  job : Job
  parents_total : Nat
  parents_done : Nat
  blocked : Bool
  inflight : Bool
  enqueued : Bool
  assigned_to : Option String
  deriving DecidableEq

def NodeState.is_state_runnable (n : NodeState) : Bool :=
  !n.inflight && !n.blocked && decide (n.parents_total ≤ n.parents_done) &&
    decide (n.job.status = JobStatus.Pending) && !n.enqueued

def NodeState.is_runnable_logic_only (n : NodeState) : Bool :=
  !n.inflight && !n.blocked && decide (n.parents_total ≤ n.parents_done) &&
    decide (n.job.status = JobStatus.Pending)

structure WorkerLive where
  available_cores : Nat
  available_gpus : Nat
  inflight_jobs : Nat
  wants_work : Bool
  tags : List String
  deriving DecidableEq

structure Coordinator where
  workflow : WorkflowEngine
  landscape_registry : List (JobConfig × Nat)
  nodes : List (Nat × NodeState)
  ready_queue : List Nat
  workers : List (String × WorkerLive)
  dirty_jobs : List Nat
  deriving DecidableEq

/-- `MarketplaceCoordinator::fingerprint_job`, modelled by its preimage. -/
def fingerprint_job (config : JobConfig) : JobConfig := config

/-- `MarketplaceCoordinator::update_worker_live`. -/
def update_worker_live (c : Coordinator) (req : WorkRequest) : Coordinator :=
  match alookup req.worker_id c.workers with
  | some w =>
    let w2 := { w with available_cores := req.available_cores,
                       available_gpus := req.available_gpus,
                       wants_work := true, tags := req.tags }
    { c with workers := aset req.worker_id w2 c.workers }
  | none =>
    let w2 : WorkerLive := ⟨req.available_cores, req.available_gpus, 0, true, req.tags⟩
    { c with workers := aset req.worker_id w2 c.workers }

/-- `MarketplaceCoordinator::rebuild_ready_queue`. -/
def rebuild_ready_queue (c : Coordinator) : Coordinator :=
  let r := c.nodes.foldl
    (fun (acc : List (Nat × NodeState) × List Nat) p =>
      let n0 : NodeState := { p.2 with enqueued := false }
      if n0.is_state_runnable then
        (acc.1 ++ [(p.1, { n0 with enqueued := true })], acc.2 ++ [p.1])
      else (acc.1 ++ [(p.1, n0)], acc.2))
    ([], [])
  { c with nodes := r.1, ready_queue := r.2 }

/-- `MarketplaceCoordinator::ingest_submission`. -/
def ingest_submission (c : Coordinator) (sub : JobSubmit) : Coordinator :=
  let c1 := sub.jobs.foldl
    (fun c job =>
      let c := { c with
        nodes := aset job.id ⟨job, 0, 0, false, false, false, none⟩ c.nodes,
        dirty_jobs := sinsert job.id c.dirty_jobs }
      let c :=
        if job.status = JobStatus.Completed then
          { c with landscape_registry := aset (fingerprint_job job.config)
                                           job.id c.landscape_registry }
        else c
      if (alookup job.id c.workflow.id_map).isSome then c
      else
        let n_type :=
          ((alookup "node_type" job.flow_context).bind jsToNodeType).getD
            NodeType.Compute
        { c with workflow := (add_smart_node c.workflow job n_type [] 50 true).1 })
    c
  let c2 := sub.deps.foldl
    (fun c pc =>
      match alookup pc.2 c.nodes with
      | some child =>
        let child := { child with parents_total := child.parents_total + 1 }
        let child :=
          if child.job.parent_ids.contains pc.1 then child
          else { child with job := { child.job with
                   parent_ids := child.job.parent_ids ++ [pc.1] } }
        { c with nodes := aset pc.2 child c.nodes }
      | none => c)
    c1
  let cf := (c2.nodes.filter
    (fun p => match p.2.job.status with
      | JobStatus.Completed => true
      | JobStatus.Failed => true
      | _ => false)).map (fun p => p.2.job.id)
  let ns : List (Nat × NodeState) := c2.nodes.map
    (fun p =>
      let node : NodeState := p.2
      if node.job.status = JobStatus.Pending ∨ node.job.status = JobStatus.Blocked then
        let done := (node.job.parent_ids.filter
          (fun pid => cf.contains pid)).length
        let node : NodeState := { node with parents_done := done }
        if node.parents_done < node.parents_total then
          (p.1, { node with
                  blocked := true,
                  job := { node.job with status := JobStatus.Blocked } })
        else
          (p.1, { node with
                  blocked := false,
                  job := { node.job with status := JobStatus.Pending } })
      else p)
  rebuild_ready_queue { c2 with nodes := ns }

/-- `MarketplaceCoordinator::sync_pruning_to_scheduler`. -/
def sync_pruning_to_scheduler (c : Coordinator) : Coordinator :=
  c.workflow.graph.nodes.foldl
    (fun c wf_node =>
      if wf_node.is_pruned then
        match alookup wf_node.job.id c.nodes with
        | some sched_node =>
          if sched_node.job.status = JobStatus.Failed then c
          else
            let sn := { sched_node with
              blocked := false,
              job := { sched_node.job with
                       status := JobStatus.Failed,
                       error_log := some "Pruned by Logic Condition" } }
            { c with
              nodes := aset wf_node.job.id sn c.nodes,
              dirty_jobs := sinsert sched_node.job.id c.dirty_jobs }
        | none => c
      else c)
    c

/-- `MarketplaceCoordinator::sync_graph_to_scheduler_with_memoization`. -/
def sync_graph_to_scheduler_with_memoization (c : Coordinator) : Coordinator :=
  let r := (List.range c.workflow.graph.nodes.length).foldl
    (fun (acc : List Job × List (Nat × Nat)) idx =>
      match c.workflow.graph.nodes.get? idx with
      | none => acc
      | some wf_node =>
        if (alookup wf_node.job.id c.nodes).isSome then acc
        else
          let job := { wf_node.job with
            flow_context := aset "node_type" (nodeTypeToJs wf_node.node_type)
              wf_node.job.flow_context }
          let job :=
            if wf_node.node_type = NodeType.Compute then
              match alookup (fingerprint_job job.config) c.landscape_registry with
              | some existing_id =>
                match alookup existing_id c.nodes with
                | some existing_node =>
                  match existing_node.job.result with
                  | some res =>
                    let fc := aset "memoized_from"
                      (Js.str (toString existing_id)) job.flow_context
                    { job with status := JobStatus.Completed,
                               result := some res, flow_context := fc }
                  | none => job
                | none => job
              | none => job
            else job
          let parents := (c.workflow.graph.edges.filter
            (fun e => e.2.1 == idx)).map
            (fun e => ((c.workflow.graph.nodes.get? e.1).getD dummyNode).job.id)
          let job := { job with parent_ids := parents }
          (acc.1 ++ [job], acc.2 ++ parents.map (fun pid => (pid, job.id))))
    ([], [])
  if r.1.isEmpty then c else ingest_submission c ⟨r.1, r.2⟩

/-- `MarketplaceCoordinator::expand_generator_defensive`. The `.error`
results on an out-of-range generator index stand for a Rust panic; every
other branch matches the source, and the Expansion Governor check comes
first, before any state is touched. -/
def expand_generator_defensive (c : Coordinator) (fresh : Nat) (gen_idx : Nat)
    (payload : List Js) : Except String (Coordinator × Nat) :=
  if payload.length > 100 then
    .error "Expansion Governor: Request > 100 children. Rejected."
  else
    match c.workflow.graph.nodes.get? gen_idx with
    | none => .error "invalid generator index"
    | some gen_node =>
      match gen_node.job.config.params.get "physics_template" with
      | none => .error "Missing physics_template in generator params"
      | some tv =>
        match jsToJobConfig tv with
        | none => .error "invalid physics_template"
        | some physics_template =>
          let params := gen_node.job.config.params
          let gen_counter := ((params.get "gen_counter").bind Js.asU64).getD 0
          let gen_limit := ((params.get "gen_limit").bind Js.asU64).getD 0
          let next_agent_config :=
            if gen_counter < gen_limit then
              some { gen_node.job.config with
                params := Js.objInsert gen_node.job.config.params "gen_counter"
                  (Js.num ((gen_counter + 1 : Nat) : Rat)) }
            else none
          let r := expand_generator c.workflow fresh gen_idx payload
            physics_template next_agent_config
          .ok (sync_graph_to_scheduler_with_memoization
            { c with workflow := r.1 }, r.2)

/-- One element of `apply_job_complete`'s unblock pass: bump `parents_done`
for children of the completed job and flip Blocked children whose parents
are all done (and that were not pruned) back to Pending. The Bool says
whether the node was unblocked. -/
def unblockOne (jid : Nat) (p : Nat × NodeState) : (Nat × NodeState) × Bool :=
  if p.2.job.parent_ids.contains jid then
    let cn := { p.2 with parents_done := p.2.parents_done + 1 }
    if cn.parents_total ≤ cn.parents_done ∧
        cn.job.status = JobStatus.Blocked ∧
        cn.job.error_log ≠ some "Pruned by Logic Condition" then
      ((p.1, { cn with
               blocked := false,
               job := { cn.job with status := JobStatus.Pending } }), true)
    else ((p.1, cn), false)
  else (p, false)

def unblockStep (jid : Nat) (acc : List (Nat × NodeState) × List Nat)
    (p : Nat × NodeState) : List (Nat × NodeState) × List Nat :=
  let r := unblockOne jid p
  (acc.1 ++ [r.1], if r.2 then acc.2 ++ [r.1.1] else acc.2)

/-- The per-id tail of `apply_job_complete`: mark dirty and enqueue the
freshly unblocked node if runnable. -/
def notifyUnblocked (c : Coordinator) (cid : Nat) : Coordinator :=
  let c := { c with dirty_jobs := sinsert cid c.dirty_jobs }
  match alookup cid c.nodes with
  | some n =>
    if n.is_state_runnable then
      { c with
        nodes := amodify cid (fun n => { n with enqueued := true }) c.nodes,
        ready_queue := c.ready_queue ++ [cid] }
    else c
  | none => c

/-- `MarketplaceCoordinator::apply_job_complete`. On an expansion error the
job itself is not failed: the error is only logged. -/
def apply_job_complete (c : Coordinator) (fresh : Nat)
    (rep : JobCompleteReport) : Coordinator × Nat :=
  match alookup rep.job_id c.nodes with
  | none => (c, fresh)
  | some node =>
    let node := { node with
      inflight := false,
      job := { node.job with
               status := rep.status, result := rep.result,
               error_log := rep.error, updated_at := 0 } }
    let c := { c with
      nodes := aset rep.job_id node c.nodes,
      dirty_jobs := sinsert rep.job_id c.dirty_jobs }
    let c :=
      if rep.status = JobStatus.Completed then
        { c with landscape_registry := aset (fingerprint_job node.job.config)
                                         rep.job_id c.landscape_registry }
      else c
    let c :=
      match node.job.node_id with
      | some wid =>
        let dec := fun (w : WorkerLive) =>
          { w with inflight_jobs := w.inflight_jobs - 1 }
        { c with workers := amodify wid dec c.workers }
      | none => c
    let cf :=
      if rep.status = JobStatus.Completed then
        match alookup rep.job_id c.workflow.id_map with
        | some wf_idx =>
          match (c.workflow.graph.nodes.get? wf_idx).map
              (fun nd => nd.node_type) with
          | some (NodeType.Switch _) =>
            match rep.result with
            | some res =>
              let g := resolve_logic_branch c.workflow.graph wf_idx
                (resultToJs res)
              (sync_pruning_to_scheduler
                { c with workflow := { c.workflow with graph := g } }, fresh)
            | none => (c, fresh)
          | some (NodeType.Generator _) =>
            match rep.result with
            | some res =>
              match res.next_generation with
              | some next_gen =>
                match expand_generator_defensive c fresh wf_idx next_gen with
                | .ok r => r
                | .error _ => (c, fresh)
              | none => (c, fresh)
            | none => (c, fresh)
          | _ => (c, fresh)
        | none => (c, fresh)
      else (c, fresh)
    let c := cf.1
    let ub := c.nodes.foldl (unblockStep rep.job_id) ([], [])
    let c := { c with nodes := ub.1 }
    let c := ub.2.foldl notifyUnblocked c
    (c, cf.2)

/-- The per-worker inner loop of `schedule_work`: rotate through at most the
initial queue length while the worker still has core capacity, granting jobs
that are runnable, tag-matched and that fit the remaining capacity. Returns
(nodes, ready_queue, dirty_jobs, cap_cores, cap_gpus, grant_batch). -/
def scheduleLoop (wid : String) (worker_tags : List String) :
    Nat → List (Nat × NodeState) → List Nat → List Nat → Nat → Nat →
    List Job →
    List (Nat × NodeState) × List Nat × List Nat × Nat × Nat × List Job
  | 0, nodes, queue, dirty, capc, capg, batch =>
    (nodes, queue, dirty, capc, capg, batch)
  | fuel + 1, nodes, queue, dirty, capc, capg, batch =>
    if capc = 0 then (nodes, queue, dirty, capc, capg, batch)
    else
      match queue with
      | [] => (nodes, queue, dirty, capc, capg, batch)
      | jid :: rest =>
        let nodes := amodify jid (fun n => { n with enqueued := false }) nodes
        match alookup jid nodes with
        | some node =>
          if node.is_runnable_logic_only then
            let tag_match := node.job.resources.required_tags.all
              (fun t => worker_tags.contains t)
            let rc := node.job.resources.cores
            let rg := node.job.resources.gpus
            if tag_match = true ∧ rc ≤ capc ∧ rg ≤ capg then
              let node := { node with
                inflight := true,
                assigned_to := some wid,
                job := { node.job with
                         node_id := some wid,
                         status := JobStatus.Running } }
              scheduleLoop wid worker_tags fuel (aset jid node nodes) rest
                (sinsert jid dirty) (capc - rc) (capg - rg)
                (batch ++ [node.job])
            else
              scheduleLoop wid worker_tags fuel
                (amodify jid (fun n => { n with enqueued := true }) nodes)
                (rest ++ [jid]) dirty capc capg batch
          else
            scheduleLoop wid worker_tags fuel
              (amodify jid (fun n => { n with enqueued := true }) nodes)
              (rest ++ [jid]) dirty capc capg batch
        | none =>
          scheduleLoop wid worker_tags fuel
            (amodify jid (fun n => { n with enqueued := true }) nodes)
            (rest ++ [jid]) dirty capc capg batch

/-- One worker's turn in `schedule_work`. -/
def scheduleWorker (acc : Coordinator × Nat × List WorkGrant)
    (wid : String) : Coordinator × Nat × List WorkGrant :=
  let c := acc.1
  match alookup wid c.workers with
  | none => acc
  | some w =>
    if !w.wants_work || decide (64 ≤ w.inflight_jobs) then acc
    else
      let r := scheduleLoop wid w.tags c.ready_queue.length c.nodes
        c.ready_queue c.dirty_jobs w.available_cores w.available_gpus []
      let c := { c with
        nodes := r.1, ready_queue := r.2.1, dirty_jobs := r.2.2.1 }
      let batch := r.2.2.2.2.2
      if batch.isEmpty then (c, acc.2.1, acc.2.2)
      else
        let bump := fun (w : WorkerLive) =>
          { w with inflight_jobs := w.inflight_jobs + batch.length,
                   wants_work := false }
        let c := { c with workers := amodify wid bump c.workers }
        (c, acc.2.1 + 1,
          acc.2.2 ++ [⟨wid, "g_" ++ toString acc.2.1, batch⟩])

/-- `MarketplaceCoordinator::schedule_work`: one scheduling pass over every
worker; returns the grants it would broadcast (`fresh` numbers the grant
uuids). -/
def schedule_work (c : Coordinator) (fresh : Nat) :
    Coordinator × Nat × List WorkGrant :=
  (c.workers.map (fun p => p.1)).foldl scheduleWorker (c, fresh, [])

/- ### Verification helpers for the workflow and marketplace claims -/

/-- The non-priority projection of a graph node. -/
def nodeShadow (nd : SmartNode) : Job × NodeType × CHash × Bool × Bool × Bool :=
  (nd.job, nd.node_type, nd.content_hash, nd.persist, nd.is_pruned,
    nd.is_expanded)

/-- The update `recalculate_priorities` applies to one node. -/
def prioRule (m p : Nat) : Nat := if m > 0 then m + 1 else p

/-- `ord` is a topological order of `g`: it covers exactly the node indices,
without duplicates, no self-loops exist, and no edge runs from a later
position to an earlier one. -/
def IsTopoOrder (g : Graph) (ord : List Nat) : Prop :=
  ord.Nodup ∧ (∀ v ∈ ord, v < g.nodes.length) ∧
  (∀ v, v < g.nodes.length → v ∈ ord) ∧
  (∀ p ∈ g.edges, p.1 ≠ p.2.1) ∧
  ord.Pairwise (fun a b => ∀ p ∈ g.edges, ¬(p.1 = b ∧ p.2.1 = a))

/-- One directed edge step of the graph. -/
def edgeStep (g : Graph) (a b : Nat) : Prop :=
  (g.edges.any (fun p => p.1 == a && p.2.1 == b)) = true

/-- Node `v` carries all three pruning marks. -/
def MarkedAt (g : Graph) (v : Nat) : Prop :=
  ∃ nd, g.nodes.get? v = some nd ∧ nd.is_pruned = true ∧
    nd.job.status = JobStatus.Failed ∧
    nd.job.error_log = some "Pruned by Logic Condition"

/-- Summed core request of a grant batch. -/
def grantCores (jobs : List Job) : Nat :=
  (jobs.map (fun j => j.resources.cores)).sum

/-- Summed GPU request of a grant batch. -/
def grantGpus (jobs : List Job) : Nat :=
  (jobs.map (fun j => j.resources.gpus)).sum

theorem getU32_isSome {bs : List Nat} {p n : Nat} (h : getU32 bs p = some n) :
    p + 4 ≤ bs.length := by
  have hlen : 4 ≤ (bs.drop p).length := by
    unfold getU32 at h
    generalize hd : bs.drop p = d at h ⊢
    rcases d with _ | ⟨b0, _ | ⟨b1, _ | ⟨b2, _ | ⟨b3, rest⟩⟩⟩⟩
    · simp at h
    · simp at h
    · simp at h
    · simp at h
    · simp
  rw [List.length_drop] at hlen
  omega

theorem scanForMagic_unfold (bs : List Nat) (pos : Nat) :
    scanForMagic bs pos =
      if pos + 4 ≤ bs.length then
        if getU32 bs pos = some MAGIC_BYTES then some pos
        else scanForMagic bs (pos + 1)
      else none := by
  unfold scanForMagic
  by_cases h4 : pos + 4 ≤ bs.length
  · have h1 : bs.length + 1 - pos = (bs.length - pos) + 1 := by omega
    have h2 : bs.length - pos = bs.length + 1 - (pos + 1) := by omega
    rw [h1]
    simp only [scanForMagicFuel]
    rw [h2]
  · rcases hf : bs.length + 1 - pos with _ | k
    · rw [if_neg h4]
      rfl
    · simp only [scanForMagicFuel]
      rw [if_neg h4, if_neg h4]

theorem scanForMagic_bounds_aux (bs : List Nat) :
    ∀ n pos p, bs.length - pos ≤ n → scanForMagic bs pos = some p →
      pos ≤ p ∧ p + 4 ≤ bs.length ∧ getU32 bs p = some MAGIC_BYTES ∧
        ∀ q, pos ≤ q → q < p → getU32 bs q ≠ some MAGIC_BYTES := by
  intro n
  induction n with
  | zero =>
      intro pos p hn h
      rw [scanForMagic_unfold] at h
      have h4 : ¬ (pos + 4 ≤ bs.length) := by omega
      rw [if_neg h4] at h
      cases h
  | succ k ih =>
      intro pos p hn h
      rw [scanForMagic_unfold] at h
      by_cases h4 : pos + 4 ≤ bs.length
      · rw [if_pos h4] at h
        by_cases hm : getU32 bs pos = some MAGIC_BYTES
        · rw [if_pos hm] at h
          injection h with h
          subst h
          exact ⟨le_rfl, h4, hm, fun q hq1 hq2 => absurd (lt_of_le_of_lt hq1 hq2) (lt_irrefl _)⟩
        · rw [if_neg hm] at h
          obtain ⟨h1, h2, h3, h5⟩ := ih (pos + 1) p (by omega) h
          refine ⟨by omega, h2, h3, fun q hq1 hq2 => ?_⟩
          rcases Nat.eq_or_lt_of_le hq1 with rfl | hlt
          · exact hm
          · exact h5 q hlt hq2
      · rw [if_neg h4] at h
        cases h

theorem scanForMagic_bounds {bs : List Nat} {pos p : Nat}
    (h : scanForMagic bs pos = some p) :
    pos ≤ p ∧ p + 4 ≤ bs.length ∧ getU32 bs p = some MAGIC_BYTES ∧
      ∀ q, pos ≤ q → q < p → getU32 bs q ≠ some MAGIC_BYTES :=
  scanForMagic_bounds_aux bs (bs.length - pos) pos p le_rfl h

theorem scanForMagic_eq_aux (bs : List Nat) :
    ∀ n pos t, t - pos ≤ n → pos ≤ t → getU32 bs t = some MAGIC_BYTES →
      (∀ q, pos ≤ q → q < t → getU32 bs q ≠ some MAGIC_BYTES) →
      scanForMagic bs pos = some t := by
  intro n
  induction n with
  | zero =>
      intro pos t hn hle hmag _
      have : pos = t := by omega
      subst this
      rw [scanForMagic_unfold, if_pos (getU32_isSome hmag), if_pos hmag]
  | succ k ih =>
      intro pos t hn hle hmag hmin
      rcases Nat.eq_or_lt_of_le hle with rfl | hlt
      · rw [scanForMagic_unfold, if_pos (getU32_isSome hmag), if_pos hmag]
      · have h4 : pos + 4 ≤ bs.length := by
          have := getU32_isSome hmag
          omega
        have hm : ¬ (getU32 bs pos = some MAGIC_BYTES) := hmin pos le_rfl hlt
        rw [scanForMagic_unfold, if_pos h4, if_neg hm]
        exact ih (pos + 1) t (by omega) (by omega)
          hmag (fun q hq1 hq2 => hmin q (by omega) hq2)

theorem scanForMagic_eq {bs : List Nat} {pos t : Nat} (hle : pos ≤ t)
    (hmag : getU32 bs t = some MAGIC_BYTES)
    (hmin : ∀ q, pos ≤ q → q < t → getU32 bs q ≠ some MAGIC_BYTES) :
    scanForMagic bs pos = some t :=
  scanForMagic_eq_aux bs (t - pos) pos t le_rfl hle hmag hmin

theorem scanForMagic_none_aux (bs : List Nat) :
    ∀ n pos, bs.length - pos ≤ n →
      (∀ q, pos ≤ q → getU32 bs q ≠ some MAGIC_BYTES) →
      scanForMagic bs pos = none := by
  intro n
  induction n with
  | zero =>
      intro pos hn _
      rw [scanForMagic_unfold, if_neg (by omega)]
  | succ k ih =>
      intro pos hn hno
      by_cases h4 : pos + 4 ≤ bs.length
      · rw [scanForMagic_unfold, if_pos h4, if_neg (hno pos le_rfl)]
        exact ih (pos + 1) (by omega) (fun q hq => hno q (by omega))
      · rw [scanForMagic_unfold, if_neg h4]

theorem scanForMagic_none {bs : List Nat} {pos : Nat}
    (hno : ∀ q, pos ≤ q → getU32 bs q ≠ some MAGIC_BYTES) :
    scanForMagic bs pos = none :=
  scanForMagic_none_aux bs (bs.length - pos) pos le_rfl hno

theorem stepRead_skipTo {bs : List Nat} {c n : Nat} (h : stepRead bs c = .skipTo n) :
    c < n ∧ n ≤ bs.length := by
  unfold stepRead at h
  rcases hg : getU32 bs c with _ | magic
  · simp only [hg] at h
    exact StepResult.noConfusion h
  · simp only [hg] at h
    by_cases hm : magic = MAGIC_BYTES
    · rw [if_pos hm] at h
      rcases h4 : getU32 bs (c + 4) with _ | crc
      · simp only [h4] at h
        exact StepResult.noConfusion h
      · simp only [h4] at h
        rcases h8 : getU32 bs (c + 8) with _ | len
        · simp only [h8] at h
          exact StepResult.noConfusion h
        · simp only [h8] at h
          by_cases hbig : len > MAX_RECORD_SIZE
          · rw [if_pos hbig] at h
            rcases hs : scanForMagic bs (c + 1) with _ | p
            · simp only [hs] at h
              exact StepResult.noConfusion h
            · simp only [hs] at h
              injection h with h
              obtain ⟨h1, h2, _⟩ := scanForMagic_bounds hs
              omega
          · rw [if_neg hbig] at h
            by_cases hfit : c + 12 + len ≤ bs.length
            · rw [if_pos hfit] at h
              by_cases hcrc : crc32 ((bs.drop (c + 12)).take len) = crc
              · rw [if_pos hcrc] at h
                rcases hdec : decodeDiskRecord ((bs.drop (c + 12)).take len) with _ | r
                · simp only [hdec] at h
                  injection h with h
                  omega
                · simp only [hdec] at h
                  by_cases hj : jsonOk r.payload_json = true
                  · rw [if_pos hj] at h
                    exact StepResult.noConfusion h
                  · rw [if_neg hj] at h
                    injection h with h
                    omega
              · rw [if_neg hcrc] at h
                rcases hs : scanForMagic bs (c + 1) with _ | p
                · simp only [hs] at h
                  exact StepResult.noConfusion h
                · simp only [hs] at h
                  injection h with h
                  obtain ⟨h1, h2, _⟩ := scanForMagic_bounds hs
                  omega
            · rw [if_neg hfit] at h
              exact StepResult.noConfusion h
    · rw [if_neg hm] at h
      rcases hs : scanForMagic bs (c + 1) with _ | p
      · simp only [hs] at h
        exact StepResult.noConfusion h
      · simp only [hs] at h
        injection h with h
        obtain ⟨h1, h2, _⟩ := scanForMagic_bounds hs
        omega

theorem stepRead_yield {bs : List Nat} {c : Nat} {e : EventEnvelope} {n : Nat}
    (h : stepRead bs c = .yield e n) :
    c < n ∧ n ≤ bs.length ∧ e.offset = c ∧ e.next_offset = n := by
  unfold stepRead at h
  rcases hg : getU32 bs c with _ | magic
  · simp only [hg] at h
    exact StepResult.noConfusion h
  · simp only [hg] at h
    by_cases hm : magic = MAGIC_BYTES
    · rw [if_pos hm] at h
      rcases h4 : getU32 bs (c + 4) with _ | crc
      · simp only [h4] at h
        exact StepResult.noConfusion h
      · simp only [h4] at h
        rcases h8 : getU32 bs (c + 8) with _ | len
        · simp only [h8] at h
          exact StepResult.noConfusion h
        · simp only [h8] at h
          by_cases hbig : len > MAX_RECORD_SIZE
          · rw [if_pos hbig] at h
            rcases hs : scanForMagic bs (c + 1) with _ | p
            · simp only [hs] at h
              exact StepResult.noConfusion h
            · simp only [hs] at h
              exact StepResult.noConfusion h
          · rw [if_neg hbig] at h
            by_cases hfit : c + 12 + len ≤ bs.length
            · rw [if_pos hfit] at h
              by_cases hcrc : crc32 ((bs.drop (c + 12)).take len) = crc
              · rw [if_pos hcrc] at h
                rcases hdec : decodeDiskRecord ((bs.drop (c + 12)).take len) with _ | r
                · simp only [hdec] at h
                  exact StepResult.noConfusion h
                · simp only [hdec] at h
                  by_cases hj : jsonOk r.payload_json = true
                  · rw [if_pos hj] at h
                    injection h with h1 h2
                    subst h2
                    rw [← h1]
                    exact ⟨by omega, hfit, rfl, rfl⟩
                  · rw [if_neg hj] at h
                    exact StepResult.noConfusion h
              · rw [if_neg hcrc] at h
                rcases hs : scanForMagic bs (c + 1) with _ | p
                · simp only [hs] at h
                  exact StepResult.noConfusion h
                · simp only [hs] at h
                  exact StepResult.noConfusion h
            · rw [if_neg hfit] at h
              exact StepResult.noConfusion h
    · rw [if_neg hm] at h
      rcases hs : scanForMagic bs (c + 1) with _ | p
      · simp only [hs] at h
        exact StepResult.noConfusion h
      · simp only [hs] at h
        exact StepResult.noConfusion h

theorem getU32_eq_none {bs : List Nat} {p : Nat} (h : bs.length < p + 4) :
    getU32 bs p = none := by
  unfold getU32
  have hd : (bs.drop p).length < 4 := by
    rw [List.length_drop]
    omega
  generalize bs.drop p = d at hd
  rcases d with _ | ⟨a, _ | ⟨b, _ | ⟨x, _ | ⟨y, t⟩⟩⟩⟩
  · rfl
  · rfl
  · rfl
  · rfl
  · simp at hd
    omega

/-- The reader rejects a frame whose payload fails the CRC check and falls
back to the self-healing scan. -/

theorem stepRead_eof_of_end {bs : List Nat} {c : Nat} (h : bs.length < c + 4) :
    stepRead bs c = .eof := by
  have hg : getU32 bs c = none := by
    unfold getU32
    have hd : (bs.drop c).length < 4 := by
      rw [List.length_drop]
      omega
    generalize bs.drop c = d at hd
    rcases d with _ | ⟨a, _ | ⟨b, _ | ⟨x, _ | ⟨y, t⟩⟩⟩⟩
    · rfl
    · rfl
    · rfl
    · rfl
    · simp at hd
      omega
  unfold stepRead
  rw [hg]


theorem nextRecordFuel_congr (bs : List Nat) :
    ∀ f f' c, bs.length + 1 - c ≤ f → bs.length + 1 - c ≤ f' →
      nextRecordFuel bs c f = nextRecordFuel bs c f' := by
  intro f
  induction f with
  | zero =>
      intro f' c hf hf'
      rcases f' with _ | m
      · rfl
      · have heof : stepRead bs c = .eof := stepRead_eof_of_end (by omega)
        simp only [nextRecordFuel, heof]
  | succ k ih =>
      intro f' c hf hf'
      rcases f' with _ | m
      · have heof : stepRead bs c = .eof := stepRead_eof_of_end (by omega)
        simp only [nextRecordFuel, heof]
      · simp only [nextRecordFuel]
        cases hs : stepRead bs c with
        | yield e n => simp only
        | skipTo n =>
            obtain ⟨h1, h2⟩ := stepRead_skipTo hs
            exact ih m n (by omega) (by omega)
        | eof => simp only

theorem nextRecord_unfold (bs : List Nat) (c : Nat) :
    nextRecord bs c = match stepRead bs c with
      | .yield e n => some (e, n)
      | .skipTo n => nextRecord bs n
      | .eof => none := by
  unfold nextRecord
  rcases hf : bs.length + 1 - c with _ | m
  · have heof : stepRead bs c = .eof := stepRead_eof_of_end (by omega)
    simp only [heof]
    rfl
  · simp only [nextRecordFuel]
    cases hs : stepRead bs c with
    | yield e n => simp only
    | skipTo n =>
        obtain ⟨h1, h2⟩ := stepRead_skipTo hs
        exact nextRecordFuel_congr bs m (bs.length + 1 - n) n (by omega) le_rfl
    | eof => simp only

theorem nextRecord_bounds_aux (bs : List Nat) :
    ∀ m c e n, bs.length - c ≤ m → nextRecord bs c = some (e, n) →
      c < n ∧ n ≤ bs.length := by
  intro m
  induction m with
  | zero =>
      intro c e n hm h
      rw [nextRecord_unfold bs] at h
      split at h
      · injection h with h
        obtain ⟨h1, h2, _, _⟩ := stepRead_yield (by assumption)
        cases h
        exact ⟨h1, h2⟩
      · obtain ⟨h1, h2⟩ := stepRead_skipTo (by assumption)
        omega
      · cases h
  | succ k ih =>
      intro c e n hm h
      rw [nextRecord_unfold bs] at h
      split at h
      · injection h with h
        obtain ⟨h1, h2, _, _⟩ := stepRead_yield (by assumption)
        cases h
        exact ⟨h1, h2⟩
      · obtain ⟨h1, h2⟩ := stepRead_skipTo (by assumption)
        have := ih _ e n (by omega) h
        omega
      · cases h

theorem nextRecord_bounds {bs : List Nat} {c : Nat} {e : EventEnvelope} {n : Nat}
    (h : nextRecord bs c = some (e, n)) : c < n ∧ n ≤ bs.length :=
  nextRecord_bounds_aux bs (bs.length - c) c e n le_rfl h

theorem getU32_append (A X : List Nat) (k : Nat) :
    getU32 (A ++ X) (A.length + k) = getU32 X k := by
  unfold getU32
  rw [List.drop_append k]

theorem getU32_u32le (m : Nat) (rest : List Nat) :
    getU32 (u32le m ++ rest) 0 = some (m % 4294967296) := by
  unfold getU32 u32le
  simp only [List.cons_append, List.drop_zero]
  simp only [Option.some.injEq]
  omega

theorem getU32_prefix4 (P : List Nat) (m : Nat) (Y : List Nat) (p : Nat)
    (hP : P.length = p) : getU32 (P ++ (u32le m ++ Y)) p = some (m % 4294967296) := by
  subst hP
  have h := getU32_append P (u32le m ++ Y) 0
  rw [Nat.add_zero] at h
  rw [h, getU32_u32le]

theorem crcStep_lt {c : Nat} (hc : c < 4294967296) : crcStep c < 4294967296 := by
  have h32 : (4294967296 : Nat) = 2 ^ 32 := by norm_num
  unfold crcStep
  split
  · rw [h32]
    exact Nat.xor_lt_two_pow (by omega) (by norm_num)
  · omega

theorem crcStep_iterate_lt (k : Nat) {c : Nat} (hc : c < 4294967296) :
    crcStep^[k] c < 4294967296 := by
  induction k generalizing c with
  | zero => simpa using hc
  | succ m ih =>
      rw [Function.iterate_succ_apply]
      exact ih (crcStep_lt hc)

theorem crcByte_lt {c b : Nat} (hc : c < 4294967296) (hb : b < 256) :
    crcByte c b < 4294967296 := by
  have h32 : (4294967296 : Nat) = 2 ^ 32 := by norm_num
  unfold crcByte
  exact crcStep_iterate_lt 8 (by rw [h32]; exact Nat.xor_lt_two_pow (by omega) (by omega))

theorem crc32_foldl_lt :
    ∀ (l : List Nat) (c : Nat), (∀ b ∈ l, b < 256) → c < 4294967296 →
      l.foldl crcByte c < 4294967296 := by
  intro l
  induction l with
  | nil => intro c _ hc; simpa using hc
  | cons x xs ih =>
      intro c hl hc
      simp only [List.foldl_cons]
      exact ih _ (fun b hb => hl b (by simp [hb])) (crcByte_lt hc (hl x (by simp)))

theorem crc32_lt {bs : List Nat} (hb : ∀ b ∈ bs, b < 256) : crc32 bs < 4294967296 := by
  have h32 : (4294967296 : Nat) = 2 ^ 32 := by norm_num
  unfold crc32
  rw [h32]
  exact Nat.xor_lt_two_pow (by rw [← h32]; exact crc32_foldl_lt bs _ hb (by norm_num))
    (by norm_num)

theorem u64le_lt (n : Nat) : ∀ b ∈ u64le n, b < 256 := by
  intro b hb
  unfold u64le at hb
  simp only [List.mem_cons, List.not_mem_nil, or_false] at hb
  rcases hb with rfl | rfl | rfl | rfl | rfl | rfl | rfl | rfl <;> omega

theorem encode_lt {r : DiskRecord} (hwf : WFRecord r) :
    ∀ b ∈ encodeDiskRecord r, b < 256 := by
  obtain ⟨_, hk, hp, _⟩ := hwf
  intro b hb
  unfold encodeDiskRecord at hb
  simp only [List.append_assoc, List.mem_append] at hb
  rcases hb with h | h | h | h | h
  · exact u64le_lt _ b h
  · exact u64le_lt _ b h
  · exact hk b h
  · exact u64le_lt _ b h
  · exact hp b h

theorem frameBytes_length (r : DiskRecord) :
    (frameBytes r).length = 12 + (encodeDiskRecord r).length := by
  simp [frameBytes, u32le]
  omega

theorem readU64_u64le (n : Nat) (rest : List Nat) (hn : n < 18446744073709551616) :
    readU64 (u64le n ++ rest) = some (n, rest) := by
  unfold u64le
  simp only [List.cons_append, List.nil_append]
  unfold readU64
  simp only [Option.some.injEq, Prod.mk.injEq]
  exact ⟨by omega, trivial⟩

theorem decode_encode {r : DiskRecord} (hwf : WFRecord r) :
    decodeDiskRecord (encodeDiskRecord r) = some r := by
  obtain ⟨hts, hk, hp, hlen, _⟩ := hwf
  have hencLen : (encodeDiskRecord r).length =
      24 + r.kind.length + r.payload_json.length := by
    simp [encodeDiskRecord, u64le]
    omega
  have hkL : r.kind.length < 18446744073709551616 := by
    unfold MAX_RECORD_SIZE at hlen
    omega
  have hpL : r.payload_json.length < 18446744073709551616 := by
    unfold MAX_RECORD_SIZE at hlen
    omega
  have e1 : encodeDiskRecord r = u64le r.ts_ms ++ (u64le r.kind.length ++
      (r.kind ++ (u64le r.payload_json.length ++ r.payload_json))) := by
    unfold encodeDiskRecord
    simp [List.append_assoc]
  unfold decodeDiskRecord
  rw [e1]
  simp only [readU64_u64le _ _ hts]
  simp only [readU64_u64le _ _ hkL]
  rw [if_pos (by simp)]
  rw [List.take_left, List.drop_left]
  simp only [readU64_u64le _ _ hpL]
  rw [if_pos le_rfl, List.take_length]

theorem stepRead_frame (A B : List Nat) (r : DiskRecord) (hwf : WFRecord r) :
    stepRead (A ++ (frameBytes r ++ B)) A.length =
      .yield ⟨A.length, A.length + (frameBytes r).length, r⟩
        (A.length + (frameBytes r).length) := by
  have hlen' : (encodeDiskRecord r).length ≤ MAX_RECORD_SIZE := hwf.2.2.2.1
  have hlenMax : (encodeDiskRecord r).length < 4294967296 := by
    unfold MAX_RECORD_SIZE at hlen'
    omega
  have hcrcLt : crc32 (encodeDiskRecord r) < 4294967296 := crc32_lt (encode_lt hwf)
  have hshape : A ++ (frameBytes r ++ B) =
      A ++ (u32le MAGIC_BYTES ++ (u32le (crc32 (encodeDiskRecord r)) ++
        (u32le (encodeDiskRecord r).length ++ (encodeDiskRecord r ++ B)))) := by
    simp [frameBytes, List.append_assoc]
  have g0 : getU32 (A ++ (frameBytes r ++ B)) A.length = some MAGIC_BYTES := by
    rw [hshape, getU32_prefix4 A MAGIC_BYTES _ A.length rfl]
    norm_num [MAGIC_BYTES]
  have g4 : getU32 (A ++ (frameBytes r ++ B)) (A.length + 4) =
      some (crc32 (encodeDiskRecord r)) := by
    have hs2 : A ++ (frameBytes r ++ B) = (A ++ u32le MAGIC_BYTES) ++
        (u32le (crc32 (encodeDiskRecord r)) ++
          (u32le (encodeDiskRecord r).length ++ (encodeDiskRecord r ++ B))) := by
      rw [hshape]
      simp [List.append_assoc]
    rw [hs2, getU32_prefix4 _ _ _ (A.length + 4) (by simp [u32le])]
    rw [Nat.mod_eq_of_lt hcrcLt]
  have g8 : getU32 (A ++ (frameBytes r ++ B)) (A.length + 8) =
      some (encodeDiskRecord r).length := by
    have hs3 : A ++ (frameBytes r ++ B) =
        (A ++ u32le MAGIC_BYTES ++ u32le (crc32 (encodeDiskRecord r))) ++
          (u32le (encodeDiskRecord r).length ++ (encodeDiskRecord r ++ B)) := by
      rw [hshape]
      simp [List.append_assoc]
    rw [hs3, getU32_prefix4 _ _ _ (A.length + 8) (by simp [u32le])]
    rw [Nat.mod_eq_of_lt hlenMax]
  have hpay : ((A ++ (frameBytes r ++ B)).drop (A.length + 12)).take
      (encodeDiskRecord r).length = encodeDiskRecord r := by
    have hs4 : A ++ (frameBytes r ++ B) =
        (A ++ u32le MAGIC_BYTES ++ u32le (crc32 (encodeDiskRecord r)) ++
          u32le (encodeDiskRecord r).length) ++ (encodeDiskRecord r ++ B) := by
      rw [hshape]
      simp [List.append_assoc]
    have hplen : (A ++ u32le MAGIC_BYTES ++ u32le (crc32 (encodeDiskRecord r)) ++
        u32le (encodeDiskRecord r).length).length = A.length + 12 := by
      simp [u32le]
    rw [hs4, ← hplen, List.drop_left, List.take_left]
  have htot : (A ++ (frameBytes r ++ B)).length =
      A.length + 12 + (encodeDiskRecord r).length + B.length := by
    simp [frameBytes_length]
    omega
  unfold stepRead
  split
  · rename_i heq
    rw [g0] at heq
    exact Option.noConfusion heq
  · rename_i magic heq
    rw [g0] at heq
    injection heq with heq
    subst heq
    rw [if_pos rfl]
    split
    · rename_i crc len heq1 heq2
      rw [g4] at heq1
      injection heq1 with heq1
      subst heq1
      rw [g8] at heq2
      injection heq2 with heq2
      subst heq2
      rw [if_neg (by omega), if_pos (by omega), hpay, if_pos rfl]
      split
      · rename_i r' heq3
        rw [decode_encode hwf] at heq3
        injection heq3 with heq3
        subst heq3
        rw [if_pos hwf.2.2.2.2]
        have harith : A.length + 12 + (encodeDiskRecord r).length =
            A.length + (frameBytes r).length := by
          rw [frameBytes_length]
          omega
        rw [harith]
      · rename_i heq3
        rw [decode_encode hwf] at heq3
        exact Option.noConfusion heq3
    · rename_i hnone
      exact (hnone _ _ g4 g8).elim

theorem nextRecord_eq_yield {bs : List Nat} {c : Nat} {e : EventEnvelope} {n : Nat}
    (h : stepRead bs c = .yield e n) : nextRecord bs c = some (e, n) := by
  rw [nextRecord_unfold, h]
theorem nextRecord_eq_skip {bs : List Nat} {c m : Nat}
    (h : stepRead bs c = .skipTo m) : nextRecord bs c = nextRecord bs m := by
  rw [nextRecord_unfold, h]
theorem nextRecord_eq_eof {bs : List Nat} {c : Nat}
    (h : stepRead bs c = .eof) : nextRecord bs c = none := by
  rw [nextRecord_unfold, h]
theorem readAllFuel_congr (bs : List Nat) :
    ∀ f f' c, bs.length + 1 - c ≤ f → bs.length + 1 - c ≤ f' →
      readAllFuel bs c f = readAllFuel bs c f' := by
  intro f
  induction f with
  | zero =>
      intro f' c hf hf'
      rcases f' with _ | m
      · rfl
      · have heof : stepRead bs c = .eof := stepRead_eof_of_end (by omega)
        simp only [readAllFuel, nextRecord_eq_eof heof]
  | succ k ih =>
      intro f' c hf hf'
      rcases f' with _ | m
      · have heof : stepRead bs c = .eof := stepRead_eof_of_end (by omega)
        simp only [readAllFuel, nextRecord_eq_eof heof]
      · simp only [readAllFuel]
        rcases hn : nextRecord bs c with _ | ⟨e, n⟩
        · simp only [hn]
        · simp only [hn]
          obtain ⟨h1, h2⟩ := nextRecord_bounds hn
          rw [ih m n (by omega) (by omega)]

theorem readAll_unfold (bs : List Nat) (c : Nat) :
    readAll bs c = match nextRecord bs c with
      | some (e, n) => e :: readAll bs n
      | none => [] := by
  unfold readAll
  rcases hf : bs.length + 1 - c with _ | m
  · have heof : stepRead bs c = .eof := stepRead_eof_of_end (by omega)
    simp only [nextRecord_eq_eof heof]
    rfl
  · simp only [readAllFuel]
    rcases hn : nextRecord bs c with _ | ⟨e, n⟩
    · simp only [hn]
    · simp only [hn]
      obtain ⟨h1, h2⟩ := nextRecord_bounds hn
      rw [readAllFuel_congr bs m (bs.length + 1 - n) n (by omega) le_rfl]

theorem readAll_eq_cons {bs : List Nat} {c : Nat} {e : EventEnvelope} {n : Nat}
    (h : nextRecord bs c = some (e, n)) : readAll bs c = e :: readAll bs n := by
  rw [readAll_unfold, h]

theorem readAll_eq_nil {bs : List Nat} {c : Nat}
    (h : nextRecord bs c = none) : readAll bs c = [] := by
  rw [readAll_unfold, h]
theorem nextRecord_frame (A B : List Nat) (r : DiskRecord) (hwf : WFRecord r) :
    nextRecord (A ++ (frameBytes r ++ B)) A.length =
      some (⟨A.length, A.length + (frameBytes r).length, r⟩,
        A.length + (frameBytes r).length) :=
  nextRecord_eq_yield (stepRead_frame A B r hwf)

theorem readAll_encodeLog :
    ∀ (rs : List DiskRecord) (C : List Nat), (∀ r ∈ rs, WFRecord r) →
      readAll (C ++ encodeLog rs) C.length = expectedEnvelopes rs C.length := by
  intro rs
  induction rs with
  | nil =>
      intro C _
      apply readAll_eq_nil
      apply nextRecord_eq_eof
      apply stepRead_eof_of_end
      simp [encodeLog]
  | cons r rest ih =>
      intro C hwf
      have hlog : C ++ encodeLog (r :: rest) = C ++ (frameBytes r ++ encodeLog rest) := by
        simp [encodeLog]
      rw [hlog]
      rw [readAll_eq_cons (nextRecord_frame C (encodeLog rest) r (hwf r (by simp)))]
      have hassoc : C ++ (frameBytes r ++ encodeLog rest) =
          (C ++ frameBytes r) ++ encodeLog rest := by
        simp [List.append_assoc]
      have hlen2 : C.length + (frameBytes r).length = (C ++ frameBytes r).length := by
        simp
      simp only [expectedEnvelopes]
      congr 1
      rw [hassoc, hlen2]
      exact ih (C ++ frameBytes r) (fun x hx => hwf x (by simp [hx]))

theorem expectedEnvelopes_records :
    ∀ (rs : List DiskRecord) (base : Nat),
      (expectedEnvelopes rs base).map (fun e => e.record) = rs := by
  intro rs
  induction rs with
  | nil => intro base; rfl
  | cons r rest ih =>
      intro base
      simp only [expectedEnvelopes, List.map_cons, ih]

theorem expectedEnvelopes_head_offset :
    ∀ (rs : List DiskRecord) (base : Nat) (e : EventEnvelope),
      (expectedEnvelopes rs base).get? 0 = some e → e.offset = base := by
  intro rs base e h
  cases rs with
  | nil => cases h
  | cons r rest =>
      simp only [expectedEnvelopes, List.get?_cons_zero] at h
      injection h with h
      rw [← h]

theorem expectedEnvelopes_chain :
    ∀ (rs : List DiskRecord) (base i : Nat) (e1 e2 : EventEnvelope),
      (expectedEnvelopes rs base).get? i = some e1 →
      (expectedEnvelopes rs base).get? (i + 1) = some e2 →
      e1.next_offset = e2.offset := by
  intro rs
  induction rs with
  | nil => intro base i e1 e2 h1 _; cases h1
  | cons r rest ih =>
      intro base i e1 e2 h1 h2
      cases i with
      | zero =>
          simp only [expectedEnvelopes, List.get?_cons_zero] at h1
          simp only [expectedEnvelopes, List.get?_cons_succ] at h2
          injection h1 with h1
          rw [← h1]
          exact (expectedEnvelopes_head_offset rest _ e2 h2).symm
      | succ j =>
          simp only [expectedEnvelopes, List.get?_cons_succ] at h1 h2
          exact ih _ j e1 e2 h1 h2

/-- **C1** (frame round-trip): for any sequence of `append(kind_i, payload_i)`
calls, a fresh reader starting at offset 0 yields one envelope per append, in
order, with each envelope's record equal to the appended record (same kind and
payload), consecutive envelopes chained by `next_offset = offset`, and `next`
returning no record once the last frame has been consumed. -/
theorem eventlog_frame_roundtrip (rs : List DiskRecord)
    (hwf : ∀ r ∈ rs, WFRecord r) :
    (readAll (encodeLog rs) 0).map (fun e => e.record) = rs ∧
    (∀ i e1 e2, (readAll (encodeLog rs) 0).get? i = some e1 →
      (readAll (encodeLog rs) 0).get? (i + 1) = some e2 →
      e1.next_offset = e2.offset) ∧
    nextRecord (encodeLog rs) (encodeLog rs).length = none := by
  have h0 := readAll_encodeLog rs [] hwf
  simp only [List.nil_append, List.length_nil] at h0
  refine ⟨?_, ?_, ?_⟩
  · rw [h0]
    exact expectedEnvelopes_records rs 0
  · intro i e1 e2 h1 h2
    rw [h0] at h1 h2
    exact expectedEnvelopes_chain rs 0 i e1 e2 h1 h2
  · exact nextRecord_eq_eof (stepRead_eof_of_end (by omega))

/-- Witness for `eventlog_frame_roundtrip` on a concrete two-record log. -/
theorem eventlog_frame_roundtrip_witness :
    (∀ r ∈ [DiskRecord.mk 5 [107] [49], DiskRecord.mk 6 [106] [50, 51]],
      WFRecord r) ∧
    ((readAll (encodeLog [DiskRecord.mk 5 [107] [49],
        DiskRecord.mk 6 [106] [50, 51]]) 0).map (fun e => e.record) =
      [DiskRecord.mk 5 [107] [49], DiskRecord.mk 6 [106] [50, 51]] ∧
    (∀ i e1 e2, (readAll (encodeLog [DiskRecord.mk 5 [107] [49],
        DiskRecord.mk 6 [106] [50, 51]]) 0).get? i = some e1 →
      (readAll (encodeLog [DiskRecord.mk 5 [107] [49],
        DiskRecord.mk 6 [106] [50, 51]]) 0).get? (i + 1) = some e2 →
      e1.next_offset = e2.offset) ∧
    nextRecord (encodeLog [DiskRecord.mk 5 [107] [49],
        DiskRecord.mk 6 [106] [50, 51]])
      (encodeLog [DiskRecord.mk 5 [107] [49],
        DiskRecord.mk 6 [106] [50, 51]]).length = none) :=
  ⟨by decide, eventlog_frame_roundtrip _ (by decide)⟩

theorem stepRead_crc_fail {bs : List Nat} {c crc len : Nat}
    (h0 : getU32 bs c = some MAGIC_BYTES) (h4 : getU32 bs (c + 4) = some crc)
    (h8 : getU32 bs (c + 8) = some len) (hmax : len ≤ MAX_RECORD_SIZE)
    (hfit : c + 12 + len ≤ bs.length)
    (hcrc : crc32 ((bs.drop (c + 12)).take len) ≠ crc) :
    stepRead bs c = match scanForMagic bs (c + 1) with
      | some p => .skipTo p
      | none => .eof := by
  unfold stepRead
  split
  · rename_i heq
    rw [h0] at heq
    exact Option.noConfusion heq
  · rename_i magic heq
    rw [h0] at heq
    injection heq with heq
    subst heq
    rw [if_pos rfl]
    split
    · rename_i crc' len' heq1 heq2
      rw [h4] at heq1
      injection heq1 with heq1
      subst heq1
      rw [h8] at heq2
      injection heq2 with heq2
      subst heq2
      rw [if_neg (by omega), if_pos hfit, if_neg hcrc]
    · rename_i hnone
      exact (hnone _ _ h4 h8).elim

theorem readAll_congr_cursor {bs : List Nat} {c c' : Nat}
    (h : nextRecord bs c = nextRecord bs c') : readAll bs c = readAll bs c' := by
  rcases hn : nextRecord bs c' with _ | ⟨e, n⟩
  · rw [readAll_eq_nil (by rw [h, hn]), readAll_eq_nil hn]
  · rw [readAll_eq_cons (by rw [h, hn]), readAll_eq_cons hn]

/-- Reading across a prefix of intact frames yields exactly those frames and
then continues at the first byte past the prefix, whatever follows. -/
theorem readAll_frames_prefix :
    ∀ (rs : List DiskRecord) (C D : List Nat), (∀ r ∈ rs, WFRecord r) →
      readAll (C ++ (encodeLog rs ++ D)) C.length =
        expectedEnvelopes rs C.length ++
          readAll (C ++ (encodeLog rs ++ D)) (C.length + (encodeLog rs).length) := by
  intro rs
  induction rs with
  | nil =>
      intro C D _
      simp [expectedEnvelopes, encodeLog]
  | cons r rest ih =>
      intro C D hwf
      have hshape : C ++ (encodeLog (r :: rest) ++ D) =
          C ++ (frameBytes r ++ (encodeLog rest ++ D)) := by
        simp [encodeLog, List.append_assoc]
      rw [hshape]
      rw [readAll_eq_cons (nextRecord_eq_yield
        (stepRead_frame C (encodeLog rest ++ D) r (hwf r (by simp))))]
      have hshape2 : C ++ (frameBytes r ++ (encodeLog rest ++ D)) =
          (C ++ frameBytes r) ++ (encodeLog rest ++ D) := by
        simp [List.append_assoc]
      have hlen2 : C.length + (frameBytes r).length = (C ++ frameBytes r).length := by
        simp
      simp only [expectedEnvelopes, List.cons_append]
      congr 1
      rw [hshape2, hlen2]
      rw [ih (C ++ frameBytes r) D (fun x hx => hwf x (by simp [hx]))]
      congr 2
      simp [encodeLog]
      omega

theorem frameBytes_decomp (r : DiskRecord) :
    frameBytes r = (u32le MAGIC_BYTES ++ u32le (crc32 (encodeDiskRecord r)) ++
      u32le (encodeDiskRecord r).length) ++ encodeDiskRecord r := by
  unfold frameBytes
  simp [List.append_assoc]

theorem frameBytes_take12 (r : DiskRecord) :
    (frameBytes r).take 12 = u32le MAGIC_BYTES ++ u32le (crc32 (encodeDiskRecord r)) ++
      u32le (encodeDiskRecord r).length := by
  rw [frameBytes_decomp]
  have h12 : (u32le MAGIC_BYTES ++ u32le (crc32 (encodeDiskRecord r)) ++
      u32le (encodeDiskRecord r).length).length = 12 := by
    simp [u32le]
  rw [← h12, List.take_left]

/-- **C2 (amended)**: if a contiguous byte range strictly inside one written
frame is overwritten such that the frame's 12-byte header is intact, the
damaged payload no longer matches the stored CRC, and no four-byte window
beginning strictly inside the damaged frame decodes to the magic value, then
a fresh reader from offset 0 yields exactly the frames outside the damaged
frame, in order, and no frame from inside the damaged region. -/
theorem corruption_tolerance_amended
    (pre post : List DiskRecord) (dmg : DiskRecord) (F' : List Nat)
    (hwfpre : ∀ r ∈ pre, WFRecord r) (hwfpost : ∀ r ∈ post, WFRecord r)
    (hwfdmg : WFRecord dmg)
    (hlen : F'.length = (frameBytes dmg).length)
    (hhdr : F'.take 12 = (frameBytes dmg).take 12)
    (hcrc : crc32 (F'.drop 12) ≠ crc32 (encodeDiskRecord dmg))
    (hnomagic : ∀ p, 1 ≤ p → p < F'.length →
      getU32 (encodeLog pre ++ (F' ++ encodeLog post))
        ((encodeLog pre).length + p) ≠ some MAGIC_BYTES) :
    readAll (encodeLog pre ++ (F' ++ encodeLog post)) 0 =
      expectedEnvelopes pre 0 ++
        expectedEnvelopes post ((encodeLog pre).length + F'.length) := by
  have hencLt : (encodeDiskRecord dmg).length ≤ MAX_RECORD_SIZE := hwfdmg.2.2.2.1
  have hencLt32 : (encodeDiskRecord dmg).length < 4294967296 := by
    unfold MAX_RECORD_SIZE at hencLt
    omega
  have hcrcLt : crc32 (encodeDiskRecord dmg) < 4294967296 :=
    crc32_lt (encode_lt hwfdmg)
  have hflen : (frameBytes dmg).length = 12 + (encodeDiskRecord dmg).length :=
    frameBytes_length dmg
  have hF' : F' = (u32le MAGIC_BYTES ++ u32le (crc32 (encodeDiskRecord dmg)) ++
      u32le (encodeDiskRecord dmg).length) ++ F'.drop 12 := by
    conv_lhs => rw [← List.take_append_drop 12 F']
    rw [hhdr, frameBytes_take12]
  have hdroplen : (F'.drop 12).length = (encodeDiskRecord dmg).length := by
    rw [List.length_drop, hlen, hflen]
    omega
  have hshape0 : encodeLog pre ++ (F' ++ encodeLog post) =
      encodeLog pre ++ (u32le MAGIC_BYTES ++ (u32le (crc32 (encodeDiskRecord dmg)) ++
        (u32le (encodeDiskRecord dmg).length ++ (F'.drop 12 ++ encodeLog post)))) := by
    conv_lhs => rw [hF']
    simp [List.append_assoc]
  have htotal : (encodeLog pre ++ (F' ++ encodeLog post)).length =
      (encodeLog pre).length + F'.length + (encodeLog post).length := by
    simp
    omega
  have g0 : getU32 (encodeLog pre ++ (F' ++ encodeLog post))
      (encodeLog pre).length = some MAGIC_BYTES := by
    rw [hshape0, getU32_prefix4 (encodeLog pre) MAGIC_BYTES _ _ rfl]
    norm_num [MAGIC_BYTES]
  have g4 : getU32 (encodeLog pre ++ (F' ++ encodeLog post))
      ((encodeLog pre).length + 4) = some (crc32 (encodeDiskRecord dmg)) := by
    have hs : encodeLog pre ++ (F' ++ encodeLog post) =
        (encodeLog pre ++ u32le MAGIC_BYTES) ++
          (u32le (crc32 (encodeDiskRecord dmg)) ++
            (u32le (encodeDiskRecord dmg).length ++ (F'.drop 12 ++ encodeLog post))) := by
      rw [hshape0]
      simp [List.append_assoc]
    rw [hs, getU32_prefix4 _ _ _ _ (by simp [u32le]), Nat.mod_eq_of_lt hcrcLt]
  have g8 : getU32 (encodeLog pre ++ (F' ++ encodeLog post))
      ((encodeLog pre).length + 8) = some (encodeDiskRecord dmg).length := by
    have hs : encodeLog pre ++ (F' ++ encodeLog post) =
        (encodeLog pre ++ u32le MAGIC_BYTES ++ u32le (crc32 (encodeDiskRecord dmg))) ++
          (u32le (encodeDiskRecord dmg).length ++ (F'.drop 12 ++ encodeLog post)) := by
      rw [hshape0]
      simp [List.append_assoc]
    rw [hs, getU32_prefix4 _ _ _ _ (by simp [u32le]), Nat.mod_eq_of_lt hencLt32]
  have hpay : (((encodeLog pre ++ (F' ++ encodeLog post)).drop
      ((encodeLog pre).length + 12)).take (encodeDiskRecord dmg).length) =
        F'.drop 12 := by
    have hs : encodeLog pre ++ (F' ++ encodeLog post) =
        (encodeLog pre ++ u32le MAGIC_BYTES ++ u32le (crc32 (encodeDiskRecord dmg)) ++
          u32le (encodeDiskRecord dmg).length) ++ (F'.drop 12 ++ encodeLog post) := by
      rw [hshape0]
      simp [List.append_assoc]
    have hplen : (encodeLog pre ++ u32le MAGIC_BYTES ++
        u32le (crc32 (encodeDiskRecord dmg)) ++
          u32le (encodeDiskRecord dmg).length).length =
        (encodeLog pre).length + 12 := by
      simp [u32le]
    rw [hs, ← hplen, List.drop_left, ← hdroplen, List.take_left]
  have hfit : (encodeLog pre).length + 12 + (encodeDiskRecord dmg).length ≤
      (encodeLog pre ++ (F' ++ encodeLog post)).length := by
    rw [htotal, hlen, hflen]
    omega
  have hstep : stepRead (encodeLog pre ++ (F' ++ encodeLog post))
      (encodeLog pre).length =
        match scanForMagic (encodeLog pre ++ (F' ++ encodeLog post))
            ((encodeLog pre).length + 1) with
          | some p => .skipTo p
          | none => .eof := by
    apply stepRead_crc_fail g0 g4 g8 hencLt hfit
    rw [hpay]
    exact hcrc
  have h1 := readAll_frames_prefix pre [] (F' ++ encodeLog post) hwfpre
  simp only [List.nil_append, List.length_nil, Nat.zero_add] at h1
  rw [h1]
  congr 1
  cases post with
  | nil =>
      have hscan : scanForMagic (encodeLog pre ++ (F' ++ encodeLog []))
          ((encodeLog pre).length + 1) = none := by
        apply scanForMagic_none
        intro q hq
        by_cases hq2 : q < (encodeLog pre).length + F'.length
        · have hp := hnomagic (q - (encodeLog pre).length) (by omega) (by omega)
          have : (encodeLog pre).length + (q - (encodeLog pre).length) = q := by omega
          rw [this] at hp
          exact hp
        · have hnone : getU32 (encodeLog pre ++ (F' ++ encodeLog [])) q = none := by
            apply getU32_eq_none
            rw [htotal]
            have he : (encodeLog ([] : List DiskRecord)).length = 0 := rfl
            rw [he]
            omega
          rw [hnone]
          simp
      rw [readAll_eq_nil (nextRecord_eq_eof (by rw [hstep, hscan]))]
      rfl
  | cons r rest =>
      have hBshape : encodeLog (r :: rest) = frameBytes r ++ encodeLog rest := by
        simp [encodeLog]
      have gT : getU32 (encodeLog pre ++ (F' ++ encodeLog (r :: rest)))
          ((encodeLog pre).length + F'.length) = some MAGIC_BYTES := by
        have hs : encodeLog pre ++ (F' ++ encodeLog (r :: rest)) =
            (encodeLog pre ++ F') ++ (u32le MAGIC_BYTES ++
              (u32le (crc32 (encodeDiskRecord r)) ++ u32le (encodeDiskRecord r).length ++
                encodeDiskRecord r ++ encodeLog rest)) := by
          rw [hBshape]
          unfold frameBytes
          simp [List.append_assoc]
        rw [hs, getU32_prefix4 _ _ _ _ (by simp)]
        norm_num [MAGIC_BYTES]
      have hscan : scanForMagic (encodeLog pre ++ (F' ++ encodeLog (r :: rest)))
          ((encodeLog pre).length + 1) =
            some ((encodeLog pre).length + F'.length) := by
        apply scanForMagic_eq (by rw [hlen, hflen]; omega) gT
        intro q hq1 hq2
        have hp := hnomagic (q - (encodeLog pre).length) (by omega) (by omega)
        have : (encodeLog pre).length + (q - (encodeLog pre).length) = q := by omega
        rw [this] at hp
        exact hp
      have hnx : nextRecord (encodeLog pre ++ (F' ++ encodeLog (r :: rest)))
          (encodeLog pre).length =
            nextRecord (encodeLog pre ++ (F' ++ encodeLog (r :: rest)))
              ((encodeLog pre).length + F'.length) := by
        apply nextRecord_eq_skip
        rw [hstep, hscan]
      rw [readAll_congr_cursor hnx]
      have hs2 : encodeLog pre ++ (F' ++ encodeLog (r :: rest)) =
          (encodeLog pre ++ F') ++ encodeLog (r :: rest) := by
        simp [List.append_assoc]
      have hlen3 : (encodeLog pre).length + F'.length =
          (encodeLog pre ++ F').length := by
        simp
      rw [hs2, hlen3]
      exact readAll_encodeLog (r :: rest) (encodeLog pre ++ F') hwfpost

set_option maxRecDepth 4500 in
/-- **C2 counterexample**: overwriting bytes 12..49 — strictly inside the
first frame of a two-frame log (the first frame occupies bytes 0..50, the
second is untouched) — with bytes that themselves form a complete valid
frame (magic, CRC, length, decodable record, valid JSON payload `"1"`)
makes the reader yield an envelope whose offset lies inside the damaged
region, so corruption tolerance does not hold for every choice of
overwriting bytes. -/
theorem corruption_tolerance_cex :
    (frameBytes (⟨0, [97], [49, 50, 51, 52, 53, 54, 55, 56, 57, 49, 50, 51,
      52]⟩ : DiskRecord)).length = 50 ∧
    ((encodeLog [⟨0, [97], [49, 50, 51, 52, 53, 54, 55, 56, 57, 49,
          50, 51, 52]⟩, ⟨0, [98], [49]⟩]).take 12 ++
          (frameBytes ⟨0, [], [49]⟩ ++
          (encodeLog [⟨0, [97], [49, 50, 51, 52, 53, 54, 55, 56, 57, 49,
          50, 51, 52]⟩, ⟨0, [98], [49]⟩]).drop 49)).length =
      (encodeLog [⟨0, [97], [49, 50, 51, 52, 53, 54, 55, 56, 57, 49,
        50, 51, 52]⟩, ⟨0, [98], [49]⟩]).length ∧
    ∃ e ∈ readAll
      ((encodeLog [⟨0, [97], [49, 50, 51, 52, 53, 54, 55, 56, 57, 49,
          50, 51, 52]⟩, ⟨0, [98], [49]⟩]).take 12 ++
          (frameBytes ⟨0, [], [49]⟩ ++
          (encodeLog [⟨0, [97], [49, 50, 51, 52, 53, 54, 55, 56, 57, 49,
          50, 51, 52]⟩, ⟨0, [98], [49]⟩]).drop 49)) 0,
      12 ≤ e.offset ∧ e.offset < 49 := by
  refine ⟨by decide, by decide, ?_⟩
  have hmin : ∀ q < 12, 1 ≤ q →
      getU32
        ((encodeLog [⟨0, [97], [49, 50, 51, 52, 53, 54, 55, 56, 57, 49,
          50, 51, 52]⟩, ⟨0, [98], [49]⟩]).take 12 ++
          (frameBytes ⟨0, [], [49]⟩ ++
          (encodeLog [⟨0, [97], [49, 50, 51, 52, 53, 54, 55, 56, 57, 49,
          50, 51, 52]⟩, ⟨0, [98], [49]⟩]).drop 49)) q ≠ some MAGIC_BYTES := by
    decide
  have hscan12 : scanForMagic
      ((encodeLog [⟨0, [97], [49, 50, 51, 52, 53, 54, 55, 56, 57, 49,
          50, 51, 52]⟩, ⟨0, [98], [49]⟩]).take 12 ++
          (frameBytes ⟨0, [], [49]⟩ ++
          (encodeLog [⟨0, [97], [49, 50, 51, 52, 53, 54, 55, 56, 57, 49,
          50, 51, 52]⟩, ⟨0, [98], [49]⟩]).drop 49)) 1 = some 12 :=
    scanForMagic_eq (by omega) (by decide) (fun q h1 h2 => hmin q h2 h1)
  have hstep0 := @stepRead_crc_fail
    ((encodeLog [⟨0, [97], [49, 50, 51, 52, 53, 54, 55, 56, 57, 49,
          50, 51, 52]⟩, ⟨0, [98], [49]⟩]).take 12 ++
          (frameBytes ⟨0, [], [49]⟩ ++
          (encodeLog [⟨0, [97], [49, 50, 51, 52, 53, 54, 55, 56, 57, 49,
          50, 51, 52]⟩, ⟨0, [98], [49]⟩]).drop 49)) 0
    (crc32 (encodeDiskRecord ⟨0, [97], [49, 50, 51, 52, 53, 54, 55, 56, 57,
      49, 50, 51, 52]⟩)) 38
    (by decide) (by decide) (by decide) (by decide) (by decide)
    (by
      have hb : ((
          (encodeLog [⟨0, [97], [49, 50, 51, 52, 53, 54, 55, 56, 57, 49,
          50, 51, 52]⟩, ⟨0, [98], [49]⟩]).take 12 ++
          (frameBytes ⟨0, [], [49]⟩ ++
          (encodeLog [⟨0, [97], [49, 50, 51, 52, 53, 54, 55, 56, 57, 49,
          50, 51, 52]⟩, ⟨0, [98], [49]⟩]).drop 49)).drop (0 + 12)).take 38 =
          [66, 65, 76, 85, 246, 26, 106, 175, 25, 0, 0, 0, 0, 0, 0, 0, 0, 0,
           0, 0, 0, 0, 0, 0, 0, 0, 0, 0, 1, 0, 0, 0, 0, 0, 0, 0, 49, 52] := by
        decide
      rw [hb]
      decide)
  simp only [hscan12] at hstep0
  have hP : ((encodeLog [⟨0, [97], [49, 50, 51, 52, 53, 54, 55, 56, 57, 49,
      50, 51, 52]⟩, ⟨0, [98], [49]⟩] : List Nat).take 12).length = 12 := by
    decide
  have hyield := stepRead_frame ((encodeLog [⟨0, [97], [49, 50, 51, 52, 53,
      54, 55, 56, 57, 49, 50, 51, 52]⟩, ⟨0, [98], [49]⟩]).take 12)
    ((encodeLog [⟨0, [97], [49, 50, 51, 52, 53, 54, 55, 56, 57, 49, 50, 51,
      52]⟩, ⟨0, [98], [49]⟩]).drop 49) ⟨0, [], [49]⟩ (by decide)
  rw [hP] at hyield
  have hnx0 : nextRecord
      ((encodeLog [⟨0, [97], [49, 50, 51, 52, 53, 54, 55, 56, 57, 49,
          50, 51, 52]⟩, ⟨0, [98], [49]⟩]).take 12 ++
          (frameBytes ⟨0, [], [49]⟩ ++
          (encodeLog [⟨0, [97], [49, 50, 51, 52, 53, 54, 55, 56, 57, 49,
          50, 51, 52]⟩, ⟨0, [98], [49]⟩]).drop 49)) 0 =
      some (⟨12, 12 + (frameBytes (⟨0, [], [49]⟩ : DiskRecord)).length,
          ⟨0, [], [49]⟩⟩,
        12 + (frameBytes (⟨0, [], [49]⟩ : DiskRecord)).length) := by
    rw [nextRecord_eq_skip hstep0]
    exact nextRecord_eq_yield hyield
  rw [readAll_eq_cons hnx0]
  refine ⟨⟨12, 12 + (frameBytes (⟨0, [], [49]⟩ : DiskRecord)).length,
    ⟨0, [], [49]⟩⟩, by simp, by simp, by decide⟩

set_option maxRecDepth 4500 in
/-- Witness for `corruption_tolerance_amended`: a three-frame log whose middle
frame's payload is zeroed out (header intact, CRC broken, no magic inside). -/
theorem corruption_tolerance_amended_witness :
    (∀ r ∈ [DiskRecord.mk 0 [107] [49]], WFRecord r) ∧
    (∀ r ∈ [DiskRecord.mk 0 [108] [50]], WFRecord r) ∧
    WFRecord ⟨0, [97], [49, 50, 51, 52]⟩ ∧
    ((frameBytes ⟨0, [97], [49, 50, 51, 52]⟩).take 12 ++ List.replicate 29 0).length =
      (frameBytes (⟨0, [97], [49, 50, 51, 52]⟩ : DiskRecord)).length ∧
    ((frameBytes ⟨0, [97], [49, 50, 51, 52]⟩).take 12 ++
        List.replicate 29 0).take 12 =
      (frameBytes (⟨0, [97], [49, 50, 51, 52]⟩ : DiskRecord)).take 12 ∧
    crc32 (((frameBytes ⟨0, [97], [49, 50, 51, 52]⟩).take 12 ++
        List.replicate 29 0).drop 12) ≠
      crc32 (encodeDiskRecord ⟨0, [97], [49, 50, 51, 52]⟩) ∧
    (∀ p, 1 ≤ p →
      p < ((frameBytes ⟨0, [97], [49, 50, 51, 52]⟩).take 12 ++
        List.replicate 29 0).length →
      getU32 (encodeLog [DiskRecord.mk 0 [107] [49]] ++
        (((frameBytes ⟨0, [97], [49, 50, 51, 52]⟩).take 12 ++ List.replicate 29 0) ++
          encodeLog [DiskRecord.mk 0 [108] [50]]))
        ((encodeLog [DiskRecord.mk 0 [107] [49]]).length + p) ≠
          some MAGIC_BYTES) ∧
    readAll (encodeLog [DiskRecord.mk 0 [107] [49]] ++
        (((frameBytes ⟨0, [97], [49, 50, 51, 52]⟩).take 12 ++ List.replicate 29 0) ++
          encodeLog [DiskRecord.mk 0 [108] [50]])) 0 =
      expectedEnvelopes [DiskRecord.mk 0 [107] [49]] 0 ++
        expectedEnvelopes [DiskRecord.mk 0 [108] [50]]
          ((encodeLog [DiskRecord.mk 0 [107] [49]]).length +
            ((frameBytes ⟨0, [97], [49, 50, 51, 52]⟩).take 12 ++
              List.replicate 29 0).length) := by
  have hb : ∀ p < ((frameBytes ⟨0, [97], [49, 50, 51, 52]⟩).take 12 ++
      List.replicate 29 0).length, 1 ≤ p →
      getU32 (encodeLog [DiskRecord.mk 0 [107] [49]] ++
        (((frameBytes ⟨0, [97], [49, 50, 51, 52]⟩).take 12 ++ List.replicate 29 0) ++
          encodeLog [DiskRecord.mk 0 [108] [50]]))
        ((encodeLog [DiskRecord.mk 0 [107] [49]]).length + p) ≠
          some MAGIC_BYTES := by
    decide
  refine ⟨by decide, by decide, by decide, by decide, by decide, by decide,
    fun p h1 h2 => hb p h2 h1, ?_⟩
  exact corruption_tolerance_amended [DiskRecord.mk 0 [107] [49]]
    [DiskRecord.mk 0 [108] [50]] ⟨0, [97], [49, 50, 51, 52]⟩
    ((frameBytes ⟨0, [97], [49, 50, 51, 52]⟩).take 12 ++ List.replicate 29 0)
    (by decide) (by decide) (by decide) (by decide) (by decide) (by decide)
    (fun p h1 h2 => hb p h2 h1)

/-! ### Mask bookkeeping lemmas -/

theorem maskGet_set_self {mask : List Bool} {i : Nat} (b : Bool)
    (h : i < mask.length) : maskGet (mask.set i b) i = b := by
  induction mask generalizing i with
  | nil => simp at h
  | cons a rest ih =>
      cases i with
      | zero => rfl
      | succ j =>
          simp only [List.set_cons_succ]
          exact ih (by simpa using h)

theorem maskGet_set_other {mask : List Bool} {i j : Nat} (b : Bool)
    (h : i ≠ j) : maskGet (mask.set i b) j = maskGet mask j := by
  induction mask generalizing i j with
  | nil => rfl
  | cons a rest ih =>
      cases i with
      | zero =>
          cases j with
          | zero => exact absurd rfl h
          | succ j' => rfl
      | succ i' =>
          cases j with
          | zero => rfl
          | succ j' =>
              simp only [List.set_cons_succ]
              exact ih (fun hc => h (by rw [hc]))

theorem busyCount_set_true {mask : List Bool} {i : Nat}
    (h : i < mask.length) (hfree : maskGet mask i = false) :
    busyCount (mask.set i true) = busyCount mask + 1 := by
  induction mask generalizing i with
  | nil => simp at h
  | cons a rest ih =>
      cases i with
      | zero =>
          have : a = false := hfree
          subst this
          simp [busyCount]
      | succ j =>
          have h' : j < rest.length := by simpa using h
          have := ih h' hfree
          cases a <;> simp [busyCount, List.filter] at this ⊢ <;> omega

theorem busyCount_set_false {mask : List Bool} {i : Nat}
    (h : i < mask.length) (hbusy : maskGet mask i = true) :
    busyCount (mask.set i false) + 1 = busyCount mask := by
  induction mask generalizing i with
  | nil => simp at h
  | cons a rest ih =>
      cases i with
      | zero =>
          have : a = true := hbusy
          subst this
          simp [busyCount]
      | succ j =>
          have h' : j < rest.length := by simpa using h
          have := ih h' hbusy
          cases a <;> simp [busyCount, List.filter] at this ⊢ <;> omega

theorem free_add_busy (mask : List Bool) :
    (mask.filter (fun busy => !busy)).length + busyCount mask = mask.length := by
  induction mask with
  | nil => rfl
  | cons a rest ih =>
      cases a <;> simp [busyCount, List.filter] at ih ⊢ <;> omega

theorem markBusy_length (mask : List Bool) (idxs : List Nat) :
    (markBusy mask idxs).length = mask.length := by
  induction idxs generalizing mask with
  | nil => rfl
  | cons i rest ih =>
      simp only [markBusy, List.foldl_cons] at ih ⊢
      rw [ih, List.length_set]

theorem clearBusy_length (mask : List Bool) (idxs : List Nat) :
    (clearBusy mask idxs).length = mask.length := by
  induction idxs generalizing mask with
  | nil => rfl
  | cons i rest ih =>
      simp only [clearBusy, List.foldl_cons] at ih ⊢
      rw [ih, List.length_set]

theorem markBusy_get_notMem {mask : List Bool} {idxs : List Nat} {j : Nat}
    (h : j ∉ idxs) : maskGet (markBusy mask idxs) j = maskGet mask j := by
  induction idxs generalizing mask with
  | nil => rfl
  | cons i rest ih =>
      simp only [markBusy, List.foldl_cons] at ih ⊢
      rw [ih (fun hc => h (by simp [hc]))]
      exact maskGet_set_other _ (fun hc => h (by simp [hc]))

theorem clearBusy_get_notMem {mask : List Bool} {idxs : List Nat} {j : Nat}
    (h : j ∉ idxs) : maskGet (clearBusy mask idxs) j = maskGet mask j := by
  induction idxs generalizing mask with
  | nil => rfl
  | cons i rest ih =>
      simp only [clearBusy, List.foldl_cons] at ih ⊢
      rw [ih (fun hc => h (by simp [hc]))]
      exact maskGet_set_other _ (fun hc => h (by simp [hc]))

theorem markBusy_cons (mask : List Bool) (i : Nat) (rest : List Nat) :
    markBusy mask (i :: rest) = markBusy (mask.set i true) rest := rfl

theorem clearBusy_cons (mask : List Bool) (i : Nat) (rest : List Nat) :
    clearBusy mask (i :: rest) = clearBusy (mask.set i false) rest := rfl

theorem markBusy_get_mem {mask : List Bool} {idxs : List Nat} {j : Nat}
    (hnd : idxs.Nodup) (hlt : ∀ i ∈ idxs, i < mask.length)
    (h : j ∈ idxs) : maskGet (markBusy mask idxs) j = true := by
  induction idxs generalizing mask with
  | nil => simp at h
  | cons i rest ih =>
      rw [markBusy_cons]
      rcases List.mem_cons.1 h with rfl | hmem
      · have hnotin : j ∉ rest := (List.nodup_cons.1 hnd).1
        rw [markBusy_get_notMem hnotin]
        exact maskGet_set_self true (hlt j (by simp))
      · exact ih (List.nodup_cons.1 hnd).2
          (fun x hx => by rw [List.length_set]; exact hlt x (by simp [hx])) hmem

theorem markBusy_count {mask : List Bool} {idxs : List Nat}
    (hnd : idxs.Nodup) (hfree : ∀ i ∈ idxs, i < mask.length ∧ maskGet mask i = false) :
    busyCount (markBusy mask idxs) = busyCount mask + idxs.length := by
  induction idxs generalizing mask with
  | nil => rfl
  | cons i rest ih =>
      rw [markBusy_cons]
      obtain ⟨hi, hif⟩ := hfree i (by simp)
      have hstep : busyCount (mask.set i true) = busyCount mask + 1 :=
        busyCount_set_true hi hif
      have hrest : ∀ x ∈ rest, x < (mask.set i true).length ∧
          maskGet (mask.set i true) x = false := by
        intro x hx
        obtain ⟨h1, h2⟩ := hfree x (by simp [hx])
        refine ⟨by rw [List.length_set]; exact h1, ?_⟩
        rw [maskGet_set_other _
          (fun hc => (List.nodup_cons.1 hnd).1 (by rw [hc]; exact hx))]
        exact h2
      rw [ih (List.nodup_cons.1 hnd).2 hrest, hstep]
      simp only [List.length_cons]
      omega

theorem clearBusy_count {mask : List Bool} {idxs : List Nat}
    (hnd : idxs.Nodup) (hbusy : ∀ i ∈ idxs, i < mask.length ∧ maskGet mask i = true) :
    busyCount (clearBusy mask idxs) + idxs.length = busyCount mask := by
  induction idxs generalizing mask with
  | nil => rfl
  | cons i rest ih =>
      rw [clearBusy_cons]
      obtain ⟨hi, hib⟩ := hbusy i (by simp)
      have hstep : busyCount (mask.set i false) + 1 = busyCount mask :=
        busyCount_set_false hi hib
      have hrest : ∀ x ∈ rest, x < (mask.set i false).length ∧
          maskGet (mask.set i false) x = true := by
        intro x hx
        obtain ⟨h1, h2⟩ := hbusy x (by simp [hx])
        refine ⟨by rw [List.length_set]; exact h1, ?_⟩
        rw [maskGet_set_other _
          (fun hc => (List.nodup_cons.1 hnd).1 (by rw [hc]; exact hx))]
        exact h2
      have := ih (List.nodup_cons.1 hnd).2 hrest
      simp only [List.length_cons]
      omega

theorem findFreeGo_mem (count : Nat) :
    ∀ (mask : List Bool) (i pushed j : Nat), j ∈ findFreeGo count mask i pushed →
      i ≤ j ∧ j - i < mask.length ∧ mask.getD (j - i) false = false := by
  intro mask
  induction mask with
  | nil => intro i pushed j h; simp [findFreeGo] at h
  | cons b rest ih =>
      intro i pushed j h
      by_cases hb : b
      · subst hb
        simp only [findFreeGo, if_pos rfl] at h
        obtain ⟨h1, h2, h3⟩ := ih (i + 1) pushed j h
        refine ⟨by omega, by simp; omega, ?_⟩
        have : j - i = (j - (i + 1)) + 1 := by omega
        rw [this, List.getD_cons_succ]
        exact h3
      · have hb' : b = false := by simpa using hb
        subst hb'
        simp only [findFreeGo, Bool.false_eq_true, if_false] at h
        by_cases hc : pushed + 1 = count
        · rw [if_pos hc] at h
          simp at h
          subst h
          simp
        · rw [if_neg hc] at h
          rcases List.mem_cons.1 h with rfl | hmem
          · simp
          · obtain ⟨h1, h2, h3⟩ := ih (i + 1) (pushed + 1) j hmem
            refine ⟨by omega, by simp; omega, ?_⟩
            have : j - i = (j - (i + 1)) + 1 := by omega
            rw [this, List.getD_cons_succ]
            exact h3

theorem findFreeGo_nodup (count : Nat) :
    ∀ (mask : List Bool) (i pushed : Nat), (findFreeGo count mask i pushed).Nodup := by
  intro mask
  induction mask with
  | nil => intro i pushed; simp [findFreeGo]
  | cons b rest ih =>
      intro i pushed
      by_cases hb : b
      · subst hb
        simp only [findFreeGo, if_pos rfl]
        exact ih (i + 1) pushed
      · have hb' : b = false := by simpa using hb
        subst hb'
        simp only [findFreeGo, Bool.false_eq_true, if_false]
        by_cases hc : pushed + 1 = count
        · rw [if_pos hc]
          simp
        · rw [if_neg hc]
          refine List.nodup_cons.2 ⟨?_, ih (i + 1) (pushed + 1)⟩
          intro hmem
          have := (findFreeGo_mem count rest (i + 1) (pushed + 1) i hmem).1
          omega

theorem find_free_indices_mem {mask : List Bool} {count j : Nat}
    (h : j ∈ find_free_indices mask count) :
    j < mask.length ∧ maskGet mask j = false := by
  obtain ⟨_, h2, h3⟩ := findFreeGo_mem count mask 0 0 j h
  refine ⟨by simpa using h2, ?_⟩
  show mask.getD j false = false
  simpa using h3

theorem find_free_indices_nodup (mask : List Bool) (count : Nat) :
    (find_free_indices mask count).Nodup :=
  findFreeGo_nodup count mask 0 0

theorem maskInv_alloc {mask : List Bool} {resv : List Nat}
    {allocs : List (List Nat)} {idxs : List Nat} (hinv : MaskInv mask resv allocs)
    (hnd : idxs.Nodup)
    (hfree : ∀ i ∈ idxs, i < mask.length ∧ maskGet mask i = false) :
    MaskInv (markBusy mask idxs) resv (idxs :: allocs) := by
  obtain ⟨hnd0, hmem0, hcount0⟩ := hinv
  have hdisj : ∀ x, x ∈ resv ++ allocs.flatten → x ∉ idxs := by
    intro x hx hxin
    have h1 := (hmem0 x hx).2
    have h2 := (hfree x hxin).2
    rw [h1] at h2
    cases h2
  refine ⟨?_, ?_, ?_⟩
  · rw [List.flatten_cons]
    rw [List.nodup_append] at hnd0
    obtain ⟨hr, hf, hrf⟩ := hnd0
    rw [List.nodup_append]
    refine ⟨hr, ?_, ?_⟩
    · rw [List.nodup_append]
      refine ⟨hnd, hf, ?_⟩
      intro a ha hb
      exact hdisj a (by simp [hb]) ha
    · intro a ha hb
      rcases List.mem_append.1 hb with h | h
      · exact hdisj a (by simp [ha]) h
      · exact hrf ha h
  · intro i hi
    rw [List.flatten_cons] at hi
    rw [markBusy_length]
    by_cases hin : i ∈ idxs
    · exact ⟨(hfree i hin).1, markBusy_get_mem hnd (fun x hx => (hfree x hx).1) hin⟩
    · have hold : i ∈ resv ++ allocs.flatten := by
        rcases List.mem_append.1 hi with h | h
        · exact List.mem_append.2 (Or.inl h)
        · rcases List.mem_append.1 h with h2 | h2
          · exact absurd h2 hin
          · exact List.mem_append.2 (Or.inr h2)
      obtain ⟨hl, hb⟩ := hmem0 i hold
      rw [markBusy_get_notMem hin]
      exact ⟨hl, hb⟩
  · rw [markBusy_count hnd hfree, hcount0, List.flatten_cons]
    simp
    omega

theorem maskInv_release {mask : List Bool} {resv : List Nat}
    {A1 A2 : List (List Nat)} {x : List Nat}
    (hinv : MaskInv mask resv (A1 ++ x :: A2)) :
    MaskInv (clearBusy mask x) resv (A1 ++ A2) := by
  obtain ⟨hnd0, hmem0, hcount0⟩ := hinv
  have hxmem : ∀ i ∈ x, i ∈ resv ++ (A1 ++ x :: A2).flatten := by
    intro i hi
    refine List.mem_append.2 (Or.inr ?_)
    rw [List.flatten_append, List.flatten_cons]
    exact List.mem_append.2 (Or.inr (List.mem_append.2 (Or.inl hi)))
  have hxbusy : ∀ i ∈ x, i < mask.length ∧ maskGet mask i = true := by
    intro i hi
    exact hmem0 i (hxmem i hi)
  have hsub : (resv ++ (A1 ++ A2).flatten).Sublist
      (resv ++ (A1 ++ x :: A2).flatten) := by
    apply List.Sublist.append_left
    simp only [List.flatten_append, List.flatten_cons]
    apply List.Sublist.append_left
    exact List.sublist_append_right x A2.flatten
  have hnd1 : (resv ++ (A1 ++ A2).flatten).Nodup := hnd0.sublist hsub
  have hxnd : x.Nodup := by
    have h1 : x.Sublist (x ++ A2.flatten) := List.sublist_append_left x A2.flatten
    have h2 : (x ++ A2.flatten).Sublist (A1.flatten ++ (x ++ A2.flatten)) :=
      List.sublist_append_right A1.flatten _
    have h3 : x.Sublist (A1 ++ x :: A2).flatten := by
      rw [List.flatten_append, List.flatten_cons]
      exact h1.trans h2
    exact hnd0.sublist (h3.trans (List.sublist_append_right resv _))
  have hdisj : ∀ i ∈ resv ++ (A1 ++ A2).flatten, i ∉ x := by
    intro i hi hix
    rw [List.nodup_append] at hnd0
    obtain ⟨hr, hfl, hrfl⟩ := hnd0
    have hxin : i ∈ (A1 ++ x :: A2).flatten := by
      rw [List.flatten_append, List.flatten_cons]
      exact List.mem_append.2 (Or.inr (List.mem_append.2 (Or.inl hix)))
    rcases List.mem_append.1 hi with hir | hif
    · exact hrfl hir hxin
    · rw [List.flatten_append, List.flatten_cons] at hfl
      rw [List.nodup_append] at hfl
      obtain ⟨h1, h2, h3⟩ := hfl
      rw [List.nodup_append] at h2
      obtain ⟨h4, h5, h6⟩ := h2
      rw [List.flatten_append] at hif
      rcases List.mem_append.1 hif with hia | hib
      · exact h3 hia (List.mem_append.2 (Or.inl hix))
      · exact h6 hix hib
  refine ⟨hnd1, ?_, ?_⟩
  · intro i hi
    rw [clearBusy_length]
    have hold : i ∈ resv ++ (A1 ++ x :: A2).flatten := by
      rcases List.mem_append.1 hi with h | h
      · exact List.mem_append.2 (Or.inl h)
      · refine List.mem_append.2 (Or.inr ?_)
        rw [List.flatten_append] at h
        rw [List.flatten_append, List.flatten_cons]
        rcases List.mem_append.1 h with h2 | h2
        · exact List.mem_append.2 (Or.inl h2)
        · exact List.mem_append.2 (Or.inr (List.mem_append.2 (Or.inr h2)))
    obtain ⟨hl, hb⟩ := hmem0 i hold
    rw [clearBusy_get_notMem (hdisj i hi)]
    exact ⟨hl, hb⟩
  · have hc := clearBusy_count hxnd hxbusy
    rw [hcount0] at hc
    simp only [List.flatten_append, List.flatten_cons, List.length_append,
      List.length_cons] at hc ⊢
    omega

theorem get_eraseIdx_split {α : Type} :
    ∀ (l : List α) (k : Nat) (x : α), l.get? k = some x →
      ∃ l1 l2, l = l1 ++ x :: l2 ∧ l.eraseIdx k = l1 ++ l2 := by
  intro l
  induction l with
  | nil => intro k x h; cases h
  | cons a rest ih =>
      intro k x h
      cases k with
      | zero =>
          injection h with h
          subst h
          exact ⟨[], rest, rfl, rfl⟩
      | succ k' =>
          obtain ⟨l1, l2, h1, h2⟩ := ih k' x h
          refine ⟨a :: l1, l2, by rw [h1]; rfl, ?_⟩
          rw [List.eraseIdx_cons_succ, h2]
          rfl

theorem maskGet_replicate_false (n i : Nat) :
    maskGet (List.replicate n false) i = false := by
  induction n generalizing i with
  | zero => rfl
  | succ m ih =>
      cases i with
      | zero => rfl
      | succ j => exact ih j

theorem busyCount_replicate_false (n : Nat) :
    busyCount (List.replicate n false) = 0 := by
  induction n with
  | zero => rfl
  | succ m ih => simpa [busyCount, List.replicate, List.filter] using ih

theorem ledgerInv_init (ctype : ClusterType) (cores gpus : Nat) :
    LedgerInv ctype cores gpus ⟨detect ctype cores gpus, []⟩ := by
  unfold LedgerInv detect reservedList
  by_cases hres : ctype = ClusterType.Local ∧ cores > 4
  · have hlt : cores - 1 < cores := by omega
    have hlen : (List.replicate cores false).length = cores := by simp
    simp only [if_pos hres]
    have husable : (cores - 1 < cores) = True := by simp [hlt]
    refine ⟨?_, ?_, ?_, ?_⟩
    · refine ⟨by simp, ?_, ?_⟩
      · intro i hi
        simp at hi
        subst hi
        rw [if_pos hlt]
        constructor
        · simp
          omega
        · exact maskGet_set_self true (by simpa using hlt)
      · rw [if_pos hlt]
        rw [busyCount_set_true (by simpa using hlt) (maskGet_replicate_false cores (cores - 1))]
        rw [busyCount_replicate_false]
        simp
    · exact ⟨by simp, by simp, by simp [busyCount_replicate_false]⟩
    · rw [if_pos hlt]
      simp
    · simp
  · simp only [if_neg hres]
    refine ⟨?_, ?_, ?_, ?_⟩
    · rw [if_neg (lt_irrefl cores)]
      exact ⟨by simp, by simp, by simp [busyCount_replicate_false]⟩
    · exact ⟨by simp, by simp, by simp [busyCount_replicate_false]⟩
    · rw [if_neg (lt_irrefl cores)]
      simp
    · simp

theorem ledgerInv_step {ctype : ClusterType} {cores gpus : Nat} {s : LedgerState}
    (hinv : LedgerInv ctype cores gpus s) (op : LedgerOp) :
    LedgerInv ctype cores gpus (ledgerStep s op) := by
  obtain ⟨hc, hg, hlc, hlg⟩ := hinv
  cases op with
  | alloc rc rg =>
      unfold ledgerStep try_allocate
      by_cases h1 : (find_free_indices s.ledger.gpu_mask rg).length < rg
      · simp only [if_pos h1]
        exact ⟨hc, hg, hlc, hlg⟩
      · simp only [if_neg h1]
        by_cases h2 : (find_free_indices s.ledger.core_mask rc).length < rc
        · simp only [if_pos h2]
          exact ⟨hc, hg, hlc, hlg⟩
        · simp only [if_neg h2]
          refine ⟨?_, ?_, ?_, ?_⟩
          · simp only [List.map_cons]
            exact maskInv_alloc hc (find_free_indices_nodup _ _)
              (fun i hi => find_free_indices_mem hi)
          · simp only [List.map_cons]
            exact maskInv_alloc hg (find_free_indices_nodup _ _)
              (fun i hi => find_free_indices_mem hi)
          · simp only
            rw [markBusy_length]
            exact hlc
          · simp only
            rw [markBusy_length]
            exact hlg
  | release k =>
      unfold ledgerStep
      rcases hk : s.live.get? k with _ | sb
      · simp only [hk]
        exact ⟨hc, hg, hlc, hlg⟩
      · simp only [hk, freeSandbox]
        obtain ⟨l1, l2, hsplit, herase⟩ := get_eraseIdx_split s.live k sb hk
        have hmc : s.live.map Sandbox.cores =
            (l1.map Sandbox.cores) ++ sb.cores :: (l2.map Sandbox.cores) := by
          rw [hsplit]
          simp
        have hmg : s.live.map Sandbox.gpus =
            (l1.map Sandbox.gpus) ++ sb.gpus :: (l2.map Sandbox.gpus) := by
          rw [hsplit]
          simp
        refine ⟨?_, ?_, ?_, ?_⟩
        · rw [herase, List.map_append]
          rw [hmc] at hc
          exact maskInv_release hc
        · rw [herase, List.map_append]
          rw [hmg] at hg
          exact maskInv_release hg
        · simp only
          rw [clearBusy_length]
          exact hlc
        · simp only
          rw [clearBusy_length]
          exact hlg

theorem ledgerInv_run (ctype : ClusterType) (cores gpus : Nat) :
    ∀ (ops : List LedgerOp) (s : LedgerState), LedgerInv ctype cores gpus s →
      LedgerInv ctype cores gpus (ops.foldl ledgerStep s) := by
  intro ops
  induction ops with
  | nil => intro s h; exact h
  | cons op rest ih =>
      intro s h
      exact ih (ledgerStep s op) (ledgerInv_step h op)

theorem usableCores_add_reserved (ctype : ClusterType) (cores : Nat) :
    usableCores ctype cores + (reservedList ctype cores).length = cores := by
  unfold usableCores reservedList
  by_cases h : ctype = ClusterType.Local ∧ cores > 4
  · rw [if_pos h, if_pos h]
    simp
    omega
  · rw [if_neg h, if_neg h]
    simp

/-- **C3 (amended)** (ledger conservation): for every interleaving of
`try_allocate` and `free` (frees applied only to live sandboxes), the free
core count plus the summed core counts of live sandboxes equals the number of
usable cores — `total_cores`, less one core permanently reserved by `detect`
in Local mode on machines with more than 4 cores; the free GPU count plus the
summed GPU counts of live sandboxes always equals `total_gpus`. -/
theorem ledger_conservation (ctype : ClusterType) (cores gpus : Nat)
    (ops : List LedgerOp) :
    free_cores (ledgerRun ctype cores gpus ops).ledger +
      ((ledgerRun ctype cores gpus ops).live.map
        (fun sb => sb.cores.length)).sum = usableCores ctype cores ∧
    free_gpus (ledgerRun ctype cores gpus ops).ledger +
      ((ledgerRun ctype cores gpus ops).live.map
        (fun sb => sb.gpus.length)).sum = gpus := by
  have hinv : LedgerInv ctype cores gpus (ledgerRun ctype cores gpus ops) :=
    ledgerInv_run ctype cores gpus ops _ (ledgerInv_init ctype cores gpus)
  obtain ⟨⟨_, _, hcc⟩, ⟨_, _, hcg⟩, hlc, hlg⟩ := hinv
  have hfc := free_add_busy (ledgerRun ctype cores gpus ops).ledger.core_mask
  have hfg := free_add_busy (ledgerRun ctype cores gpus ops).ledger.gpu_mask
  have hflatc : (((ledgerRun ctype cores gpus ops).live.map Sandbox.cores).flatten).length =
      ((ledgerRun ctype cores gpus ops).live.map (fun sb => sb.cores.length)).sum := by
    rw [List.length_flatten, List.map_map]
    rfl
  have hflatg : (((ledgerRun ctype cores gpus ops).live.map Sandbox.gpus).flatten).length =
      ((ledgerRun ctype cores gpus ops).live.map (fun sb => sb.gpus.length)).sum := by
    rw [List.length_flatten, List.map_map]
    rfl
  have hres := usableCores_add_reserved ctype cores
  rw [List.length_append, hflatc] at hcc
  rw [List.length_append, hflatg] at hcg
  simp only [List.length_nil] at hcg
  constructor
  · have h1 := free_add_busy (ledgerRun ctype cores gpus ops).ledger.core_mask
    unfold free_cores
    omega
  · have h1 := free_add_busy (ledgerRun ctype cores gpus ops).ledger.gpu_mask
    unfold free_gpus
    omega

/-- **C3 counterexample**: immediately after `detect()` in Local mode on a
5-core machine (no allocations at all), the free-core count plus the live
sandbox core sum is 4 while `total_cores` is 5 — the reserved OS core breaks
the conservation equation as stated. -/
theorem ledger_conservation_cex :
    free_cores (ledgerRun ClusterType.Local 5 0 []).ledger +
      ((ledgerRun ClusterType.Local 5 0 []).live.map
        (fun sb => sb.cores.length)).sum = 4 ∧
    (ledgerRun ClusterType.Local 5 0 []).ledger.total_cores = 5 ∧
    free_cores (ledgerRun ClusterType.Local 5 0 []).ledger +
      ((ledgerRun ClusterType.Local 5 0 []).live.map
        (fun sb => sb.cores.length)).sum ≠
      (ledgerRun ClusterType.Local 5 0 []).ledger.total_cores := by
  decide

/- ## C8: first-fit determinism of try_allocate -/

theorem findFreeGo_zero_replicate :
    ∀ (n i pushed : Nat),
      findFreeGo 0 (List.replicate n false) i pushed = List.range' i n := by
  intro n
  induction n with
  | zero => intro i pushed; simp [findFreeGo, List.replicate]
  | succ n ih =>
    intro i pushed
    rw [List.replicate_succ]
    simp only [findFreeGo, Bool.false_eq_true, if_false]
    rw [if_neg (by omega : ¬ pushed + 1 = 0), ih (i + 1) (pushed + 1),
      List.range'_succ]

theorem findFreeGo_replicate (count : Nat) :
    ∀ (n i pushed : Nat), pushed < count →
      findFreeGo count (List.replicate n false) i pushed =
        List.range' i (min (count - pushed) n) := by
  intro n
  induction n with
  | zero =>
    intro i pushed _
    simp [findFreeGo, List.replicate]
  | succ n ih =>
    intro i pushed h
    rw [List.replicate_succ]
    simp only [findFreeGo, Bool.false_eq_true, if_false]
    by_cases hc : pushed + 1 = count
    · rw [if_pos hc]
      have hm : min (count - pushed) (n + 1) = 1 := by omega
      rw [hm, List.range'_succ]
      simp
    · rw [if_neg hc, ih (i + 1) (pushed + 1) (by omega)]
      have hm : min (count - pushed) (n + 1) = min (count - (pushed + 1)) n + 1 := by
        omega
      rw [hm, List.range'_succ]

theorem findFreeGo_length_le (count : Nat) :
    ∀ (mask : List Bool) (i pushed : Nat),
      (findFreeGo count mask i pushed).length ≤
        (mask.filter (fun b => !b)).length := by
  intro mask
  induction mask with
  | nil => intro i pushed; simp [findFreeGo]
  | cons b rest ih =>
    intro i pushed
    cases b
    · simp only [findFreeGo, Bool.false_eq_true, if_false, List.filter_cons,
        Bool.not_false, if_pos rfl, List.length_cons]
      by_cases hc : pushed + 1 = count
      · rw [if_pos hc]
        simp
      · rw [if_neg hc]
        simp only [List.length_cons]
        exact Nat.succ_le_succ (ih (i + 1) (pushed + 1))
    · simp only [findFreeGo, if_pos rfl, List.filter_cons, Bool.not_true,
        Bool.false_eq_true, if_false]
      exact ih (i + 1) pushed

/-- **C8 counterexample**: on a fresh 1-core, 0-GPU Slurm ledger (all cores
free, no GPUs), `try_allocate(0, 0)` — a request with `k = 0 ≤ N = 1` — does
not return the empty core list `[0, …, k-1] = []`: because
`find_free_indices` checks its break condition only after pushing an index,
a request for 0 cores collects every free index, so the sandbox grabs core 0. -/
theorem first_fit_cex :
    (detect ClusterType.Slurm 1 0).core_mask = List.replicate 1 false ∧
    (detect ClusterType.Slurm 1 0).gpu_mask = [] ∧
    (try_allocate (detect ClusterType.Slurm 1 0) 0 0).1 =
      some ⟨[0], [], none⟩ ∧
    ([0] : List Nat) ≠ List.range 0 := by
  decide

/-- **C8 (amended)**: on a ledger whose `N` cores are all free and which has
no GPUs, `try_allocate(k, 0)` with `1 ≤ k ≤ N` returns a sandbox whose core
list is exactly `[0, 1, …, k-1]` (the `k = 0` case instead grabs every free
core, see the counterexample); and on any ledger, if either requested
resource class has fewer free slots than requested, `try_allocate` returns
`None` and leaves the ledger — both masks included — unchanged. -/
theorem first_fit_amended (l l' : ResourceLedger) (N k rc rg : Nat)
    (hc : l.core_mask = List.replicate N false) (hg : l.gpu_mask = [])
    (h1 : 1 ≤ k) (hN : k ≤ N) :
    (try_allocate l k 0).1 = some ⟨List.range k, [], none⟩ ∧
    (free_gpus l' < rg ∨ free_cores l' < rc →
      try_allocate l' rc rg = (none, l')) := by
  constructor
  · unfold try_allocate
    rw [hg]
    have hgpu : find_free_indices ([] : List Bool) 0 = [] := rfl
    rw [hgpu]
    rw [if_neg (by omega : ¬ ([] : List Nat).length < 0)]
    have hcore : find_free_indices l.core_mask k = List.range' 0 k := by
      unfold find_free_indices
      rw [hc, findFreeGo_replicate k N 0 0 (by omega)]
      have : min (k - 0) N = k := by omega
      rw [this]
    rw [hcore, List.length_range']
    rw [if_neg (lt_irrefl k)]
    rw [List.range_eq_range']
  · intro h
    unfold try_allocate
    by_cases hg2 : (find_free_indices l'.gpu_mask rg).length < rg
    · rw [if_pos hg2]
    · rw [if_neg hg2]
      have hcore : (find_free_indices l'.core_mask rc).length < rc := by
        rcases h with h | h
        · exact absurd
            (lt_of_le_of_lt (findFreeGo_length_le rg l'.gpu_mask 0 0) h) hg2
        · exact lt_of_le_of_lt (findFreeGo_length_le rc l'.core_mask 0 0) h
      rw [if_pos hcore]

/-- Witness for C8 amended: on a fresh 2-core Slurm ledger, `try_allocate(1, 0)`
hands out exactly core 0; on a fresh 1-core ledger, `try_allocate(2, 0)` is
refused with the ledger unchanged. -/
theorem first_fit_amended_witness :
    (try_allocate (detect ClusterType.Slurm 2 0) 1 0).1 =
      some ⟨List.range 1, [], none⟩ ∧
    try_allocate (detect ClusterType.Slurm 1 0) 2 0 =
      (none, detect ClusterType.Slurm 1 0) :=
  ⟨(first_fit_amended (detect ClusterType.Slurm 2 0) (detect ClusterType.Slurm 1 0)
      2 1 2 0 (by decide) (by decide) (by decide) (by decide)).1,
   (first_fit_amended (detect ClusterType.Slurm 2 0) (detect ClusterType.Slurm 1 0)
      2 1 2 0 (by decide) (by decide) (by decide) (by decide)).2
     (Or.inr (by decide))⟩

/- ## Workflow graph: node-list lemmas -/

theorem modifyAt_length {α : Type} (f : α → α) :
    ∀ (n : Nat) (l : List α), (modifyAt f n l).length = l.length := by
  intro n l
  induction l generalizing n with
  | nil => cases n <;> rfl
  | cons a as ih =>
    cases n with
    | zero => rfl
    | succ m => simpa [modifyAt] using ih m

theorem modifyAt_get?_ne {α : Type} (f : α → α) :
    ∀ (n : Nat) (l : List α) (i : Nat), i ≠ n →
      (modifyAt f n l).get? i = l.get? i := by
  intro n l
  induction l generalizing n with
  | nil => intro i _; cases n <;> rfl
  | cons a as ih =>
    intro i hne
    cases n with
    | zero =>
      cases i with
      | zero => exact absurd rfl hne
      | succ j => rfl
    | succ m =>
      cases i with
      | zero => rfl
      | succ j =>
        show (modifyAt f m as).get? j = as.get? j
        exact ih m j (fun h => hne (by rw [h]))

theorem modifyAt_get?_self {α : Type} (f : α → α) :
    ∀ (n : Nat) (l : List α), (modifyAt f n l).get? n = (l.get? n).map f := by
  intro n l
  induction l generalizing n with
  | nil => cases n <;> rfl
  | cons a as ih =>
    cases n with
    | zero => rfl
    | succ m => exact ih m

theorem recalcStep_shadow (g : Graph) (v i : Nat) :
    ((recalcStep g v).nodes.get? i).map nodeShadow =
      (g.nodes.get? i).map nodeShadow := by
  unfold recalcStep
  by_cases h : maxChildPrio g v > 0
  · rw [if_pos h]
    by_cases hiv : i = v
    · subst hiv
      show ((modifyAt _ i g.nodes).get? i).map nodeShadow = _
      rw [modifyAt_get?_self]
      cases g.nodes.get? i <;> rfl
    · show ((modifyAt _ v g.nodes).get? i).map nodeShadow = _
      rw [modifyAt_get?_ne _ v g.nodes i hiv]
  · rw [if_neg h]

theorem recalcStep_length (g : Graph) (v : Nat) :
    (recalcStep g v).nodes.length = g.nodes.length := by
  unfold recalcStep
  by_cases h : maxChildPrio g v > 0
  · rw [if_pos h]; exact modifyAt_length _ _ _
  · rw [if_neg h]

theorem recalcStep_edges (g : Graph) (v : Nat) :
    (recalcStep g v).edges = g.edges := by
  unfold recalcStep
  by_cases h : maxChildPrio g v > 0
  · rw [if_pos h]
  · rw [if_neg h]

theorem recalcWith_shadow :
    ∀ (r : List Nat) (g : Graph) (i : Nat),
      ((recalcWith g r).nodes.get? i).map nodeShadow =
        (g.nodes.get? i).map nodeShadow := by
  intro r
  induction r with
  | nil => intro g i; rfl
  | cons v rest ih =>
    intro g i
    show ((recalcWith (recalcStep g v) rest).nodes.get? i).map nodeShadow = _
    rw [ih, recalcStep_shadow]

theorem recalcWith_length :
    ∀ (r : List Nat) (g : Graph),
      (recalcWith g r).nodes.length = g.nodes.length := by
  intro r
  induction r with
  | nil => intro g; rfl
  | cons v rest ih =>
    intro g
    show (recalcWith (recalcStep g v) rest).nodes.length = _
    rw [ih, recalcStep_length]

theorem recalc_shadow (g : Graph) (i : Nat) :
    ((recalculate_priorities g).nodes.get? i).map nodeShadow =
      (g.nodes.get? i).map nodeShadow :=
  recalcWith_shadow _ g i

theorem recalc_length (g : Graph) :
    (recalculate_priorities g).nodes.length = g.nodes.length :=
  recalcWith_length _ g

theorem add_smart_node_nodes (e : WorkflowEngine) (job : Job) (t : NodeType)
    (ps : List Nat) (pr : Nat) (per : Bool) :
    ∃ tail, (add_smart_node e job t ps pr per).1.graph.nodes =
        e.graph.nodes ++ tail ∧
      ∀ nd ∈ tail, nd.job = job ∧ nd.node_type = t := by
  simp only [add_smart_node]
  split
  · exact ⟨[], (List.append_nil _).symm, by simp⟩
  · refine ⟨[⟨job, t, _, pr, per, false, false⟩], rfl, ?_⟩
    intro nd hnd
    rw [List.mem_singleton] at hnd
    subst hnd
    exact ⟨rfl, rfl⟩

theorem spawnChildren_nodes (gidx gid : Nat) (tmpl : JobConfig) :
    ∀ (pairs : List (Nat × Js)) (e : WorkflowEngine) (fresh : Nat)
      (acc : List Nat),
      ∃ tail, (spawnChildren gidx gid tmpl pairs e fresh acc).1.graph.nodes =
          e.graph.nodes ++ tail ∧
        ∀ nd ∈ tail, nd.node_type = NodeType.Compute ∧
          nd.job.resources = ⟨1, 8, 1, 60, []⟩ := by
  intro pairs
  induction pairs with
  | nil => intro e fresh acc; exact ⟨[], (List.append_nil _).symm, by simp⟩
  | cons pc rest ih =>
    intro e fresh acc
    obtain ⟨i, cand⟩ := pc
    obtain ⟨t1, h1, p1⟩ := add_smart_node_nodes e
      (mkPhysicsChild tmpl gid gidx i cand fresh (fresh + 1))
      NodeType.Compute [gidx] 50 true
    obtain ⟨t2, h2, p2⟩ := ih
      (add_smart_node e (mkPhysicsChild tmpl gid gidx i cand fresh (fresh + 1))
        NodeType.Compute [gidx] 50 true).1
      (fresh + 2)
      (acc ++ [(add_smart_node e
        (mkPhysicsChild tmpl gid gidx i cand fresh (fresh + 1))
        NodeType.Compute [gidx] 50 true).2])
    refine ⟨t1 ++ t2, ?_, ?_⟩
    · show (spawnChildren gidx gid tmpl rest _ (fresh + 2) _).1.graph.nodes = _
      rw [h2, h1, List.append_assoc]
    · intro nd hnd
      rcases List.mem_append.1 hnd with h | h
      · obtain ⟨hj, ht⟩ := p1 nd h
        exact ⟨ht, by rw [hj]; rfl⟩
      · exact p2 nd h

theorem spawnAgent_nodes (e2 : WorkflowEngine) (pis : List Nat) (f2 : Nat)
    (acfg : Option JobConfig) :
    ∃ tail, (spawnAgent e2 pis f2 acfg).1.graph.nodes =
        e2.graph.nodes ++ tail ∧
      ∀ nd ∈ tail, ∃ strat, nd.node_type = NodeType.Generator strat := by
  cases acfg with
  | none => exact ⟨[], (List.append_nil _).symm, by simp⟩
  | some agent_cfg =>
    simp only [spawnAgent]
    obtain ⟨t1, h1, p1⟩ := add_smart_node_nodes e2
      (Job.new (Structure.new [] none
          ("Agent_Gen" ++
            toString (((agent_cfg.params.get "gen_counter").bind Js.asU64).getD 0))
          f2)
        agent_cfg
        { ResourceReq.default with
          nodes := 1, cores := 1, gpus := 0, required_tags := ["brain"] }
        (f2 + 1))
      (NodeType.Generator (match agent_cfg.engine with
        | .agent _ strat => strat
        | _ => "custom"))
      pis 100 true
    refine ⟨t1, h1, ?_⟩
    intro nd hnd
    exact ⟨_, (p1 nd hnd).2⟩

/-- **C10**: every Compute child node appended by `expand_generator` carries
the hardcoded resource request of 1 node, 8 cores, 1 GPU, a 60-minute limit
and an empty `required_tags` list, regardless of the physics template, which
supplies only the engine and parameters. -/
theorem generator_child_resources (e : WorkflowEngine) (fresh gidx : Nat)
    (cands : List Js) (tmpl : JobConfig) (acfg : Option JobConfig)
    (i : Nat) (nd : SmartNode)
    (hi : e.graph.nodes.length ≤ i)
    (hnd : (expand_generator e fresh gidx cands tmpl
      acfg).1.graph.nodes.get? i = some nd)
    (hc : nd.node_type = NodeType.Compute) :
    nd.job.resources = ⟨1, 8, 1, 60, []⟩ := by
  unfold expand_generator at hnd
  rcases hg : e.graph.nodes.get? gidx with _ | gnode
  · simp only [hg] at hnd
    rw [List.get?_eq_none.2 hi] at hnd
    exact Option.noConfusion hnd
  · simp only [hg] at hnd
    by_cases hex : gnode.is_expanded = true
    · simp only [if_pos hex] at hnd
      rw [List.get?_eq_none.2 hi] at hnd
      exact Option.noConfusion hnd
    · simp only [if_neg hex] at hnd
      generalize hE : ({ e with graph := { e.graph with
          nodes := modifyAt (fun nd => { nd with is_expanded := true })
            gidx e.graph.nodes } } : WorkflowEngine) = e1 at hnd
      generalize hS : spawnChildren gidx gnode.job.id tmpl cands.enum
        e1 fresh [] = s at hnd
      generalize hA : spawnAgent s.1 s.2.2 s.2.1 acfg = r3 at hnd
      obtain ⟨t1, h1, p1⟩ := spawnChildren_nodes gidx gnode.job.id tmpl
        cands.enum e1 fresh []
      rw [hS] at h1
      obtain ⟨t2, h2, p2⟩ := spawnAgent_nodes s.1 s.2.2 s.2.1 acfg
      rw [hA] at h2
      have hnd2 : (recalculate_priorities r3.1.graph).nodes.get? i =
          some nd := hnd
      have hsh := recalc_shadow r3.1.graph i
      rw [hnd2, h2, h1, List.append_assoc] at hsh
      have hlen : e1.graph.nodes.length = e.graph.nodes.length := by
        rw [← hE]
        exact modifyAt_length _ _ _
      rw [List.get?_append_right (by omega : e1.graph.nodes.length ≤ i)]
        at hsh
      rcases hsome : (t1 ++ t2).get? (i - e1.graph.nodes.length)
        with _ | nd₀
      · rw [hsome] at hsh
        exact Option.noConfusion hsh
      · rw [hsome] at hsh
        have hshadow : nodeShadow nd = nodeShadow nd₀ := Option.some.inj hsh
        simp only [nodeShadow, Prod.mk.injEq] at hshadow
        rcases List.mem_append.1 (List.get?_mem hsome) with hm | hm
        · obtain ⟨_, hres⟩ := p1 nd₀ hm
          rw [hshadow.1, hres]
        · obtain ⟨strat, hstrat⟩ := p2 nd₀ hm
          rw [hc, hstrat] at hshadow
          exact NodeType.noConfusion hshadow.2.1

/-- C10 witness instance: expanding a one-node generator graph with one
candidate appends a Compute node whose resources are 1/8/1/60/[]. -/
theorem generator_child_resources_witness :
    ((((expand_generator
        ⟨⟨[⟨Job.new (Structure.new [] none "g" 0)
            ⟨Engine.agent "a" "s", Js.obj .nil⟩ ResourceReq.default 1,
          NodeType.Generator "s",
          CHash.mk ⟨Engine.agent "a" "s", Js.obj .nil⟩
            (Structure.new [] none "g" 0) .nil,
          100, true, false, false⟩], []⟩, [], []⟩
        10 0 [Js.null] ⟨Engine.vasp "v" 1, Js.obj .nil⟩
        none).1.graph.nodes.get? 1).getD dummyNode)).job.resources =
      ⟨1, 8, 1, 60, []⟩ :=
  generator_child_resources
    ⟨⟨[⟨Job.new (Structure.new [] none "g" 0)
        ⟨Engine.agent "a" "s", Js.obj .nil⟩ ResourceReq.default 1,
      NodeType.Generator "s",
      CHash.mk ⟨Engine.agent "a" "s", Js.obj .nil⟩
        (Structure.new [] none "g" 0) .nil,
      100, true, false, false⟩], []⟩, [], []⟩
    10 0 [Js.null] ⟨Engine.vasp "v" 1, Js.obj .nil⟩ none 1
    (((expand_generator
        ⟨⟨[⟨Job.new (Structure.new [] none "g" 0)
            ⟨Engine.agent "a" "s", Js.obj .nil⟩ ResourceReq.default 1,
          NodeType.Generator "s",
          CHash.mk ⟨Engine.agent "a" "s", Js.obj .nil⟩
            (Structure.new [] none "g" 0) .nil,
          100, true, false, false⟩], []⟩, [], []⟩
        10 0 [Js.null] ⟨Engine.vasp "v" 1, Js.obj .nil⟩
        none).1.graph.nodes.get? 1).getD dummyNode)
    (by decide) (by decide) (by decide)

theorem expand_generator_noop (e : WorkflowEngine) (f gidx : Nat)
    (cands : List Js) (tmpl : JobConfig) (acfg : Option JobConfig)
    (nd : SmartNode) (h1 : e.graph.nodes.get? gidx = some nd)
    (h2 : nd.is_expanded = true) :
    expand_generator e f gidx cands tmpl acfg = (e, f) := by
  unfold expand_generator
  simp only [h1]
  rw [if_pos h2]

theorem expand_sets_expanded (e : WorkflowEngine) (fresh gidx : Nat)
    (cands : List Js) (tmpl : JobConfig) (acfg : Option JobConfig)
    (gnode : SmartNode) (hg : e.graph.nodes.get? gidx = some gnode) :
    ∃ nd', (expand_generator e fresh gidx cands tmpl
        acfg).1.graph.nodes.get? gidx = some nd' ∧
      nd'.is_expanded = true := by
  unfold expand_generator
  simp only [hg]
  by_cases hex : gnode.is_expanded = true
  · rw [if_pos hex]
    exact ⟨gnode, hg, hex⟩
  · simp only [if_neg hex]
    generalize hE : ({ e with graph := { e.graph with
        nodes := modifyAt (fun nd => { nd with is_expanded := true })
          gidx e.graph.nodes } } : WorkflowEngine) = e1
    generalize hS : spawnChildren gidx gnode.job.id tmpl cands.enum
      e1 fresh [] = s
    generalize hA : spawnAgent s.1 s.2.2 s.2.1 acfg = r3
    have hlt : gidx < e.graph.nodes.length := by
      rcases List.get?_eq_some.1 hg with ⟨hl, _⟩
      exact hl
    have he1 : e1.graph.nodes.get? gidx =
        some { gnode with is_expanded := true } := by
      rw [← hE]
      show (modifyAt _ gidx e.graph.nodes).get? gidx = _
      rw [modifyAt_get?_self, hg]
      rfl
    have hlen1 : e1.graph.nodes.length = e.graph.nodes.length := by
      rw [← hE]
      exact modifyAt_length _ _ _
    obtain ⟨t1, h1, _⟩ := spawnChildren_nodes gidx gnode.job.id tmpl
      cands.enum e1 fresh []
    rw [hS] at h1
    obtain ⟨t2, h2, _⟩ := spawnAgent_nodes s.1 s.2.2 s.2.1 acfg
    rw [hA] at h2
    have l1 : gidx < e1.graph.nodes.length := by omega
    have l2 : gidx < (e1.graph.nodes ++ t1).length := by
      rw [List.length_append]
      omega
    have hr3 : r3.1.graph.nodes.get? gidx =
        some { gnode with is_expanded := true } := by
      rw [h2, h1, List.get?_append l2, List.get?_append l1, he1]
    have hsh := recalc_shadow r3.1.graph gidx
    rw [hr3] at hsh
    rcases hfin : (recalculate_priorities r3.1.graph).nodes.get? gidx
      with _ | nd'
    · rw [hfin] at hsh
      exact Option.noConfusion hsh
    · rw [hfin] at hsh
      refine ⟨nd', rfl, ?_⟩
      have hj := Option.some.inj hsh
      simp only [nodeShadow, Prod.mk.injEq] at hj
      exact hj.2.2.2.2.2

/-- **C9**: `expand_generator` is idempotent per generator node — the first
call sets `is_expanded`, so a second call with identical arguments is a
no-op and the graph after two successive identical calls is exactly the
graph produced by the first call alone. -/
theorem expansion_idempotent (e : WorkflowEngine) (fresh gidx : Nat)
    (cands : List Js) (tmpl : JobConfig) (acfg : Option JobConfig)
    (fresh2 : Nat) (h : (e.graph.nodes.get? gidx).isSome) :
    expand_generator (expand_generator e fresh gidx cands tmpl acfg).1 fresh2
        gidx cands tmpl acfg =
      ((expand_generator e fresh gidx cands tmpl acfg).1, fresh2) := by
  obtain ⟨gnode, hg⟩ := Option.isSome_iff_exists.1 h
  obtain ⟨nd', hnd', hex'⟩ := expand_sets_expanded e fresh gidx cands tmpl
    acfg gnode hg
  exact expand_generator_noop _ _ _ _ _ _ nd' hnd' hex'

/-- C9 witness instance: on a concrete one-generator graph, the second
identical expansion call returns the first call's engine unchanged. -/
theorem expansion_idempotent_witness :
    expand_generator
        (expand_generator
          ⟨⟨[⟨Job.new (Structure.new [] none "g" 0)
              ⟨Engine.agent "a" "s", Js.obj .nil⟩ ResourceReq.default 1,
            NodeType.Generator "s",
            CHash.mk ⟨Engine.agent "a" "s", Js.obj .nil⟩
              (Structure.new [] none "g" 0) .nil,
            100, true, false, false⟩], []⟩, [], []⟩
          10 0 [Js.null] ⟨Engine.vasp "v" 1, Js.obj .nil⟩ none).1
        20 0 [Js.null] ⟨Engine.vasp "v" 1, Js.obj .nil⟩ none =
      ((expand_generator
          ⟨⟨[⟨Job.new (Structure.new [] none "g" 0)
              ⟨Engine.agent "a" "s", Js.obj .nil⟩ ResourceReq.default 1,
            NodeType.Generator "s",
            CHash.mk ⟨Engine.agent "a" "s", Js.obj .nil⟩
              (Structure.new [] none "g" 0) .nil,
            100, true, false, false⟩], []⟩, [], []⟩
          10 0 [Js.null] ⟨Engine.vasp "v" 1, Js.obj .nil⟩ none).1, 20) :=
  expansion_idempotent
    ⟨⟨[⟨Job.new (Structure.new [] none "g" 0)
        ⟨Engine.agent "a" "s", Js.obj .nil⟩ ResourceReq.default 1,
      NodeType.Generator "s",
      CHash.mk ⟨Engine.agent "a" "s", Js.obj .nil⟩
        (Structure.new [] none "g" 0) .nil,
      100, true, false, false⟩], []⟩, [], []⟩
    10 0 [Js.null] ⟨Engine.vasp "v" 1, Js.obj .nil⟩ none 20 (by decide)

/- ## C5: priority recomputation -/

theorem recalcWith_edges :
    ∀ (r : List Nat) (g : Graph), (recalcWith g r).edges = g.edges := by
  intro r
  induction r with
  | nil => intro g; rfl
  | cons v rest ih =>
    intro g
    show (recalcWith (recalcStep g v) rest).edges = _
    rw [ih, recalcStep_edges]

theorem recalcStep_get?_ne (g : Graph) (v i : Nat) (h : i ≠ v) :
    (recalcStep g v).nodes.get? i = g.nodes.get? i := by
  unfold recalcStep
  by_cases hm : maxChildPrio g v > 0
  · rw [if_pos hm]
    exact modifyAt_get?_ne _ v g.nodes i h
  · rw [if_neg hm]

theorem recalcStep_prioAt_ne (g : Graph) (v i : Nat) (h : i ≠ v) :
    prioAt (recalcStep g v) i = prioAt g i := by
  unfold prioAt
  rw [recalcStep_get?_ne g v i h]

theorem recalcWith_prioAt_notMem :
    ∀ (r : List Nat) (g : Graph) (i : Nat), i ∉ r →
      prioAt (recalcWith g r) i = prioAt g i := by
  intro r
  induction r with
  | nil => intro g i _; rfl
  | cons v rest ih =>
    intro g i hmem
    have h1 : i ∉ rest := fun h => hmem (List.mem_cons_of_mem v h)
    have h2 : i ≠ v := fun h => hmem (h ▸ List.mem_cons_self v rest)
    show prioAt (recalcWith (recalcStep g v) rest) i = _
    rw [ih (recalcStep g v) i h1, recalcStep_prioAt_ne g v i h2]

theorem childrenIdx_congr (g₁ g₂ : Graph) (v : Nat)
    (he : g₁.edges = g₂.edges) : childrenIdx g₁ v = childrenIdx g₂ v := by
  unfold childrenIdx
  rw [he]

theorem maxChildPrio_congr (g₁ g₂ : Graph) (v : Nat)
    (he : g₁.edges = g₂.edges)
    (hp : ∀ c ∈ childrenIdx g₁ v, prioAt g₁ c = prioAt g₂ c) :
    maxChildPrio g₁ v = maxChildPrio g₂ v := by
  unfold maxChildPrio
  rw [childrenIdx_congr g₂ g₁ v he.symm]
  congr 1
  exact List.map_congr_left hp

theorem recalcStep_prioAt_self (g : Graph) (v : Nat)
    (hv : v < g.nodes.length) :
    prioAt (recalcStep g v) v = prioRule (maxChildPrio g v) (prioAt g v) := by
  rcases hgv : g.nodes.get? v with _ | nd
  · exact absurd (List.get?_eq_none.1 hgv) (by omega)
  · unfold recalcStep prioRule
    by_cases hm : maxChildPrio g v > 0
    · rw [if_pos hm, if_pos hm]
      unfold prioAt
      rw [modifyAt_get?_self, hgv]
      rfl
    · rw [if_neg hm, if_neg hm]

theorem recalcWith_fix :
    ∀ (r : List Nat) (g : Graph),
      r.Nodup →
      (∀ v ∈ r, v < g.nodes.length) →
      (∀ p ∈ g.edges, p.1 ≠ p.2.1) →
      r.Pairwise (fun a b => ∀ p ∈ g.edges, ¬(p.1 = a ∧ p.2.1 = b)) →
      ∀ v ∈ r, prioAt (recalcWith g r) v =
        prioRule (maxChildPrio (recalcWith g r) v) (prioAt g v) := by
  intro r
  induction r with
  | nil => intro g _ _ _ _ v hv; exact absurd hv (List.not_mem_nil v)
  | cons v rest ih =>
    intro g hnd hran hself hpw w hw
    have hpwv := List.pairwise_cons.1 hpw
    have hvrest : v ∉ rest := (List.nodup_cons.1 hnd).1
    have hchild_not : ∀ c ∈ childrenIdx g v, c ∉ (v :: rest) := by
      intro c hc hmem
      unfold childrenIdx at hc
      rcases List.mem_map.1 hc with ⟨p, hp, hpc⟩
      have hpe : p ∈ g.edges := (List.mem_filter.1 hp).1
      have hp1 : p.1 = v := by
        have := (List.mem_filter.1 hp).2
        simpa using this
      rcases List.mem_cons.1 hmem with hmem | hmem
      · exact hself p hpe (by rw [hp1, hpc, hmem])
      · exact hpwv.1 c hmem p hpe ⟨hp1, hpc⟩
    have hstep_len : (recalcStep g v).nodes.length = g.nodes.length :=
      recalcStep_length g v
    have hstep_edges : (recalcStep g v).edges = g.edges :=
      recalcStep_edges g v
    have ihx := ih (recalcStep g v) (List.nodup_cons.1 hnd).2
      (fun x hx => by rw [hstep_len]; exact hran x (List.mem_cons_of_mem v hx))
      (by rw [hstep_edges]; exact hself)
      (by rw [hstep_edges]; exact hpwv.2)
    have hfix_edges : (recalcWith (recalcStep g v) rest).edges = g.edges := by
      rw [recalcWith_edges, hstep_edges]
    have hchild_prio : ∀ c ∈ childrenIdx g v,
        prioAt (recalcWith (recalcStep g v) rest) c = prioAt g c := by
      intro c hc
      have hnotin := hchild_not c hc
      have hc1 : c ∉ rest := fun h => hnotin (List.mem_cons_of_mem v h)
      have hc2 : c ≠ v := fun h => hnotin (h ▸ List.mem_cons_self v rest)
      rw [recalcWith_prioAt_notMem rest (recalcStep g v) c hc1,
        recalcStep_prioAt_ne g v c hc2]
    rcases List.mem_cons.1 hw with hw | hw
    · subst hw
      change prioAt (recalcWith (recalcStep g w) rest) w =
        prioRule (maxChildPrio (recalcWith (recalcStep g w) rest) w)
          (prioAt g w)
      rw [recalcWith_prioAt_notMem rest (recalcStep g w) w hvrest]
      rw [recalcStep_prioAt_self g w (hran w (List.mem_cons_self w rest))]
      have hmc : maxChildPrio (recalcWith (recalcStep g w) rest) w =
          maxChildPrio g w := by
        apply maxChildPrio_congr
        · exact hfix_edges
        · intro c hc
          apply hchild_prio
          rwa [childrenIdx_congr _ g w hfix_edges] at hc
      rw [hmc]
    · change prioAt (recalcWith (recalcStep g v) rest) w =
        prioRule (maxChildPrio (recalcWith (recalcStep g v) rest) w)
          (prioAt g w)
      have hwv : w ≠ v := fun h => hvrest (h ▸ hw)
      rw [ihx w hw, recalcStep_prioAt_ne g v w hwv]

/-- **C5 counterexample**: in a two-node graph where node 0 (priority 100)
has the single child node 1 (priority 1), `recalculate_priorities` sets node
0's priority to 2, not to `max(1 + max_child_priority, own_priority) = 100`:
the node's own prior priority is discarded whenever any child has positive
priority. -/
theorem priority_recomputation_cex :
    prioAt (recalculate_priorities
      ⟨[⟨Job.new (Structure.new [] none "" 0)
          ⟨Engine.agent "" "", Js.null⟩ ResourceReq.default 0,
         NodeType.Compute,
         CHash.mk ⟨Engine.agent "" "", Js.null⟩
           (Structure.new [] none "" 0) .nil,
         100, true, false, false⟩,
        ⟨Job.new (Structure.new [] none "" 0)
          ⟨Engine.agent "" "", Js.null⟩ ResourceReq.default 1,
         NodeType.Compute,
         CHash.mk ⟨Engine.agent "" "", Js.null⟩
           (Structure.new [] none "" 0) .nil,
         1, true, false, false⟩],
       [(0, 1, EdgeType.HardDependency)]⟩) 0 = 2 ∧
    (2 : Nat) ≠ 100 := by
  constructor
  · decide
  · decide

/-- **C5 (amended)**: after `recalculate_priorities` runs on a graph whose
Kahn order is a topological order (i.e. the graph is acyclic), every node's
final priority satisfies the fixpoint equation: it is `1 + the maximum final
priority among its children` whenever that maximum is positive, and the
node's own prior priority otherwise. In particular a node whose own priority
exceeds `1 + max_child_priority` does NOT keep it — the own priority is
overwritten whenever any child priority is positive. -/
theorem priority_recomputation_amended (g : Graph)
    (h : IsTopoOrder g ((toposortFn g).getD []))
    (v : Nat) (hv : v < g.nodes.length) :
    prioAt (recalculate_priorities g) v =
      prioRule (maxChildPrio (recalculate_priorities g) v) (prioAt g v) := by
  obtain ⟨hnd, hbound, hcover, hself, hpw⟩ := h
  unfold recalculate_priorities
  exact recalcWith_fix ((toposortFn g).getD []).reverse g
    (List.nodup_reverse.2 hnd)
    (fun x hx => hbound x (List.mem_reverse.1 hx))
    hself
    (List.pairwise_reverse.2 hpw)
    v
    (List.mem_reverse.2 (hcover v hv))

/-- C5 witness instance: on the concrete two-node graph the amended fixpoint
equation holds at node 0. -/
theorem priority_recomputation_amended_witness :
    prioAt (recalculate_priorities
      ⟨[⟨Job.new (Structure.new [] none "" 0)
          ⟨Engine.agent "" "", Js.null⟩ ResourceReq.default 0,
         NodeType.Compute,
         CHash.mk ⟨Engine.agent "" "", Js.null⟩
           (Structure.new [] none "" 0) .nil,
         100, true, false, false⟩,
        ⟨Job.new (Structure.new [] none "" 0)
          ⟨Engine.agent "" "", Js.null⟩ ResourceReq.default 1,
         NodeType.Compute,
         CHash.mk ⟨Engine.agent "" "", Js.null⟩
           (Structure.new [] none "" 0) .nil,
         1, true, false, false⟩],
       [(0, 1, EdgeType.HardDependency)]⟩) 0 =
      prioRule (maxChildPrio (recalculate_priorities
        ⟨[⟨Job.new (Structure.new [] none "" 0)
            ⟨Engine.agent "" "", Js.null⟩ ResourceReq.default 0,
           NodeType.Compute,
           CHash.mk ⟨Engine.agent "" "", Js.null⟩
             (Structure.new [] none "" 0) .nil,
           100, true, false, false⟩,
          ⟨Job.new (Structure.new [] none "" 0)
            ⟨Engine.agent "" "", Js.null⟩ ResourceReq.default 1,
           NodeType.Compute,
           CHash.mk ⟨Engine.agent "" "", Js.null⟩
             (Structure.new [] none "" 0) .nil,
           1, true, false, false⟩],
         [(0, 1, EdgeType.HardDependency)]⟩) 0)
        (prioAt
          ⟨[⟨Job.new (Structure.new [] none "" 0)
              ⟨Engine.agent "" "", Js.null⟩ ResourceReq.default 0,
             NodeType.Compute,
             CHash.mk ⟨Engine.agent "" "", Js.null⟩
               (Structure.new [] none "" 0) .nil,
             100, true, false, false⟩,
            ⟨Job.new (Structure.new [] none "" 0)
              ⟨Engine.agent "" "", Js.null⟩ ResourceReq.default 1,
             NodeType.Compute,
             CHash.mk ⟨Engine.agent "" "", Js.null⟩
               (Structure.new [] none "" 0) .nil,
             1, true, false, false⟩],
           [(0, 1, EdgeType.HardDependency)]⟩ 0) :=
  priority_recomputation_amended
    ⟨[⟨Job.new (Structure.new [] none "" 0)
        ⟨Engine.agent "" "", Js.null⟩ ResourceReq.default 0,
       NodeType.Compute,
       CHash.mk ⟨Engine.agent "" "", Js.null⟩
         (Structure.new [] none "" 0) .nil,
       100, true, false, false⟩,
      ⟨Job.new (Structure.new [] none "" 0)
        ⟨Engine.agent "" "", Js.null⟩ ResourceReq.default 1,
       NodeType.Compute,
       CHash.mk ⟨Engine.agent "" "", Js.null⟩
         (Structure.new [] none "" 0) .nil,
       1, true, false, false⟩],
     [(0, 1, EdgeType.HardDependency)]⟩
    (by unfold IsTopoOrder; decide) 0 (by decide)

/- ## C7: pruning completeness -/

theorem markPruned_edges (g : Graph) (v : Nat) :
    (markPruned g v).edges = g.edges := rfl

theorem markPruned_length (g : Graph) (v : Nat) :
    (markPruned g v).nodes.length = g.nodes.length :=
  modifyAt_length _ v g.nodes

theorem markPruned_get?_ne (g : Graph) (v i : Nat) (h : i ≠ v) :
    (markPruned g v).nodes.get? i = g.nodes.get? i :=
  modifyAt_get?_ne _ v g.nodes i h

theorem modifyAt_mem {α : Type} (f : α → α) :
    ∀ (n : Nat) (l : List α) (a : α), a ∈ modifyAt f n l →
      a ∈ l ∨ ∃ b ∈ l, a = f b := by
  intro n l
  induction l generalizing n with
  | nil => intro a h; cases n <;> exact absurd h (List.not_mem_nil a)
  | cons x xs ih =>
    intro a h
    cases n with
    | zero =>
      rcases List.mem_cons.1 h with h | h
      · exact Or.inr ⟨x, List.mem_cons_self x xs, h⟩
      · exact Or.inl (List.mem_cons_of_mem x h)
    | succ m =>
      rcases List.mem_cons.1 h with h | h
      · exact Or.inl (h ▸ List.mem_cons_self x xs)
      · rcases ih m a h with h | ⟨b, hb, hab⟩
        · exact Or.inl (List.mem_cons_of_mem x h)
        · exact Or.inr ⟨b, List.mem_cons_of_mem x hb, hab⟩

theorem markPruned_marked (g : Graph) (v : Nat)
    (hv : v < g.nodes.length)
    (hcons : ∀ nd ∈ g.nodes, nd.is_pruned = true →
      nd.job.status = JobStatus.Failed ∧
      nd.job.error_log = some "Pruned by Logic Condition") :
    MarkedAt (markPruned g v) v := by
  rcases hgv : g.nodes.get? v with _ | nd
  · exact absurd (List.get?_eq_none.1 hgv) (by omega)
  · have hget : (markPruned g v).nodes.get? v = some (
        if nd.is_pruned then nd
        else { nd with
               is_pruned := true,
               job := { nd.job with
                        status := .Failed,
                        error_log := some "Pruned by Logic Condition" } }) := by
      show (modifyAt _ v g.nodes).get? v = _
      rw [modifyAt_get?_self, hgv]
      rfl
    by_cases hp : nd.is_pruned = true
    · rw [if_pos hp] at hget
      obtain ⟨hst, herr⟩ := hcons nd (List.get?_mem hgv) hp
      exact ⟨nd, hget, hp, hst, herr⟩
    · rw [if_neg hp] at hget
      exact ⟨_, hget, rfl, rfl, rfl⟩

theorem markPruned_preserves_marked (g : Graph) (v w : Nat)
    (h : MarkedAt g w) : MarkedAt (markPruned g v) w := by
  obtain ⟨nd, hget, hp, hst, herr⟩ := h
  by_cases hwv : w = v
  · subst hwv
    have hget2 : (markPruned g w).nodes.get? w = some nd := by
      show (modifyAt _ w g.nodes).get? w = _
      rw [modifyAt_get?_self, hget]
      simp [hp]
    exact ⟨nd, hget2, hp, hst, herr⟩
  · refine ⟨nd, ?_, hp, hst, herr⟩
    rw [markPruned_get?_ne g v w hwv]
    exact hget

theorem markPruned_consistent (g : Graph) (v : Nat)
    (hcons : ∀ nd ∈ g.nodes, nd.is_pruned = true →
      nd.job.status = JobStatus.Failed ∧
      nd.job.error_log = some "Pruned by Logic Condition") :
    ∀ nd ∈ (markPruned g v).nodes, nd.is_pruned = true →
      nd.job.status = JobStatus.Failed ∧
      nd.job.error_log = some "Pruned by Logic Condition" := by
  intro nd hnd hp
  rcases modifyAt_mem _ v g.nodes nd hnd with h | ⟨b, hb, hab⟩
  · exact hcons nd h hp
  · by_cases hbp : b.is_pruned = true
    · rw [if_pos hbp] at hab
      exact hcons nd (hab ▸ hb) hp
    · rw [if_neg hbp] at hab
      subst hab
      exact ⟨rfl, rfl⟩

theorem nodup_bounded_length (l : List Nat) (n : Nat) (hnd : l.Nodup)
    (hb : ∀ x ∈ l, x < n) : l.length ≤ n := by
  have h1 : l.toFinset ⊆ Finset.range n := by
    intro x hx
    rw [Finset.mem_range]
    exact hb x (List.mem_toFinset.1 hx)
  have h2 := Finset.card_le_card h1
  rwa [List.toFinset_card_of_nodup hnd, Finset.card_range] at h2

theorem mem_childrenIdx (g : Graph) (v c : Nat) :
    c ∈ childrenIdx g v ↔ edgeStep g v c := by
  unfold childrenIdx edgeStep
  simp only [List.mem_map, List.mem_filter, List.any_eq_true,
    Bool.and_eq_true, beq_iff_eq]
  constructor
  · rintro ⟨p, ⟨hp, h1⟩, h2⟩
    exact ⟨p, hp, h1, h2⟩
  · rintro ⟨p, hp, h1, h2⟩
    exact ⟨p, ⟨hp, h1⟩, h2⟩

theorem enqGo_spec :
    ∀ (cs q d : List Nat),
      ∃ new, cs.foldl
          (fun qd c => if qd.2.contains c then qd
            else (qd.1 ++ [c], c :: qd.2)) (q, d) =
          (q ++ new, new.reverse ++ d) ∧
        new ⊆ cs ∧ new.Nodup ∧ (∀ x ∈ new, x ∉ d) ∧
        (∀ c ∈ cs, c ∈ new ∨ c ∈ d) := by
  intro cs
  induction cs with
  | nil =>
    intro q d
    exact ⟨[], by simp, by simp, by simp, by simp, by simp⟩
  | cons c cs ih =>
    intro q d
    by_cases hc : c ∈ d
    · have hcont : (d.contains c) = true := by
        simpa [List.contains] using List.elem_iff.2 hc
      obtain ⟨new, h1, h2, h3, h4, h5⟩ := ih q d
      refine ⟨new, ?_, fun x hx => List.mem_cons_of_mem c (h2 hx), h3, h4, ?_⟩
      · rw [List.foldl_cons]
        show List.foldl _
          (if (d.contains c) = true then (q, d) else (q ++ [c], c :: d)) cs = _
        rw [hcont, if_pos rfl]
        exact h1
      · intro x hx
        rcases List.mem_cons.1 hx with hx | hx
        · exact Or.inr (hx ▸ hc)
        · exact h5 x hx
    · have hcont : (d.contains c) = false := by
        rw [← Bool.not_eq_true]
        intro h
        exact hc (List.elem_iff.1 (by simpa [List.contains] using h))
      obtain ⟨new, h1, h2, h3, h4, h5⟩ := ih (q ++ [c]) (c :: d)
      refine ⟨c :: new, ?_, ?_, ?_, ?_, ?_⟩
      · rw [List.foldl_cons]
        show List.foldl _
          (if (d.contains c) = true then (q, d) else (q ++ [c], c :: d)) cs =
          (q ++ (c :: new), (c :: new).reverse ++ d)
        have e1 : q ++ (c :: new) = (q ++ [c]) ++ new := by simp
        have e2 : (c :: new).reverse ++ d = new.reverse ++ (c :: d) := by simp
        rw [hcont, if_neg Bool.false_ne_true, e1, e2]
        exact h1
      · intro x hx
        rcases List.mem_cons.1 hx with hx | hx
        · exact hx ▸ List.mem_cons_self c cs
        · exact List.mem_cons_of_mem c (h2 hx)
      · rw [List.nodup_cons]
        exact ⟨fun hmem => (h4 c hmem) (List.mem_cons_self c d), h3⟩
      · intro x hx
        rcases List.mem_cons.1 hx with hx | hx
        · exact hx ▸ hc
        · exact fun hd => (h4 x hx) (List.mem_cons_of_mem c hd)
      · intro y hy
        rcases List.mem_cons.1 hy with hy | hy
        · exact Or.inl (hy ▸ List.mem_cons_self c new)
        · rcases h5 y hy with h | h
          · exact Or.inl (List.mem_cons_of_mem c h)
          · rcases List.mem_cons.1 h with h | h
            · exact Or.inl (h ▸ List.mem_cons_self c new)
            · exact Or.inr h

theorem pruneGo_nil (start fuel : Nat) (g : Graph) (disc : List Nat) :
    pruneGo start (fuel + 1) g [] disc = g := rfl

theorem pruneGo_cons (start fuel : Nat) (g : Graph) (v : Nat)
    (rest disc : List Nat) :
    pruneGo start (fuel + 1) g (v :: rest) disc =
      pruneGo start fuel (if v = start then g else markPruned g v)
        (bfsEnqueue (if v = start then g else markPruned g v) v rest disc).1
        (bfsEnqueue (if v = start then g else markPruned g v) v rest disc).2 :=
  rfl

theorem edgeStep_bounds (g₀ : Graph)
    (hedge : ∀ p ∈ g₀.edges, p.1 < g₀.nodes.length ∧
      p.2.1 < g₀.nodes.length) :
    ∀ u c, edgeStep g₀ u c → u < g₀.nodes.length ∧ c < g₀.nodes.length := by
  intro u c h
  unfold edgeStep at h
  simp only [List.any_eq_true, Bool.and_eq_true, beq_iff_eq] at h
  obtain ⟨p, hp, h1, h2⟩ := h
  obtain ⟨b1, b2⟩ := hedge p hp
  rw [h1] at b1
  rw [h2] at b2
  exact ⟨b1, b2⟩

theorem pruneGo_spec (g₀ : Graph) (start : Nat)
    (hedge : ∀ p ∈ g₀.edges, p.1 < g₀.nodes.length ∧
      p.2.1 < g₀.nodes.length) :
    ∀ (fuel : Nat) (g : Graph) (queue disc : List Nat),
      g.edges = g₀.edges →
      g.nodes.length = g₀.nodes.length →
      (∀ nd ∈ g.nodes, nd.is_pruned = true →
        nd.job.status = JobStatus.Failed ∧
        nd.job.error_log = some "Pruned by Logic Condition") →
      disc.Nodup →
      (∀ x ∈ disc, x < g₀.nodes.length) →
      (∀ x ∈ queue, x ∈ disc) →
      start ∈ disc →
      (∀ x ∈ disc, Relation.ReflTransGen (edgeStep g₀) start x) →
      (∀ x ∈ disc, x ∉ queue → x = start ∨ MarkedAt g x) →
      (∀ u ∈ disc, ∀ c, edgeStep g₀ u c → c ∈ disc ∨ u ∈ queue) →
      (∀ x, g.nodes.get? x = g₀.nodes.get? x ∨
        (x ≠ start ∧ Relation.ReflTransGen (edgeStep g₀) start x ∧
          MarkedAt g x)) →
      queue.length + (g₀.nodes.length - disc.length) < fuel →
      ∃ df : List Nat,
        (∀ x ∈ disc, x ∈ df) ∧
        (∀ u ∈ df, u = start ∨
          MarkedAt (pruneGo start fuel g queue disc) u) ∧
        (∀ u ∈ df, ∀ c, edgeStep g₀ u c → c ∈ df) ∧
        (∀ x, (pruneGo start fuel g queue disc).nodes.get? x =
            g₀.nodes.get? x ∨
          (x ≠ start ∧ Relation.ReflTransGen (edgeStep g₀) start x ∧
            MarkedAt (pruneGo start fuel g queue disc) x)) := by
  intro fuel
  induction fuel with
  | zero =>
    intro g queue disc _ _ _ _ _ _ _ _ _ _ _ hfuel
    exact absurd hfuel (by omega)
  | succ fuel ih =>
    intro g queue disc hE hL hcons hdnd hdlt hqd hsd hreach hmark hsucc
      hdiff hfuel
    match queue with
    | [] =>
      rw [pruneGo_nil]
      refine ⟨disc, fun x hx => hx, ?_, ?_, hdiff⟩
      · intro u hu
        exact hmark u hu (List.not_mem_nil u)
      · intro u hu c hc
        rcases hsucc u hu c hc with h | h
        · exact h
        · exact absurd h (List.not_mem_nil u)
    | v :: rest =>
      rw [pruneGo_cons]
      have hvdisc : v ∈ disc := hqd v (List.mem_cons_self v rest)
      have hvlt : v < g₀.nodes.length := hdlt v hvdisc
      set g1 := if v = start then g else markPruned g v with hg1
      have hg1e : g1.edges = g₀.edges := by
        rw [hg1]
        by_cases hv : v = start
        · rw [if_pos hv]; exact hE
        · rw [if_neg hv, markPruned_edges]; exact hE
      have hg1l : g1.nodes.length = g₀.nodes.length := by
        rw [hg1]
        by_cases hv : v = start
        · rw [if_pos hv]; exact hL
        · rw [if_neg hv, markPruned_length]; exact hL
      have hg1cons : ∀ nd ∈ g1.nodes, nd.is_pruned = true →
          nd.job.status = JobStatus.Failed ∧
          nd.job.error_log = some "Pruned by Logic Condition" := by
        rw [hg1]
        by_cases hv : v = start
        · rw [if_pos hv]; exact hcons
        · rw [if_neg hv]; exact markPruned_consistent g v hcons
      have hg1pres : ∀ w, MarkedAt g w → MarkedAt g1 w := by
        intro w hw
        rw [hg1]
        by_cases hv : v = start
        · rw [if_pos hv]; exact hw
        · rw [if_neg hv]; exact markPruned_preserves_marked g v w hw
      have hg1get : ∀ x, x ≠ v → g1.nodes.get? x = g.nodes.get? x := by
        intro x hx
        rw [hg1]
        by_cases hv : v = start
        · rw [if_pos hv]
        · rw [if_neg hv]; exact markPruned_get?_ne g v x hx
      have hvmarked : v = start ∨ MarkedAt g1 v := by
        by_cases hv : v = start
        · exact Or.inl hv
        · refine Or.inr ?_
          rw [hg1, if_neg hv]
          exact markPruned_marked g v (by omega) hcons
      have hchild : ∀ c, c ∈ childrenIdx g1 v ↔ edgeStep g₀ v c := by
        intro c
        rw [mem_childrenIdx]
        unfold edgeStep
        rw [hg1e]
      obtain ⟨new, heq, hsub, hnodnew, hnotd, hcov⟩ :=
        enqGo_spec (childrenIdx g1 v) rest disc
      have hqdeq : bfsEnqueue g1 v rest disc =
          (rest ++ new, new.reverse ++ disc) := heq
      rw [hqdeq]
      have hnew_edge : ∀ x ∈ new, edgeStep g₀ v x := by
        intro x hx
        exact (hchild x).1 (hsub hx)
      have hnew_lt : ∀ x ∈ new, x < g₀.nodes.length := by
        intro x hx
        exact (edgeStep_bounds g₀ hedge v x (hnew_edge x hx)).2
      have hd2nd : (new.reverse ++ disc).Nodup := by
        rw [List.nodup_append]
        exact ⟨List.nodup_reverse.2 hnodnew, hdnd,
          fun a ha => hnotd a (List.mem_reverse.1 ha)⟩
      have hd2lt : ∀ x ∈ new.reverse ++ disc, x < g₀.nodes.length := by
        intro x hx
        rcases List.mem_append.1 hx with h | h
        · exact hnew_lt x (List.mem_reverse.1 h)
        · exact hdlt x h
      have hdsub : ∀ x ∈ disc, x ∈ new.reverse ++ disc :=
        fun x hx => List.mem_append.2 (Or.inr hx)
      have hnsub : ∀ x ∈ new, x ∈ new.reverse ++ disc :=
        fun x hx => List.mem_append.2 (Or.inl (List.mem_reverse.2 hx))
      have hq2d2 : ∀ x ∈ rest ++ new, x ∈ new.reverse ++ disc := by
        intro x hx
        rcases List.mem_append.1 hx with h | h
        · exact hdsub x (hqd x (List.mem_cons_of_mem v h))
        · exact hnsub x h
      have hs2 : start ∈ new.reverse ++ disc := hdsub start hsd
      have hreach2 : ∀ x ∈ new.reverse ++ disc,
          Relation.ReflTransGen (edgeStep g₀) start x := by
        intro x hx
        rcases List.mem_append.1 hx with h | h
        · exact Relation.ReflTransGen.tail (hreach v hvdisc)
            (hnew_edge x (List.mem_reverse.1 h))
        · exact hreach x h
      have hmark2 : ∀ x ∈ new.reverse ++ disc, x ∉ rest ++ new →
          x = start ∨ MarkedAt g1 x := by
        intro x hx hnq
        rcases List.mem_append.1 hx with h | h
        · exact absurd (List.mem_append.2 (Or.inr (List.mem_reverse.1 h))) hnq
        · by_cases hxv : x = v
          · exact hxv ▸ hvmarked
          · have hxq : x ∉ v :: rest := by
              intro hmem
              rcases List.mem_cons.1 hmem with hmem | hmem
              · exact hxv hmem
              · exact hnq (List.mem_append.2 (Or.inl hmem))
            rcases hmark x h hxq with h2 | h2
            · exact Or.inl h2
            · exact Or.inr (hg1pres x h2)
      have hsucc2 : ∀ u ∈ new.reverse ++ disc, ∀ c, edgeStep g₀ u c →
          c ∈ new.reverse ++ disc ∨ u ∈ rest ++ new := by
        intro u hu c hc
        rcases List.mem_append.1 hu with h | h
        · exact Or.inr (List.mem_append.2 (Or.inr (List.mem_reverse.1 h)))
        · by_cases huv : u = v
          · subst huv
            rcases hcov c ((hchild c).2 hc) with h2 | h2
            · exact Or.inl (hnsub c h2)
            · exact Or.inl (hdsub c h2)
          · rcases hsucc u h c hc with h2 | h2
            · exact Or.inl (hdsub c h2)
            · rcases List.mem_cons.1 h2 with h3 | h3
              · exact absurd h3 huv
              · exact Or.inr (List.mem_append.2 (Or.inl h3))
      have hdiff2 : ∀ x, g1.nodes.get? x = g₀.nodes.get? x ∨
          (x ≠ start ∧ Relation.ReflTransGen (edgeStep g₀) start x ∧
            MarkedAt g1 x) := by
        intro x
        by_cases hxv : x = v
        · subst hxv
          by_cases hv : x = start
          · rw [hg1, if_pos hv]
            exact hdiff x
          · refine Or.inr ⟨hv, hreach x hvdisc, ?_⟩
            rcases hvmarked with h | h
            · exact absurd h hv
            · exact h
        · rcases hdiff x with h2 | ⟨h2, h3, h4⟩
          · exact Or.inl ((hg1get x hxv).trans h2)
          · exact Or.inr ⟨h2, h3, hg1pres x h4⟩
      have hd2len : (new.reverse ++ disc).length ≤ g₀.nodes.length :=
        nodup_bounded_length _ _ hd2nd hd2lt
      have hfuel2 : (rest ++ new).length +
          (g₀.nodes.length - (new.reverse ++ disc).length) < fuel := by
        rw [List.length_append, List.length_append, List.length_reverse]
          at *
        simp only [List.length_cons] at hfuel
        omega
      obtain ⟨df, c1, c2, c3, c4⟩ := ih g1 (rest ++ new)
        (new.reverse ++ disc) hg1e hg1l hg1cons hd2nd hd2lt hq2d2 hs2
        hreach2 hmark2 hsucc2 hdiff2 hfuel2
      exact ⟨df, fun x hx => c1 x (hdsub x hx), c2, c3, c4⟩

/-- **C7**: after `resolve_logic_branch` on a Switch node whose condition
evaluates false, every node strictly reachable from the switch along
directed edges carries `is_pruned = true`, status `Failed` and error text
"Pruned by Logic Condition"; nodes not reachable from the switch are
unchanged, and the switch node itself is unchanged (in particular not
pruned). The well-formedness hypotheses say that edges stay inside the node
list and that any already-pruned node carries the mark fields, which
`prune_subgraph` itself guarantees for every node it ever prunes. -/
theorem pruning_completeness (g : Graph) (s : Nat) (cond : LogicCondition)
    (data : Js) (nd : SmartNode)
    (hs : g.nodes.get? s = some nd)
    (hsw : nd.node_type = NodeType.Switch cond)
    (hfail : condPasses cond data = false)
    (hedge : ∀ p ∈ g.edges, p.1 < g.nodes.length ∧
      p.2.1 < g.nodes.length)
    (hcons : ∀ x ∈ g.nodes, x.is_pruned = true →
      x.job.status = JobStatus.Failed ∧
      x.job.error_log = some "Pruned by Logic Condition") :
    (∀ v, v ≠ s → Relation.ReflTransGen (edgeStep g) s v →
      MarkedAt (resolve_logic_branch g s data) v) ∧
    (∀ v, ¬ Relation.ReflTransGen (edgeStep g) s v →
      (resolve_logic_branch g s data).nodes.get? v = g.nodes.get? v) ∧
    (resolve_logic_branch g s data).nodes.get? s = g.nodes.get? s := by
  have hslt : s < g.nodes.length := by
    rcases List.get?_eq_some.1 hs with ⟨h, _⟩
    exact h
  have hres : resolve_logic_branch g s data = prune_subgraph g s := by
    unfold resolve_logic_branch
    simp only [hs, hsw, hfail, Bool.false_eq_true, if_false]
  rw [hres]
  unfold prune_subgraph
  obtain ⟨df, c1, c2, c3, c4⟩ := pruneGo_spec g s hedge
    (g.nodes.length + 1) g [s] [s] rfl rfl hcons
    (List.nodup_singleton s)
    (by intro x hx; rw [List.mem_singleton] at hx; subst hx; exact hslt)
    (fun x hx => hx)
    (List.mem_singleton.2 rfl)
    (by
      intro x hx
      rw [List.mem_singleton] at hx
      subst hx
      exact Relation.ReflTransGen.refl)
    (by intro x hx hnq; exact absurd hx hnq)
    (by intro u hu c _; exact Or.inr hu)
    (fun x => Or.inl rfl)
    (by simp only [List.length_singleton]; omega)
  have aux : ∀ w, Relation.ReflTransGen (edgeStep g) s w → w ∈ df := by
    intro w hw
    induction hw with
    | refl => exact c1 s (List.mem_singleton.2 rfl)
    | tail h1 h2 ih => exact c3 _ ih _ h2
  refine ⟨?_, ?_, ?_⟩
  · intro v hv hrv
    rcases c2 v (aux v hrv) with h | h
    · exact absurd h hv
    · exact h
  · intro v hnr
    rcases c4 v with h | ⟨_, h2, _⟩
    · exact h
    · exact absurd h2 hnr
  · rcases c4 s with h | ⟨h1, _, _⟩
    · exact h
    · exact absurd rfl h1

/-- C7 witness instance: in a three-node graph in which the failing switch 0
points at node 1 and node 2 is unrelated, the resolution marks node 1 and
leaves nodes 0 and 2 untouched. -/
theorem pruning_completeness_witness :
    MarkedAt (resolve_logic_branch
      ⟨[⟨Job.new (Structure.new [] none "" 0)
          ⟨Engine.agent "" "", Js.null⟩ ResourceReq.default 0,
         NodeType.Switch (LogicCondition.EnergyBelow 0),
         CHash.mk ⟨Engine.agent "" "", Js.null⟩
           (Structure.new [] none "" 0) .nil,
         10, true, false, false⟩,
        ⟨Job.new (Structure.new [] none "" 0)
          ⟨Engine.agent "" "", Js.null⟩ ResourceReq.default 1,
         NodeType.Compute,
         CHash.mk ⟨Engine.agent "" "", Js.null⟩
           (Structure.new [] none "" 0) .nil,
         1, true, false, false⟩,
        ⟨Job.new (Structure.new [] none "" 0)
          ⟨Engine.agent "" "", Js.null⟩ ResourceReq.default 2,
         NodeType.Compute,
         CHash.mk ⟨Engine.agent "" "", Js.null⟩
           (Structure.new [] none "" 0) .nil,
         2, true, false, false⟩],
       [(0, 1, EdgeType.HardDependency)]⟩ 0 Js.null) 1 ∧
    (resolve_logic_branch
      ⟨[⟨Job.new (Structure.new [] none "" 0)
          ⟨Engine.agent "" "", Js.null⟩ ResourceReq.default 0,
         NodeType.Switch (LogicCondition.EnergyBelow 0),
         CHash.mk ⟨Engine.agent "" "", Js.null⟩
           (Structure.new [] none "" 0) .nil,
         10, true, false, false⟩,
        ⟨Job.new (Structure.new [] none "" 0)
          ⟨Engine.agent "" "", Js.null⟩ ResourceReq.default 1,
         NodeType.Compute,
         CHash.mk ⟨Engine.agent "" "", Js.null⟩
           (Structure.new [] none "" 0) .nil,
         1, true, false, false⟩,
        ⟨Job.new (Structure.new [] none "" 0)
          ⟨Engine.agent "" "", Js.null⟩ ResourceReq.default 2,
         NodeType.Compute,
         CHash.mk ⟨Engine.agent "" "", Js.null⟩
           (Structure.new [] none "" 0) .nil,
         2, true, false, false⟩],
       [(0, 1, EdgeType.HardDependency)]⟩ 0 Js.null).nodes.get? 0 =
      (⟨[⟨Job.new (Structure.new [] none "" 0)
          ⟨Engine.agent "" "", Js.null⟩ ResourceReq.default 0,
         NodeType.Switch (LogicCondition.EnergyBelow 0),
         CHash.mk ⟨Engine.agent "" "", Js.null⟩
           (Structure.new [] none "" 0) .nil,
         10, true, false, false⟩,
        ⟨Job.new (Structure.new [] none "" 0)
          ⟨Engine.agent "" "", Js.null⟩ ResourceReq.default 1,
         NodeType.Compute,
         CHash.mk ⟨Engine.agent "" "", Js.null⟩
           (Structure.new [] none "" 0) .nil,
         1, true, false, false⟩,
        ⟨Job.new (Structure.new [] none "" 0)
          ⟨Engine.agent "" "", Js.null⟩ ResourceReq.default 2,
         NodeType.Compute,
         CHash.mk ⟨Engine.agent "" "", Js.null⟩
           (Structure.new [] none "" 0) .nil,
         2, true, false, false⟩],
       [(0, 1, EdgeType.HardDependency)]⟩ : Graph).nodes.get? 0 := by
  have T := pruning_completeness
    ⟨[⟨Job.new (Structure.new [] none "" 0)
        ⟨Engine.agent "" "", Js.null⟩ ResourceReq.default 0,
       NodeType.Switch (LogicCondition.EnergyBelow 0),
       CHash.mk ⟨Engine.agent "" "", Js.null⟩
         (Structure.new [] none "" 0) .nil,
       10, true, false, false⟩,
      ⟨Job.new (Structure.new [] none "" 0)
        ⟨Engine.agent "" "", Js.null⟩ ResourceReq.default 1,
       NodeType.Compute,
       CHash.mk ⟨Engine.agent "" "", Js.null⟩
         (Structure.new [] none "" 0) .nil,
       1, true, false, false⟩,
      ⟨Job.new (Structure.new [] none "" 0)
        ⟨Engine.agent "" "", Js.null⟩ ResourceReq.default 2,
       NodeType.Compute,
       CHash.mk ⟨Engine.agent "" "", Js.null⟩
         (Structure.new [] none "" 0) .nil,
       2, true, false, false⟩],
     [(0, 1, EdgeType.HardDependency)]⟩
    0 (LogicCondition.EnergyBelow 0) Js.null
    ⟨Job.new (Structure.new [] none "" 0)
      ⟨Engine.agent "" "", Js.null⟩ ResourceReq.default 0,
     NodeType.Switch (LogicCondition.EnergyBelow 0),
     CHash.mk ⟨Engine.agent "" "", Js.null⟩
       (Structure.new [] none "" 0) .nil,
     10, true, false, false⟩
    (by decide) (by decide) (by decide) (by decide) (by decide)
  exact ⟨T.1 1 (by decide)
      (Relation.ReflTransGen.single (by unfold edgeStep; decide)),
    T.2.2⟩

/- ## C6: expansion governor -/

theorem alookup_aset_self {α β : Type} [DecidableEq α] (k : α) (v : β) :
    ∀ l : List (α × β), alookup k (aset k v l) = some v := by
  intro l
  induction l with
  | nil => simp [aset, alookup]
  | cons p rest ih =>
    obtain ⟨a, b⟩ := p
    by_cases h : a = k
    · simp [aset, alookup, h]
    · simp only [aset, alookup, if_neg h]
      exact ih

theorem aset_length_of_mem {α β : Type} [DecidableEq α] (k : α) (v : β) :
    ∀ l : List (α × β), (alookup k l).isSome →
      (aset k v l).length = l.length := by
  intro l
  induction l with
  | nil => intro h; simp [alookup] at h
  | cons p rest ih =>
    obtain ⟨a, b⟩ := p
    intro h
    by_cases ha : a = k
    · simp [aset, ha]
    · simp only [aset, if_neg ha, List.length_cons]
      simp only [alookup, if_neg ha] at h
      rw [ih h]

theorem amodify_length {α β : Type} [DecidableEq α] (k : α) (f : β → β) :
    ∀ l : List (α × β), (amodify k f l).length = l.length := by
  intro l
  induction l with
  | nil => rfl
  | cons p rest ih =>
    obtain ⟨a, b⟩ := p
    by_cases h : a = k
    · simp [amodify, h]
    · simp only [amodify, if_neg h, List.length_cons]
      rw [ih]

theorem alookup_amodify_self {α β : Type} [DecidableEq α] (k : α)
    (f : β → β) : ∀ l : List (α × β),
      alookup k (amodify k f l) = (alookup k l).map f := by
  intro l
  induction l with
  | nil => rfl
  | cons p rest ih =>
    obtain ⟨a, b⟩ := p
    by_cases h : a = k
    · simp [amodify, alookup, h]
    · simp only [amodify, alookup, if_neg h]
      exact ih

theorem alookup_amodify_ne {α β : Type} [DecidableEq α] (k k2 : α)
    (f : β → β) (hne : k2 ≠ k) : ∀ l : List (α × β),
      alookup k (amodify k2 f l) = alookup k l := by
  intro l
  induction l with
  | nil => rfl
  | cons p rest ih =>
    obtain ⟨a, b⟩ := p
    by_cases h : a = k2
    · subst h
      simp only [amodify, if_pos rfl, alookup]
      rw [if_neg hne, if_neg hne]
    · simp only [amodify, if_neg h, alookup]
      by_cases h2 : a = k
      · rw [if_pos h2, if_pos h2]
      · rw [if_neg h2, if_neg h2]
        exact ih

theorem alookup_map_pres {α β : Type} [DecidableEq α]
    (F : α × β → α × β) (hF : ∀ p, (F p).1 = p.1) (P : β → Prop)
    (hP : ∀ p, P p.2 → P (F p).2) :
    ∀ (l : List (α × β)) (k : α) (n : β), alookup k l = some n → P n →
      ∃ n', alookup k (l.map F) = some n' ∧ P n' := by
  intro l
  induction l with
  | nil => intro k n h; exact absurd h (by simp [alookup])
  | cons p rest ih =>
    intro k n h hn
    obtain ⟨a, b⟩ := p
    have hkey : (F (a, b)).1 = a := hF (a, b)
    by_cases ha : a = k
    · simp only [alookup, if_pos ha] at h
      have hn2 : P b := (Option.some.inj h) ▸ hn
      refine ⟨(F (a, b)).2, ?_, hP (a, b) hn2⟩
      show alookup k (F (a, b) :: rest.map F) = some (F (a, b)).2
      rcases hFp : F (a, b) with ⟨a2, b2⟩
      rw [hFp] at hkey
      simp only [alookup]
      rw [if_pos (hkey.trans ha)]
    · simp only [alookup, if_neg ha] at h
      obtain ⟨n', h1, h2⟩ := ih k n h hn
      refine ⟨n', ?_, h2⟩
      show alookup k (F (a, b) :: rest.map F) = some n'
      rcases hFp : F (a, b) with ⟨a2, b2⟩
      rw [hFp] at hkey
      simp only [alookup]
      rw [if_neg (fun h2 => ha (hkey.symm.trans h2))]
      exact h1

theorem unblockOne_key (jid : Nat) (p : Nat × NodeState) :
    (unblockOne jid p).1.1 = p.1 := by
  unfold unblockOne
  split
  · dsimp only
    split
    · rfl
    · rfl
  · rfl

theorem unblockOne_completed (jid : Nat) (p : Nat × NodeState)
    (h : p.2.job.status = JobStatus.Completed) :
    (unblockOne jid p).1.2.job.status = JobStatus.Completed := by
  unfold unblockOne
  split
  · dsimp only
    split
    · rename_i hcond
      exact absurd (h ▸ hcond.2.1) (by intro hx; exact JobStatus.noConfusion hx)
    · exact h
  · exact h

theorem unblock_fold_fst (jid : Nat) :
    ∀ (l : List (Nat × NodeState)) (acc1 : List (Nat × NodeState))
      (acc2 : List Nat),
      (l.foldl (unblockStep jid) (acc1, acc2)).1 =
        acc1 ++ l.map (fun p => (unblockOne jid p).1) := by
  intro l
  induction l with
  | nil => intro acc1 acc2; simp
  | cons p rest ih =>
    intro acc1 acc2
    rw [List.foldl_cons]
    show (rest.foldl (unblockStep jid)
      (acc1 ++ [(unblockOne jid p).1],
        if (unblockOne jid p).2 then acc2 ++ [(unblockOne jid p).1.1]
        else acc2)).1 = _
    rcases hb : (unblockOne jid p).2 with _ | _
    · rw [if_neg Bool.false_ne_true, ih]
      simp
    · rw [if_pos rfl, ih]
      simp

theorem notifyUnblocked_workflow (c : Coordinator) (cid : Nat) :
    (notifyUnblocked c cid).workflow = c.workflow := by
  unfold notifyUnblocked
  dsimp only
  split
  · split
    · rfl
    · rfl
  · rfl

theorem notifyUnblocked_len (c : Coordinator) (cid : Nat) :
    (notifyUnblocked c cid).nodes.length = c.nodes.length := by
  unfold notifyUnblocked
  dsimp only
  split
  · split
    · exact amodify_length _ _ _
    · rfl
  · rfl

theorem notifyUnblocked_status (c : Coordinator) (cid k : Nat)
    (n : NodeState) (h1 : alookup k c.nodes = some n)
    (h2 : n.job.status = JobStatus.Completed) :
    ∃ n', alookup k (notifyUnblocked c cid).nodes = some n' ∧
      n'.job.status = JobStatus.Completed := by
  unfold notifyUnblocked
  dsimp only
  split
  · split
    · by_cases hck : cid = k
      · subst hck
        show ∃ n', alookup cid (amodify cid _ c.nodes) = some n' ∧ _
        rw [alookup_amodify_self, h1]
        exact ⟨_, rfl, h2⟩
      · show ∃ n', alookup k (amodify cid _ c.nodes) = some n' ∧ _
        rw [alookup_amodify_ne k cid _ hck, h1]
        exact ⟨n, rfl, h2⟩
    · exact ⟨n, h1, h2⟩
  · exact ⟨n, h1, h2⟩

theorem notify_fold_pres :
    ∀ (ids : List Nat) (c : Coordinator) (k : Nat) (n : NodeState),
      alookup k c.nodes = some n → n.job.status = JobStatus.Completed →
      (ids.foldl notifyUnblocked c).workflow = c.workflow ∧
      (ids.foldl notifyUnblocked c).nodes.length = c.nodes.length ∧
      ∃ n', alookup k (ids.foldl notifyUnblocked c).nodes = some n' ∧
        n'.job.status = JobStatus.Completed := by
  intro ids
  induction ids with
  | nil => intro c k n h1 h2; exact ⟨rfl, rfl, n, h1, h2⟩
  | cons cid rest ih =>
    intro c k n h1 h2
    obtain ⟨n1, hn1, hs1⟩ := notifyUnblocked_status c cid k n h1 h2
    obtain ⟨w1, l1, n2, hn2, hs2⟩ := ih (notifyUnblocked c cid) k n1 hn1 hs1
    rw [List.foldl_cons]
    exact ⟨w1.trans (notifyUnblocked_workflow c cid),
      l1.trans (notifyUnblocked_len c cid), n2, hn2, hs2⟩

theorem unblock_fst (jid : Nat) (l : List (Nat × NodeState)) :
    (l.foldl (unblockStep jid) ([], [])).1 =
      l.map (fun p => (unblockOne jid p).1) := by
  have := unblock_fold_fst jid l [] []
  simpa using this

theorem posting_pres (cbase : Coordinator) (jid : Nat) (cc : Coordinator)
    (ids : List Nat) (v : NodeState)
    (hn : cc.nodes =
      (List.foldl (unblockStep jid) ([], []) (aset jid v cbase.nodes)).1)
    (hw : cc.workflow = cbase.workflow)
    (hv : v.job.status = JobStatus.Completed)
    (hm : (alookup jid cbase.nodes).isSome) :
    (ids.foldl notifyUnblocked cc).workflow = cbase.workflow ∧
    (ids.foldl notifyUnblocked cc).nodes.length = cbase.nodes.length ∧
    ∃ ns, alookup jid (ids.foldl notifyUnblocked cc).nodes = some ns ∧
      ns.job.status = JobStatus.Completed := by
  obtain ⟨n1, hn1, hs1⟩ := alookup_map_pres
    (fun p => (unblockOne jid p).1) (unblockOne_key jid)
    (fun b => b.job.status = JobStatus.Completed)
    (fun p hp => unblockOne_completed jid p hp)
    (aset jid v cbase.nodes) jid v (alookup_aset_self jid v cbase.nodes) hv
  have hl : alookup jid cc.nodes = some n1 := by
    rw [hn, unblock_fst]
    exact hn1
  obtain ⟨hwf, hlen, hex⟩ := notify_fold_pres ids cc jid n1 hl hs1
  refine ⟨hwf.trans hw, ?_, hex⟩
  rw [hlen, hn, unblock_fst, List.length_map]
  exact aset_length_of_mem jid v cbase.nodes hm

theorem posting_wf (cbase : Coordinator) (jid : Nat) (cc : Coordinator)
    (ids : List Nat) (v : NodeState)
    (hn : cc.nodes =
      (List.foldl (unblockStep jid) ([], []) (aset jid v cbase.nodes)).1)
    (hw : cc.workflow = cbase.workflow)
    (hv : v.job.status = JobStatus.Completed)
    (hm : (alookup jid cbase.nodes).isSome) :
    (ids.foldl notifyUnblocked cc).workflow = cbase.workflow :=
  (posting_pres cbase jid cc ids v hn hw hv hm).1

theorem posting_len (cbase : Coordinator) (jid : Nat) (cc : Coordinator)
    (ids : List Nat) (v : NodeState)
    (hn : cc.nodes =
      (List.foldl (unblockStep jid) ([], []) (aset jid v cbase.nodes)).1)
    (hw : cc.workflow = cbase.workflow)
    (hv : v.job.status = JobStatus.Completed)
    (hm : (alookup jid cbase.nodes).isSome) :
    (ids.foldl notifyUnblocked cc).nodes.length = cbase.nodes.length :=
  (posting_pres cbase jid cc ids v hn hw hv hm).2.1

theorem posting_lookup (cbase : Coordinator) (jid : Nat) (cc : Coordinator)
    (ids : List Nat) (v : NodeState)
    (hn : cc.nodes =
      (List.foldl (unblockStep jid) ([], []) (aset jid v cbase.nodes)).1)
    (hw : cc.workflow = cbase.workflow)
    (hv : v.job.status = JobStatus.Completed)
    (hm : (alookup jid cbase.nodes).isSome) :
    ∃ ns, alookup jid (ids.foldl notifyUnblocked cc).nodes = some ns ∧
      ns.job.status = JobStatus.Completed :=
  (posting_pres cbase jid cc ids v hn hw hv hm).2.2

/-- **C6**: when a completed Generator's result carries more than 100
candidates, the defensive expansion rejects it — for any coordinator state —
with the Expansion Governor error, and `apply_job_complete` on such a report
leaves the workflow graph unchanged, adds no scheduler nodes, consumes no
fresh ids, and keeps the generator job's status `Completed` rather than
failing it. -/
theorem expansion_governor (c : Coordinator) (fresh : Nat)
    (rep : JobCompleteReport) (node : NodeState) (wf_idx : Nat)
    (gnode : SmartNode) (strat : String) (res : CalculationResult)
    (cands : List Js)
    (h1 : alookup rep.job_id c.nodes = some node)
    (h2 : rep.status = JobStatus.Completed)
    (h3 : alookup rep.job_id c.workflow.id_map = some wf_idx)
    (h4 : c.workflow.graph.nodes.get? wf_idx = some gnode)
    (h5 : gnode.node_type = NodeType.Generator strat)
    (h6 : rep.result = some res)
    (h7 : res.next_generation = some cands)
    (h8 : cands.length > 100) :
    (∀ (c₀ : Coordinator) (f₀ g₀ : Nat),
      expand_generator_defensive c₀ f₀ g₀ cands =
        Except.error "Expansion Governor: Request > 100 children. Rejected.") ∧
    (apply_job_complete c fresh rep).1.workflow = c.workflow ∧
    (apply_job_complete c fresh rep).1.nodes.length = c.nodes.length ∧
    (apply_job_complete c fresh rep).2 = fresh ∧
    ∃ ns, alookup rep.job_id (apply_job_complete c fresh rep).1.nodes =
      some ns ∧ ns.job.status = JobStatus.Completed := by
  have hgov : ∀ (c₀ : Coordinator) (f₀ g₀ : Nat),
      expand_generator_defensive c₀ f₀ g₀ cands =
        Except.error
          "Expansion Governor: Request > 100 children. Rejected." := by
    intro c₀ f₀ g₀
    unfold expand_generator_defensive
    rw [if_pos h8]
  refine ⟨hgov, ?_⟩
  unfold apply_job_complete
  rcases hnid : node.job.node_id with _ | wid
  · simp only [h1, h2, h3, h4, h5, h6, h7, hnid, hgov, Option.map_some',
      if_true]
    refine ⟨?_, ?_, ?_, ?_⟩
    · exact posting_wf c rep.job_id _ _ _ rfl rfl rfl (by rw [h1]; rfl)
    · exact posting_len c rep.job_id _ _ _ rfl rfl rfl (by rw [h1]; rfl)
    · trivial
    · exact posting_lookup c rep.job_id _ _ _ rfl rfl rfl (by rw [h1]; rfl)
  · simp only [h1, h2, h3, h4, h5, h6, h7, hnid, hgov, Option.map_some',
      if_true]
    refine ⟨?_, ?_, ?_, ?_⟩
    · exact posting_wf c rep.job_id _ _ _ rfl rfl rfl (by rw [h1]; rfl)
    · exact posting_len c rep.job_id _ _ _ rfl rfl rfl (by rw [h1]; rfl)
    · trivial
    · exact posting_lookup c rep.job_id _ _ _ rfl rfl rfl (by rw [h1]; rfl)

/-- C6 witness instance: a concrete coordinator with one completed generator
reporting 101 candidates — the expansion is rejected with the governor
error, the graph and scheduler make no new nodes, and the generator stays
`Completed`. -/
theorem expansion_governor_witness :
    (∀ (c₀ : Coordinator) (f₀ g₀ : Nat),
      expand_generator_defensive c₀ f₀ g₀ (List.replicate 101 Js.null) =
        Except.error
          "Expansion Governor: Request > 100 children. Rejected.") ∧
    (apply_job_complete
        ⟨⟨⟨[⟨Job.new (Structure.new [] none "g" 0)
              ⟨Engine.agent "a" "s", Js.obj .nil⟩ ResourceReq.default 7,
            NodeType.Generator "s",
            CHash.mk ⟨Engine.agent "a" "s", Js.obj .nil⟩
              (Structure.new [] none "g" 0) .nil,
            100, true, false, false⟩], []⟩, [], [(7, 0)]⟩, [],
          [(7, ⟨Job.new (Structure.new [] none "g" 0)
              ⟨Engine.agent "a" "s", Js.obj .nil⟩ ResourceReq.default 7,
            0, 0, false, true, false, none⟩)], [], [], []⟩
        5 ⟨7, JobStatus.Completed,
          some ⟨none, none, none, 0, none, ⟨"h", 0, 0, none, 0, "sb"⟩,
            some (List.replicate 101 Js.null)⟩, none⟩).1.workflow =
      (⟨⟨⟨[⟨Job.new (Structure.new [] none "g" 0)
              ⟨Engine.agent "a" "s", Js.obj .nil⟩ ResourceReq.default 7,
            NodeType.Generator "s",
            CHash.mk ⟨Engine.agent "a" "s", Js.obj .nil⟩
              (Structure.new [] none "g" 0) .nil,
            100, true, false, false⟩], []⟩, [], [(7, 0)]⟩, [],
          [(7, ⟨Job.new (Structure.new [] none "g" 0)
              ⟨Engine.agent "a" "s", Js.obj .nil⟩ ResourceReq.default 7,
            0, 0, false, true, false, none⟩)], [], [], []⟩ :
        Coordinator).workflow ∧
    (apply_job_complete
        ⟨⟨⟨[⟨Job.new (Structure.new [] none "g" 0)
              ⟨Engine.agent "a" "s", Js.obj .nil⟩ ResourceReq.default 7,
            NodeType.Generator "s",
            CHash.mk ⟨Engine.agent "a" "s", Js.obj .nil⟩
              (Structure.new [] none "g" 0) .nil,
            100, true, false, false⟩], []⟩, [], [(7, 0)]⟩, [],
          [(7, ⟨Job.new (Structure.new [] none "g" 0)
              ⟨Engine.agent "a" "s", Js.obj .nil⟩ ResourceReq.default 7,
            0, 0, false, true, false, none⟩)], [], [], []⟩
        5 ⟨7, JobStatus.Completed,
          some ⟨none, none, none, 0, none, ⟨"h", 0, 0, none, 0, "sb"⟩,
            some (List.replicate 101 Js.null)⟩, none⟩).2 = 5 ∧
    ∃ ns, alookup 7
        (apply_job_complete
          ⟨⟨⟨[⟨Job.new (Structure.new [] none "g" 0)
                ⟨Engine.agent "a" "s", Js.obj .nil⟩ ResourceReq.default 7,
              NodeType.Generator "s",
              CHash.mk ⟨Engine.agent "a" "s", Js.obj .nil⟩
                (Structure.new [] none "g" 0) .nil,
              100, true, false, false⟩], []⟩, [], [(7, 0)]⟩, [],
            [(7, ⟨Job.new (Structure.new [] none "g" 0)
                ⟨Engine.agent "a" "s", Js.obj .nil⟩ ResourceReq.default 7,
              0, 0, false, true, false, none⟩)], [], [], []⟩
          5 ⟨7, JobStatus.Completed,
            some ⟨none, none, none, 0, none, ⟨"h", 0, 0, none, 0, "sb"⟩,
              some (List.replicate 101 Js.null)⟩, none⟩).1.nodes =
      some ns ∧ ns.job.status = JobStatus.Completed := by
  have T := expansion_governor
    ⟨⟨⟨[⟨Job.new (Structure.new [] none "g" 0)
          ⟨Engine.agent "a" "s", Js.obj .nil⟩ ResourceReq.default 7,
        NodeType.Generator "s",
        CHash.mk ⟨Engine.agent "a" "s", Js.obj .nil⟩
          (Structure.new [] none "g" 0) .nil,
        100, true, false, false⟩], []⟩, [], [(7, 0)]⟩, [],
      [(7, ⟨Job.new (Structure.new [] none "g" 0)
          ⟨Engine.agent "a" "s", Js.obj .nil⟩ ResourceReq.default 7,
        0, 0, false, true, false, none⟩)], [], [], []⟩
    5 ⟨7, JobStatus.Completed,
      some ⟨none, none, none, 0, none, ⟨"h", 0, 0, none, 0, "sb"⟩,
        some (List.replicate 101 Js.null)⟩, none⟩
    ⟨Job.new (Structure.new [] none "g" 0)
        ⟨Engine.agent "a" "s", Js.obj .nil⟩ ResourceReq.default 7,
      0, 0, false, true, false, none⟩
    0
    ⟨Job.new (Structure.new [] none "g" 0)
        ⟨Engine.agent "a" "s", Js.obj .nil⟩ ResourceReq.default 7,
      NodeType.Generator "s",
      CHash.mk ⟨Engine.agent "a" "s", Js.obj .nil⟩
        (Structure.new [] none "g" 0) .nil,
      100, true, false, false⟩
    "s"
    ⟨none, none, none, 0, none, ⟨"h", 0, 0, none, 0, "sb"⟩,
      some (List.replicate 101 Js.null)⟩
    (List.replicate 101 Js.null)
    (by decide) (by decide) (by decide) (by decide) (by decide)
    (by decide) (by decide) (by decide)
  exact ⟨T.1, T.2.1, T.2.2.2.1, T.2.2.2.2⟩

/- ## C4: scheduling tag- and capacity-safety -/

theorem grantCores_append (a : List Job) (j : Job) :
    grantCores (a ++ [j]) = grantCores a + j.resources.cores := by
  simp [grantCores]

theorem grantGpus_append (a : List Job) (j : Job) :
    grantGpus (a ++ [j]) = grantGpus a + j.resources.gpus := by
  simp [grantGpus]

theorem scheduleLoop_safety (wid : String) (wtags : List String) :
    ∀ (fuel : Nat) (nodes : List (Nat × NodeState)) (queue dirty : List Nat)
      (capc capg : Nat) (batch : List Job),
      grantCores (scheduleLoop wid wtags fuel nodes queue dirty capc capg
          batch).2.2.2.2.2 +
        (scheduleLoop wid wtags fuel nodes queue dirty capc capg
          batch).2.2.2.1 = grantCores batch + capc ∧
      grantGpus (scheduleLoop wid wtags fuel nodes queue dirty capc capg
          batch).2.2.2.2.2 +
        (scheduleLoop wid wtags fuel nodes queue dirty capc capg
          batch).2.2.2.2.1 = grantGpus batch + capg ∧
      ∀ j ∈ (scheduleLoop wid wtags fuel nodes queue dirty capc capg
          batch).2.2.2.2.2, j ∈ batch ∨
        j.resources.required_tags.all (fun t => wtags.contains t) = true := by
  intro fuel
  induction fuel with
  | zero =>
    intro nodes queue dirty capc capg batch
    exact ⟨rfl, rfl, fun j hj => Or.inl hj⟩
  | succ fuel ih =>
    intro nodes queue dirty capc capg batch
    simp only [scheduleLoop]
    by_cases hc0 : capc = 0
    · rw [if_pos hc0]
      exact ⟨rfl, rfl, fun j hj => Or.inl hj⟩
    · rw [if_neg hc0]
      cases queue with
      | nil => exact ⟨rfl, rfl, fun j hj => Or.inl hj⟩
      | cons jid rest =>
        rcases hlk : alookup jid
          (amodify jid (fun n => { n with enqueued := false }) nodes)
          with _ | node
        · simp only [hlk]
          exact ih _ _ _ _ _ _
        · simp only [hlk]
          by_cases hrun : node.is_runnable_logic_only = true
          · rw [if_pos hrun]
            by_cases hfit : node.job.resources.required_tags.all
                (fun t => wtags.contains t) = true ∧
                node.job.resources.cores ≤ capc ∧
                node.job.resources.gpus ≤ capg
            · rw [if_pos hfit]
              obtain ⟨ih1, ih2, ih3⟩ := ih
                (aset jid
                  { node with
                    inflight := true, assigned_to := some wid,
                    job := { node.job with
                             node_id := some wid,
                             status := JobStatus.Running } }
                  (amodify jid (fun n => { n with enqueued := false }) nodes))
                rest (sinsert jid dirty)
                (capc - node.job.resources.cores)
                (capg - node.job.resources.gpus)
                (batch ++ [{ node.job with
                  node_id := some wid, status := JobStatus.Running }])
              rw [grantCores_append] at ih1
              rw [grantGpus_append] at ih2
              refine ⟨?_, ?_, ?_⟩
              · rw [ih1]
                have hrc : ({ node.job with
                    node_id := some wid,
                    status := JobStatus.Running } : Job).resources.cores =
                    node.job.resources.cores := rfl
                rw [hrc]
                omega
              · rw [ih2]
                have hrg : ({ node.job with
                    node_id := some wid,
                    status := JobStatus.Running } : Job).resources.gpus =
                    node.job.resources.gpus := rfl
                rw [hrg]
                omega
              · intro j hj
                rcases ih3 j hj with hjb | hjt
                · rcases List.mem_append.1 hjb with hjb | hjb
                  · exact Or.inl hjb
                  · rw [List.mem_singleton] at hjb
                    subst hjb
                    exact Or.inr hfit.1
                · exact Or.inr hjt
            · rw [if_neg hfit]
              exact ih _ _ _ _ _ _
          · rw [if_neg hrun]
            exact ih _ _ _ _ _ _

theorem scheduleWorker_pres (acc : Coordinator × Nat × List WorkGrant)
    (wid : String) :
    (∀ wkey, (alookup wkey (scheduleWorker acc wid).1.workers).map
        (fun w => (w.available_cores, w.available_gpus, w.tags)) =
      (alookup wkey acc.1.workers).map
        (fun w => (w.available_cores, w.available_gpus, w.tags))) ∧
    ∀ g ∈ (scheduleWorker acc wid).2.2, g ∈ acc.2.2 ∨
      ∃ w, alookup g.worker_id acc.1.workers = some w ∧
        grantCores g.jobs ≤ w.available_cores ∧
        grantGpus g.jobs ≤ w.available_gpus ∧
        ∀ j ∈ g.jobs, j.resources.required_tags.all
          (fun t => w.tags.contains t) = true := by
  unfold scheduleWorker
  rcases hw : alookup wid acc.1.workers with _ | w
  · simp only [hw]
    exact ⟨fun wkey => by trivial, fun g hg => Or.inl hg⟩
  · simp only [hw]
    by_cases hwk : (!w.wants_work || decide (64 ≤ w.inflight_jobs)) = true
    · rw [if_pos hwk]
      exact ⟨fun wkey => by trivial, fun g hg => Or.inl hg⟩
    · rw [if_neg hwk]
      by_cases hempty : (scheduleLoop wid w.tags acc.1.ready_queue.length
          acc.1.nodes acc.1.ready_queue acc.1.dirty_jobs
          w.available_cores w.available_gpus []).2.2.2.2.2.isEmpty = true
      · rw [if_pos hempty]
        exact ⟨fun wkey => rfl, fun g hg => Or.inl hg⟩
      · rw [if_neg hempty]
        constructor
        · intro wkey
          by_cases hk : wid = wkey
          · subst hk
            show (alookup wid (amodify wid _ acc.1.workers)).map _ = _
            rw [alookup_amodify_self, hw]
            rfl
          · show (alookup wkey (amodify wid _ acc.1.workers)).map _ = _
            rw [alookup_amodify_ne wkey wid _ hk]
        · intro g hg
          rcases List.mem_append.1 hg with hg | hg
          · exact Or.inl hg
          · rw [List.mem_singleton] at hg
            subst hg
            refine Or.inr ⟨w, hw, ?_, ?_, ?_⟩
            · have l1 := (scheduleLoop_safety wid w.tags
                acc.1.ready_queue.length acc.1.nodes acc.1.ready_queue
                acc.1.dirty_jobs w.available_cores w.available_gpus []).1
              show grantCores (scheduleLoop wid w.tags
                acc.1.ready_queue.length acc.1.nodes acc.1.ready_queue
                acc.1.dirty_jobs w.available_cores w.available_gpus
                []).2.2.2.2.2 ≤ w.available_cores
              have hz : grantCores ([] : List Job) = 0 := rfl
              omega
            · have l2 := (scheduleLoop_safety wid w.tags
                acc.1.ready_queue.length acc.1.nodes acc.1.ready_queue
                acc.1.dirty_jobs w.available_cores w.available_gpus []).2.1
              show grantGpus (scheduleLoop wid w.tags
                acc.1.ready_queue.length acc.1.nodes acc.1.ready_queue
                acc.1.dirty_jobs w.available_cores w.available_gpus
                []).2.2.2.2.2 ≤ w.available_gpus
              have hz : grantGpus ([] : List Job) = 0 := rfl
              omega
            · intro j hj
              have l3 := (scheduleLoop_safety wid w.tags
                acc.1.ready_queue.length acc.1.nodes acc.1.ready_queue
                acc.1.dirty_jobs w.available_cores w.available_gpus []).2.2
              rcases l3 j hj with h | h
              · exact absurd h (List.not_mem_nil j)
              · exact h

theorem schedule_fold_safety (c0 : Coordinator) :
    ∀ (wids : List String) (acc : Coordinator × Nat × List WorkGrant),
      (∀ wkey, (alookup wkey acc.1.workers).map
          (fun w => (w.available_cores, w.available_gpus, w.tags)) =
        (alookup wkey c0.workers).map
          (fun w => (w.available_cores, w.available_gpus, w.tags))) →
      (∀ g ∈ acc.2.2, ∃ w, alookup g.worker_id c0.workers = some w ∧
        grantCores g.jobs ≤ w.available_cores ∧
        grantGpus g.jobs ≤ w.available_gpus ∧
        ∀ j ∈ g.jobs, j.resources.required_tags.all
          (fun t => w.tags.contains t) = true) →
      ∀ g ∈ (wids.foldl scheduleWorker acc).2.2,
        ∃ w, alookup g.worker_id c0.workers = some w ∧
          grantCores g.jobs ≤ w.available_cores ∧
          grantGpus g.jobs ≤ w.available_gpus ∧
          ∀ j ∈ g.jobs, j.resources.required_tags.all
            (fun t => w.tags.contains t) = true := by
  intro wids
  induction wids with
  | nil => intro acc _ hsafe g hg; exact hsafe g hg
  | cons wid rest ih =>
    intro acc hpres hsafe g hg
    rw [List.foldl_cons] at hg
    obtain ⟨p1, p2⟩ := scheduleWorker_pres acc wid
    refine ih (scheduleWorker acc wid)
      (fun wkey => (p1 wkey).trans (hpres wkey)) ?_ g hg
    intro g2 hg2
    rcases p2 g2 hg2 with h | ⟨w, hww, hc, hgp, ht⟩
    · exact hsafe g2 h
    · have hview := hpres g2.worker_id
      rw [hww] at hview
      rcases hlk : alookup g2.worker_id c0.workers with _ | w0
      · rw [hlk] at hview
        exact Option.noConfusion hview
      · rw [hlk] at hview
        have hv := Option.some.inj hview
        simp only [Prod.mk.injEq] at hv
        exact ⟨w0, rfl, hv.1 ▸ hc, hv.2.1 ▸ hgp,
          fun j hj => hv.2.2 ▸ ht j hj⟩

/-- **C4**: every work grant produced by a scheduling pass is safe for its
worker — no job in the grant requires a tag outside the worker's advertised
tag set, and the grant's summed core and GPU requests do not exceed the
worker's advertised capacities from its latest heartbeat. -/
theorem scheduling_safety (c : Coordinator) (fresh : Nat) (g : WorkGrant)
    (hg : g ∈ (schedule_work c fresh).2.2) :
    ∃ w, alookup g.worker_id c.workers = some w ∧
      grantCores g.jobs ≤ w.available_cores ∧
      grantGpus g.jobs ≤ w.available_gpus ∧
      ∀ j ∈ g.jobs, j.resources.required_tags.all
        (fun t => w.tags.contains t) = true := by
  unfold schedule_work at hg
  exact schedule_fold_safety c (c.workers.map (fun p => p.1)) (c, fresh, [])
    (fun wkey => rfl) (fun g2 hg2 => absurd hg2 (List.not_mem_nil g2)) g hg

/-- C4 witness instance: one worker advertising 8 cores, 1 GPU and tag
"brain", one ready job requesting 2 cores and the "brain" tag — the
produced grant fits the advertised capacity and tag set. -/
theorem scheduling_safety_witness :
    ∃ w, alookup ((schedule_work
        ⟨⟨⟨[], []⟩, [], []⟩, [],
          [(1, ⟨Job.new (Structure.new [] none "j" 0)
              ⟨Engine.agent "a" "s", Js.null⟩ ⟨1, 2, 0, 60, ["brain"]⟩ 1,
            0, 0, false, false, true, none⟩)],
          [1], [("w1", ⟨8, 1, 0, true, ["brain"]⟩)], []⟩
        0).2.2.getD 0 ⟨"", "", []⟩).worker_id
      (⟨⟨⟨[], []⟩, [], []⟩, [],
          [(1, ⟨Job.new (Structure.new [] none "j" 0)
              ⟨Engine.agent "a" "s", Js.null⟩ ⟨1, 2, 0, 60, ["brain"]⟩ 1,
            0, 0, false, false, true, none⟩)],
          [1], [("w1", ⟨8, 1, 0, true, ["brain"]⟩)], []⟩ :
        Coordinator).workers = some w ∧
      grantCores ((schedule_work
        ⟨⟨⟨[], []⟩, [], []⟩, [],
          [(1, ⟨Job.new (Structure.new [] none "j" 0)
              ⟨Engine.agent "a" "s", Js.null⟩ ⟨1, 2, 0, 60, ["brain"]⟩ 1,
            0, 0, false, false, true, none⟩)],
          [1], [("w1", ⟨8, 1, 0, true, ["brain"]⟩)], []⟩
        0).2.2.getD 0 ⟨"", "", []⟩).jobs ≤ w.available_cores ∧
      grantGpus ((schedule_work
        ⟨⟨⟨[], []⟩, [], []⟩, [],
          [(1, ⟨Job.new (Structure.new [] none "j" 0)
              ⟨Engine.agent "a" "s", Js.null⟩ ⟨1, 2, 0, 60, ["brain"]⟩ 1,
            0, 0, false, false, true, none⟩)],
          [1], [("w1", ⟨8, 1, 0, true, ["brain"]⟩)], []⟩
        0).2.2.getD 0 ⟨"", "", []⟩).jobs ≤ w.available_gpus ∧
      ∀ j ∈ ((schedule_work
        ⟨⟨⟨[], []⟩, [], []⟩, [],
          [(1, ⟨Job.new (Structure.new [] none "j" 0)
              ⟨Engine.agent "a" "s", Js.null⟩ ⟨1, 2, 0, 60, ["brain"]⟩ 1,
            0, 0, false, false, true, none⟩)],
          [1], [("w1", ⟨8, 1, 0, true, ["brain"]⟩)], []⟩
        0).2.2.getD 0 ⟨"", "", []⟩).jobs,
        j.resources.required_tags.all (fun t => w.tags.contains t) = true :=
  scheduling_safety
    ⟨⟨⟨[], []⟩, [], []⟩, [],
      [(1, ⟨Job.new (Structure.new [] none "j" 0)
          ⟨Engine.agent "a" "s", Js.null⟩ ⟨1, 2, 0, 60, ["brain"]⟩ 1,
        0, 0, false, false, true, none⟩)],
      [1], [("w1", ⟨8, 1, 0, true, ["brain"]⟩)], []⟩
    0
    ((schedule_work
      ⟨⟨⟨[], []⟩, [], []⟩, [],
        [(1, ⟨Job.new (Structure.new [] none "j" 0)
            ⟨Engine.agent "a" "s", Js.null⟩ ⟨1, 2, 0, 60, ["brain"]⟩ 1,
          0, 0, false, false, true, none⟩)],
        [1], [("w1", ⟨8, 1, 0, true, ["brain"]⟩)], []⟩
      0).2.2.getD 0 ⟨"", "", []⟩)
    (by decide)
